import Mathlib

/-!
# VMLMB (limited-memory BFGS with bounds): the driver of `op_vmlmb.c`

A shallow embedding of `src/op_vmlmb.c` (OptimPackLegacy).

Conventions of the embedding.

* `double` values are rationals: arithmetic is exact, every value is finite
  and is a number (no rounding, no infinities, no NaN).
* `op_integer_t` and `int` values are integers (`Int`); `%` is the truncating
  remainder of C, `Int.tmod`.  The local `stage` of `op_vmlmb_next` is an `int`
  read from an `op_integer_t` slot: the conversion is `castInt`, the identity on
  the range of `int`.
* A `double` array passed by the caller or carved out of `dsave` is a function
  from the element index to its value; only the first `n` elements are read or
  written by the code.  The store `S(K) = &s[K*n]` is the function `K ↦ S(K)`.
* `isave` and `dsave` are read through their named indices only, so the
  workspace is the record `Workspace` with one field per `INDEX_OF_*`, plus the
  work arrays `alpha`, `rho`, `d`, `s`, `y` and the message buffer `csave`.  The
  getters of `iter`, `nevals` and `nrestarts` are the exception: they read `dsave`
  at the indices of the `isave` slots, below `INDEX_OF_SFTOL`, and take the array
  `dsave` as their argument.
* The vector kernels (`op_ddot`, `op_dscal`, ...) are defined in another file of
  the library; they are modelled from section 6.1 of the specification.  The
  Euclidean norm needs a square root, which the rationals lack: the square-root
  function is a parameter `sqrt` of every definition that calls `op_dnrm2`, and
  `Rat.sqrt` (exact on rational squares) is used to evaluate concrete runs.
* The line search `op_csrch` is external and keeps its own state: what it
  returns on a call (`info`, the new `stp` and `task`, the message) is an
  argument `ls : Csrch` of `op_vmlmb_next`, so that every statement holds for
  every line search.
* `goto restart` and `goto done` are rendered by splitting `op_vmlmb_next` into
  blocks (`restart`, `twoLoop`, `stage3`, `direction`, `initSearch`, `search`)
  whose result says where control goes next (`Flow`, `Recursion`).
-/

namespace VMLMB

/-- A `double` array, indexed from zero. -/
abbrev Vec := Nat → ℚ

/-- An `op_logical_t` array, each element read as a truth value. -/
abbrev Mask := Nat → Bool

/-- Modelled from the spec: the task enumeration of section 6.4 (the constants
`OP_TASK_*` are declared in `optimpack.h`). -/
inductive Task where
  | START
  | FG
  | NEWX
  | CONV
  | WARN
  | ERROR
  deriving DecidableEq

/-- The workspace `(csave, isave, dsave)` of the optimizer. -/
structure Workspace where
  /-- Message buffer `csave`. -/
  csave : String
  /-- Slot `isave[INDEX_OF_TASK]`. -/
  task : Task
  /-- Slot `isave[INDEX_OF_STAGE]`. -/
  stage : Int
  /-- Slot `isave[INDEX_OF_M]`. -/
  m : Int
  /-- Slot `isave[INDEX_OF_N]`. -/
  n : Int
  /-- Slot `isave[INDEX_OF_ITER]`. -/
  iter : Int
  /-- Slot `isave[INDEX_OF_MARK]`. -/
  mark : Int
  /-- Slot `isave[INDEX_OF_MP]`. -/
  mp : Int
  /-- Slot `isave[INDEX_OF_FLAGS]`, a bit set. -/
  flags : Nat
  /-- Slot `isave[INDEX_OF_NEVALS]`. -/
  nevals : Int
  /-- Slot `isave[INDEX_OF_NRESTARTS]`. -/
  nrestarts : Int
  /-- Slot `dsave[INDEX_OF_SFTOL]`. -/
  sftol : ℚ
  /-- Slot `dsave[INDEX_OF_SGTOL]`. -/
  sgtol : ℚ
  /-- Slot `dsave[INDEX_OF_SXTOL]`. -/
  sxtol : ℚ
  /-- Slot `dsave[INDEX_OF_FRTOL]`. -/
  frtol : ℚ
  /-- Slot `dsave[INDEX_OF_FATOL]`. -/
  fatol : ℚ
  /-- Slot `dsave[INDEX_OF_FMIN]`. -/
  fmin : ℚ
  /-- Slot `dsave[INDEX_OF_F0]`. -/
  f0 : ℚ
  /-- Slot `dsave[INDEX_OF_GD]`. -/
  gd : ℚ
  /-- Slot `dsave[INDEX_OF_GD0]`. -/
  gd0 : ℚ
  /-- Slot `dsave[INDEX_OF_STP]`. -/
  stp : ℚ
  /-- Slot `dsave[INDEX_OF_STPMIN]`. -/
  stpmin : ℚ
  /-- Slot `dsave[INDEX_OF_STPMAX]`. -/
  stpmax : ℚ
  /-- Slot `dsave[INDEX_OF_DELTA]`. -/
  delta : ℚ
  /-- Slot `dsave[INDEX_OF_EPSILON]`. -/
  epsilon : ℚ
  /-- Slot `dsave[INDEX_OF_GPNORM]`. -/
  gpnorm : ℚ
  /-- Array `alpha = dsave + INDEX_OF_WORK`. -/
  alpha : Int → ℚ
  /-- Array `rho = alpha + m`. -/
  rho : Int → ℚ
  /-- Array `d = rho + m`, the anti-search direction. -/
  d : Vec
  /-- Store `S(K) = &s[K*n]` with `s = d + n`. -/
  s : Int → Vec
  /-- Store `Y(K) = &y[K*n]` with `y = s + n*m`. -/
  y : Int → Vec

/-- Macro `FLAG_FMIN = FLAG(0) = (1 << 0)`. -/
def FLAG_FMIN : Nat := 1 <<< 0

/-- Macro `FLAG_IS_SET(value, flag) = (((value) & (flag)) != 0)`. -/
def FLAG_IS_SET (value flag : Nat) : Bool := (value &&& flag) != 0

/-- Macro `STPMAX`, defined as `1e20`. -/
def STPMAX : ℚ := 100000000000000000000

/-- The static `max` of the file: `a >= b ? a : b`. -/
def max (a b : ℚ) : ℚ := if a ≥ b then a else b

/-- Function `op_vmlmb_first`: validates the arguments; on a violation the message is
copied to `csave` and `OP_TASK_ERROR` returned with `isave`, `dsave` untouched;
otherwise the scalar slots are initialised and `isave[INDEX_OF_TASK]` returned. -/
def op_vmlmb_first (n m : Int) (fatol frtol sftol sgtol sxtol delta epsilon : ℚ)
    (ws : Workspace) : Task × Workspace :=
  if n ≤ 0 then (Task.ERROR, { ws with csave := "op_vmlmb_first: N <= 0" })
  else if m ≤ 0 then (Task.ERROR, { ws with csave := "op_vmlmb_first: M <= 0" })
  else if fatol < 0 then (Task.ERROR, { ws with csave := "op_vmlmb_first: FATOL < 0" })
  else if frtol < 0 then (Task.ERROR, { ws with csave := "op_vmlmb_first: FRTOL < 0" })
  else if sxtol ≤ 0 then (Task.ERROR, { ws with csave := "op_vmlmb_first: SXTOL <= 0" })
  else if sxtol ≥ 1 then (Task.ERROR, { ws with csave := "op_vmlmb_first: SXTOL >= 1" })
  else if sftol ≤ 0 then (Task.ERROR, { ws with csave := "op_vmlmb_first: SFTOL <= 0" })
  else if sftol ≥ 1 then (Task.ERROR, { ws with csave := "op_vmlmb_first: SFTOL >= 1" })
  else if sgtol ≤ 0 then (Task.ERROR, { ws with csave := "op_vmlmb_first: SGTOL <= 0" })
  else if sgtol ≥ 1 then (Task.ERROR, { ws with csave := "op_vmlmb_first: SGTOL >= 1" })
  else if sftol ≥ sgtol then
    (Task.ERROR, { ws with csave := "op_vmlmb_first: SFTOL >= SGTOL" })
  else if delta < 0 then (Task.ERROR, { ws with csave := "op_vmlmb_first: DELTA < 0" })
  else if epsilon < 0 then
    (Task.ERROR, { ws with csave := "op_vmlmb_first: EPSILON < 0" })
  else
    let ws1 : Workspace :=
      { ws with
        task := Task.FG, stage := 0, m := m, n := n, iter := 0, mark := 0, mp := 0,
        flags := 0, nevals := 0, nrestarts := 0,
        sftol := sftol, sgtol := sgtol, sxtol := sxtol, frtol := frtol,
        fatol := fatol, fmin := 0, f0 := 0, gd := 0, gd0 := 0, stp := 0,
        stpmin := 0, stpmax := 0, delta := delta, epsilon := epsilon, gpnorm := 0 }
    (ws1.task, ws1)

/-- The ten conditions `op_vmlmb_first` validates. -/
def ValidArgs (n m : Int) (fatol frtol sftol sgtol sxtol delta epsilon : ℚ) : Prop :=
  0 < n ∧ 0 < m ∧ 0 ≤ fatol ∧ 0 ≤ frtol ∧ (0 < sxtol ∧ sxtol < 1) ∧
    (0 < sftol ∧ sftol < 1) ∧ (0 < sgtol ∧ sgtol < 1) ∧ sftol < sgtol ∧
    0 ≤ delta ∧ 0 ≤ epsilon

/-- Function `op_vmlmb_get_fmin`: the "was-set" test and, when it holds, the value. -/
def op_vmlmb_get_fmin (ws : Workspace) : Bool × Option ℚ :=
  let test := FLAG_IS_SET ws.flags FLAG_FMIN
  (test, if test then some ws.fmin else none)

/-- Function `op_vmlmb_set_fmin`: returns the "was-set" test, the old value when it was
set, and the workspace with the new value stored and the flag raised. -/
def op_vmlmb_set_fmin (ws : Workspace) (new_value : ℚ) : Bool × Option ℚ × Workspace :=
  let test := FLAG_IS_SET ws.flags FLAG_FMIN
  (test, (if test then some ws.fmin else none),
    { ws with fmin := new_value, flags := ws.flags ||| FLAG_FMIN })

/-- Getter `op_vmlmb_get_sftol`. -/
def op_vmlmb_get_sftol (ws : Workspace) : ℚ := ws.sftol
/-- Getter `op_vmlmb_get_sgtol`. -/
def op_vmlmb_get_sgtol (ws : Workspace) : ℚ := ws.sgtol
/-- Getter `op_vmlmb_get_sxtol`. -/
def op_vmlmb_get_sxtol (ws : Workspace) : ℚ := ws.sxtol
/-- Getter `op_vmlmb_get_frtol`. -/
def op_vmlmb_get_frtol (ws : Workspace) : ℚ := ws.frtol
/-- Getter `op_vmlmb_get_fatol`. -/
def op_vmlmb_get_fatol (ws : Workspace) : ℚ := ws.fatol
/-- Getter `op_vmlmb_get_step`. -/
def op_vmlmb_get_step (ws : Workspace) : ℚ := ws.stp
/-- Getter `op_vmlmb_get_delta`. -/
def op_vmlmb_get_delta (ws : Workspace) : ℚ := ws.delta
/-- Getter `op_vmlmb_get_epsilon`. -/
def op_vmlmb_get_epsilon (ws : Workspace) : ℚ := ws.epsilon
/-- Getter `op_vmlmb_get_gpnorm`. -/
def op_vmlmb_get_gpnorm (ws : Workspace) : ℚ := ws.gpnorm

/-- Macro `INDEX_OF_ITER`. -/
def INDEX_OF_ITER : Nat := 6
/-- Macro `INDEX_OF_NEVALS`. -/
def INDEX_OF_NEVALS : Nat := 10
/-- Macro `INDEX_OF_NRESTARTS`. -/
def INDEX_OF_NRESTARTS : Nat := 11

/-- The conversion of a `double` to `op_integer_t`, implicit in the `return` of
the integer getters: the fractional part is dropped.  C leaves the conversion
undefined when the result does not fit the integer type. -/
def truncate (q : ℚ) : Int := if 0 ≤ q then Int.floor q else Int.ceil q

/-- Getter `op_vmlmb_get_iter`, emitted by
`EMIT_CODE(op_integer_t, iter, ITER, isave)`.  The body of the macro is
`return dsave[INDEX_OF_FOO]` and does not use its last argument, so the getter
reads `dsave[INDEX_OF_ITER]`, not the slot `isave[INDEX_OF_ITER]` that
`op_vmlmb_next` maintains.  The argument is the array `dsave` of the caller: its
slots below `INDEX_OF_SFTOL` are reserved for `op_csrch` and are not part of
`Workspace`. -/
def op_vmlmb_get_iter (dsave : Nat → ℚ) : Int := truncate (dsave INDEX_OF_ITER)

/-- Getter `op_vmlmb_get_nevals`, emitted by
`EMIT_CODE(op_integer_t, nevals, NEVALS, isave)`: it reads
`dsave[INDEX_OF_NEVALS]`, not the counter `isave[INDEX_OF_NEVALS]`. -/
def op_vmlmb_get_nevals (dsave : Nat → ℚ) : Int := truncate (dsave INDEX_OF_NEVALS)

/-- Getter `op_vmlmb_get_nrestarts`, emitted by
`EMIT_CODE(op_integer_t, nrestarts, NRESTARTS, isave)`: it reads
`dsave[INDEX_OF_NRESTARTS]`, not the counter `isave[INDEX_OF_NRESTARTS]`. -/
def op_vmlmb_get_nrestarts (dsave : Nat → ℚ) : Int := truncate (dsave INDEX_OF_NRESTARTS)

/-- Modelled from the spec: `dot(n, a, b)` of section 6.1, the sum of the
products of the first `n` elements (`op_ddot`, defined outside `op_vmlmb.c`). -/
def op_ddot (n : Int) (a b : Vec) : ℚ :=
  ∑ i in Finset.range n.toNat, a i * b i

/-- Modelled from the spec: `dot_active(n, a, b, active)` of section 6.1, the
sum over the indices where `active[i]` is truthy; every index counts when
`active` is `NULL` (`op_ddot_active`, defined outside `op_vmlmb.c`). -/
def op_ddot_active (n : Int) (a b : Vec) (active : Option Mask) : ℚ :=
  match active with
  | none => op_ddot n a b
  | some act => ∑ i in Finset.range n.toNat, if act i then a i * b i else 0

/-- Modelled from the spec: `scal(n, α, a)` of section 6.1, `a := α·a` on the
first `n` elements (`op_dscal`, defined outside `op_vmlmb.c`). -/
def op_dscal (n : Int) (a : ℚ) (v : Vec) : Vec :=
  fun i => if i < n.toNat then a * v i else v i

/-- Modelled from the spec: `axpy_active(n, α, x, y, active)` of section 6.1,
`y[i] += α·x[i]` where the mask permits, everywhere when `active` is `NULL`
(`op_daxpy_active`, defined outside `op_vmlmb.c`). -/
def op_daxpy_active (n : Int) (a : ℚ) (x y : Vec) (active : Option Mask) : Vec :=
  match active with
  | none => fun i => if i < n.toNat then y i + a * x i else y i
  | some act => fun i => if i < n.toNat ∧ act i = true then y i + a * x i else y i

/-- Modelled from the spec: `copy_active(n, src, dst, active)` of section 6.1,
copying where the mask permits and storing zero elsewhere, the convention under
which the norm of the result is the norm of the gradient restricted to the
active set; a plain copy when `active` is `NULL` (`op_dcopy_active`, defined
outside `op_vmlmb.c`). -/
def op_dcopy_active (n : Int) (src dst : Vec) (active : Option Mask) : Vec :=
  match active with
  | none => fun i => if i < n.toNat then src i else dst i
  | some act => fun i => if i < n.toNat then (if act i then src i else 0) else dst i

/-- Modelled from the spec: `nrm2(n, a)` of section 6.1, the Euclidean norm of
the first `n` elements (`op_dnrm2`, defined outside `op_vmlmb.c`).  The rationals
are not closed under square roots, so the square-root function is the parameter
`sqrt`. -/
def op_dnrm2 (sqrt : ℚ → ℚ) (n : Int) (a : Vec) : ℚ :=
  sqrt (op_ddot n a a)

/-- Modelled from the spec: `noneof(n, a)` of section 6.1, true iff each of the
first `n` elements is exactly zero (`op_noneof`, defined outside `op_vmlmb.c`). -/
def op_noneof (n : Int) (a : Vec) : Bool :=
  (List.range n.toNat).all fun i => decide (a i = 0)

/-- Macro `op_dcopy(n, x, y)`, defined as `memcpy((y), (x), (n)*sizeof(double))`. -/
def op_dcopy (n : Int) (x y : Vec) : Vec :=
  fun i => if i < n.toNat then x i else y i

/-- The outcome of one call of the external line search `op_csrch`: its return
value `info`, the values it leaves in `*stp_ptr` and `*task`, and the message it
leaves in `csave`.  The slots of `isave` and `dsave` reserved for `op_csrch` are
not part of `Workspace`. -/
structure Csrch where
  /-- Return value of `op_csrch`. -/
  info : Int
  /-- Value of `stp` after the call. -/
  stp : ℚ
  /-- Value of `task` after the call. -/
  task : Task
  /-- Content of `csave` after the call. -/
  csave : String

/-- The local variables of `op_vmlmb_next` that change during a call, the work
arrays, and the arrays `x`, `*f`, `g`, `active` of the caller. -/
structure Frame where
  /-- Message buffer. -/
  csave : String
  /-- Local `task`. -/
  task : Task
  /-- Local `stage`. -/
  stage : Int
  /-- Local `iter`. -/
  iter : Int
  /-- Local `mark`. -/
  mark : Int
  /-- Local `mp`. -/
  mp : Int
  /-- Local `nevals`. -/
  nevals : Int
  /-- Local `nrestarts`. -/
  nrestarts : Int
  /-- Local `f0`. -/
  f0 : ℚ
  /-- Local `gd`. -/
  gd : ℚ
  /-- Local `gd0`. -/
  gd0 : ℚ
  /-- Local `stp`. -/
  stp : ℚ
  /-- Local `stpmin`. -/
  stpmin : ℚ
  /-- Local `stpmax`. -/
  stpmax : ℚ
  /-- Local `gpnorm`. -/
  gpnorm : ℚ
  /-- Work array `alpha`. -/
  alpha : Int → ℚ
  /-- Work array `rho`. -/
  rho : Int → ℚ
  /-- Work array `d`. -/
  d : Vec
  /-- Store `S`. -/
  s : Int → Vec
  /-- Store `Y`. -/
  y : Int → Vec
  /-- Argument `x` of the caller. -/
  x : Vec
  /-- Argument `*f` of the caller. -/
  f : ℚ
  /-- Argument `g` of the caller. -/
  g : Vec
  /-- Argument `active` of the caller, `none` for `NULL`. -/
  active : Option Mask

/-- What a call of `op_vmlmb_next` leaves behind: the returned task, the
workspace, and the arrays `x`, `*f`, `g`, `active` of the caller. -/
structure Result where
  /-- Return value. -/
  task : Task
  /-- Workspace after the call. -/
  ws : Workspace
  /-- Argument `x` of the caller after the call. -/
  x : Vec
  /-- Argument `*f` of the caller after the call. -/
  f : ℚ
  /-- Argument `g` of the caller after the call. -/
  g : Vec
  /-- Argument `active` of the caller after the call. -/
  active : Option Mask

/-- The conversion of an `op_integer_t` value to `int`, implicit in
`int stage = isave[INDEX_OF_STAGE]`.  It leaves every value in the range of `int`
as it is; for a value out of that range, which the slot can hold only where
`op_integer_t` is wider than `int`, C leaves the result to the implementation, and
the definition takes the wrap modulo `2^32` of the usual compilers with a 32-bit
`int`. -/
def castInt (z : Int) : Int := (z + 2147483648) % 4294967296 - 2147483648

/-- The head of `op_vmlmb_next`: "Get local variables".  The local `stage` is an
`int`, the slot it is read from an `op_integer_t`. -/
def load (ws : Workspace) (x : Vec) (f : ℚ) (g : Vec) (active : Option Mask) : Frame :=
  { csave := ws.csave, task := ws.task, stage := castInt ws.stage, iter := ws.iter,
    mark := ws.mark, mp := ws.mp, nevals := ws.nevals, nrestarts := ws.nrestarts,
    f0 := ws.f0, gd := ws.gd, gd0 := ws.gd0, stp := ws.stp, stpmin := ws.stpmin,
    stpmax := ws.stpmax, gpnorm := ws.gpnorm, alpha := ws.alpha, rho := ws.rho,
    d := ws.d, s := ws.s, y := ws.y, x := x, f := f, g := g, active := active }

/-- The tail of `op_vmlmb_next` from label `done`: "Save local variables (but
constant ones) and return TASK".  The local `gpnorm` is not saved. -/
def done (ws : Workspace) (L : Frame) : Result :=
  { task := L.task,
    ws := { ws with
            csave := L.csave, task := L.task, stage := L.stage, iter := L.iter,
            mark := L.mark, mp := L.mp, nevals := L.nevals, nrestarts := L.nrestarts,
            f0 := L.f0, gd := L.gd, gd0 := L.gd0, stp := L.stp, stpmin := L.stpmin,
            stpmax := L.stpmax, alpha := L.alpha, rho := L.rho, d := L.d, s := L.s,
            y := L.y },
    x := L.x, f := L.f, g := L.g, active := L.active }

/-- What `check_active` leaves behind: its return value, the `active` array,
`*task` and `csave`. -/
structure Checked where
  /-- Return value, non-zero in case of error. -/
  rc : Int
  /-- The `active` array after the call. -/
  active : Option Mask
  /-- Value of `*task` after the call. -/
  task : Task
  /-- Content of `csave` after the call. -/
  csave : String

/-- Function `check_active`: "Check H and ACTIVE arrays, possibly fix ACTIVE, returns
non-zero in case of error". -/
def check_active (n : Int) (active : Option Mask) (h : Option Vec) (task : Task)
    (csave : String) : Checked :=
  match h with
  | none => { rc := 0, active := active, task := task, csave := csave }
  | some hv =>
    match active with
    | some act =>
      { rc := 0,
        active := some fun i => if i < n.toNat ∧ act i = true ∧ hv i ≤ 0 then false else act i,
        task := task, csave := csave }
    | none =>
      if (List.range n.toNat).any fun i => decide (hv i ≤ 0) then
        { rc := -1, active := none, task := Task.ERROR,
          csave := "op_vmlmb_next: H is not positive definite" }
      else { rc := 0, active := none, task := task, csave := csave }

/-- Where control goes after a block of `op_vmlmb_next`: to label `done`, or on
to the line-search part. -/
inductive Flow where
  | done (L : Frame)
  | cont (L : Frame)

/-- The multiplication `d[i] *= h[i]` for `i < n`. -/
def mulDiag (n : Int) (hv d : Vec) : Vec :=
  fun i => if i < n.toNat then d i * hv i else d i

/-- The block of `op_vmlmb_next` from label `restart` to `stage = 1`: the
(scaled or preconditioned) steepest ascent. -/
def restart (sqrt : ℚ → ℚ) (ws : Workspace) (h : Option Vec) (L : Frame) : Flow :=
  let n := ws.n
  let c := check_active n L.active h L.task L.csave
  let L1 : Frame := { L with mp := 0, active := c.active, task := c.task, csave := c.csave }
  if c.rc ≠ 0 then Flow.done L1
  else
    let d1 := op_dcopy_active n L1.g L1.d L1.active
    let gpnorm := op_dnrm2 sqrt n d1
    let L2 : Frame := { L1 with d := d1, gpnorm := gpnorm }
    if gpnorm = 0 then
      Flow.done { L2 with task := Task.CONV, csave := "op_vmlmb_next: local minimum found" }
    else
      match h with
      | none =>
        let scale0 : ℚ := if ws.delta > 0 then (op_dnrm2 sqrt n L2.x / gpnorm) * ws.delta else 0
        let scale : ℚ := if scale0 ≤ 0 then 1 / gpnorm else scale0
        let d2 := if scale ≠ 1 then op_dscal n scale d1 else d1
        Flow.cont { L2 with d := d2, gd := -(scale * gpnorm) * gpnorm, stage := 1 }
      | some hv =>
        let d2 := mulDiag n hv d1
        let gd := -op_ddot n L2.g d2
        if gd ≥ 0 then
          Flow.done { L2 with d := d2, gd := gd, task := Task.ERROR,
                              csave := "op_vmlmb_next: preconditioner is not positive definite" }
        else Flow.cont { L2 with d := d2, gd := gd, stage := 1 }

/-- The variables the first loop of the two-loop recursion updates. -/
structure TwoLoop where
  /-- Work array `alpha`. -/
  alpha : Int → ℚ
  /-- Work array `rho`. -/
  rho : Int → ℚ
  /-- Work array `d`. -/
  d : Vec
  /-- Local `gamma`. -/
  gamma : ℚ

/-- Body of the first loop, `for (k = 0; k < mp; ++k)`, at index `k`. -/
def firstBody (n m mm : Int) (active : Option Mask) (s y : Int → Vec) (k : Int)
    (t : TwoLoop) : TwoLoop :=
  let j := (mm - k).tmod m
  let rho := if active.isSome then
      Function.update t.rho j (op_ddot_active n (s j) (y j) active) else t.rho
  if rho j > 0 then
    let a := op_ddot n (s j) t.d / rho j
    { alpha := Function.update t.alpha j a,
      rho := rho,
      d := op_daxpy_active n (-a) (y j) t.d active,
      gamma := if t.gamma ≤ 0 then rho j / op_ddot_active n (y j) (y j) active else t.gamma }
  else { t with rho := rho }

/-- The first loop after its first `c` iterations `k = 0, ..., c-1`. -/
def firstLoop (n m mm : Int) (active : Option Mask) (s y : Int → Vec) : Nat → TwoLoop → TwoLoop
  | 0, t => t
  | c + 1, t => firstBody n m mm active s y (c : Int) (firstLoop n m mm active s y c t)

/-- Body of the second loop, `for (k = mp - 1; k >= 0; --k)`, at index `k`. -/
def secondBody (n m mm : Int) (active : Option Mask) (s y : Int → Vec)
    (alpha rho : Int → ℚ) (k : Int) (d : Vec) : Vec :=
  let j := (mm - k).tmod m
  if rho j > 0 then
    op_daxpy_active n (alpha j - op_ddot n (y j) d / rho j) (s j) d active
  else d

/-- The last `c` iterations `k = c-1, ..., 0` of the second loop. -/
def secondLoop (n m mm : Int) (active : Option Mask) (s y : Int → Vec)
    (alpha rho : Int → ℚ) : Nat → Vec → Vec
  | 0, d => d
  | c + 1, d =>
    secondLoop n m mm active s y alpha rho c (secondBody n m mm active s y alpha rho (c : Int) d)

/-- The outcome of the two-loop recursion proper (lines 295-333): either a jump
to `done`, or a jump to `restart` because every pair is invalid, or the
direction. -/
inductive Recursion where
  | done (L : Frame)
  | restart (L : Frame)
  | dir (L : Frame)

/-- The two-loop recursion of stage 3, from `double gamma = zero` to the end of
the second loop. -/
def twoLoop (ws : Workspace) (h : Option Vec) (L : Frame) : Recursion :=
  let n := ws.n
  let m := ws.m
  let mm := L.mark + m
  let c := check_active n L.active h L.task L.csave
  let L1 : Frame := { L with active := c.active, task := c.task, csave := c.csave }
  if c.rc ≠ 0 then Recursion.done L1
  else
    let d1 := op_dcopy_active n L1.g L1.d L1.active
    let t := firstLoop n m mm L1.active L1.s L1.y L1.mp.toNat
      { alpha := L1.alpha, rho := L1.rho, d := d1, gamma := 0 }
    let L2 : Frame := { L1 with alpha := t.alpha, rho := t.rho, d := t.d }
    match h with
    | some hv =>
      Recursion.dir { L2 with d := secondLoop n m mm L2.active L2.s L2.y L2.alpha L2.rho
                                     L2.mp.toNat (mulDiag n hv t.d) }
    | none =>
      if t.gamma > 0 then
        Recursion.dir { L2 with d := secondLoop n m mm L2.active L2.s L2.y L2.alpha L2.rho
                                       L2.mp.toNat (op_dscal n t.gamma t.d) }
      else Recursion.restart { L2 with nrestarts := L2.nrestarts + 1 }

/-- The descent test of stage 3 (lines 337-341) on the direction held by `L`
and its `gd`. -/
def descent (sqrt : ℚ → ℚ) (ws : Workspace) (L : Frame) (gd : ℚ) : Bool :=
  if ws.epsilon > 0 then
    decide (gd ≤ -ws.epsilon * op_dnrm2 sqrt ws.n L.g * op_dnrm2 sqrt ws.n L.d)
  else decide (gd < 0)

/-- The stage-3 block of `op_vmlmb_next`: two-loop recursion, descent test,
restart or advance of the mark. -/
def stage3 (sqrt : ℚ → ℚ) (ws : Workspace) (h : Option Vec) (L : Frame) : Flow :=
  match twoLoop ws h L with
  | Recursion.done L1 => Flow.done L1
  | Recursion.restart L1 => restart sqrt ws h L1
  | Recursion.dir L1 =>
    let gd := -op_ddot ws.n L1.g L1.d
    let L2 : Frame := { L1 with gd := gd }
    if ¬ descent sqrt ws L1 gd then restart sqrt ws h { L2 with nrestarts := L2.nrestarts + 1 }
    else Flow.cont { L2 with mark := (L2.mark + 1).tmod ws.m, stage := 1 }

/-- The convergence tests run on an accepted step (lines 420-434): the task and
the message. -/
def acceptTask (ws : Workspace) (L : Frame) : Task × String :=
  if op_noneof ws.n (L.s L.mark) then (Task.WARN, "op_vmlmb_next: no parameter change")
  else if op_noneof ws.n (L.y L.mark) then (Task.WARN, "op_vmlmb_next: no gradient change")
  else
    let change := max |L.f - L.f0| |L.stp * L.gd0|
    if change ≤ ws.frtol * |L.f0| then (Task.CONV, "op_vmlmb_next: FRTOL test satisfied")
    else if change ≤ ws.fatol then (Task.CONV, "op_vmlmb_next: FATOL test satisfied")
    else (Task.NEWX, "op_vmlmb_next: new improved solution available for inspection")

/-- The block `if (stage == 1) ... else ...` (lines 364-389): initialise the
line search, or set `task` so as to continue it. -/
def initSearch (ws : Workspace) (L : Frame) : Frame :=
  if L.stage = 1 then
    { L with f0 := L.f, gd0 := L.gd, stpmin := 0, stpmax := STPMAX,
             stp := min 1 STPMAX,
             s := Function.update L.s L.mark (op_dcopy ws.n L.x (L.s L.mark)),
             y := Function.update L.y L.mark (op_dcopy ws.n L.g (L.y L.mark)),
             stage := 2, task := Task.START }
  else { L with task := Task.FG }

/-- The branch `info == 2 || info == 5` (lines 405-434): the step is accepted. -/
def accept (ws : Workspace) (L : Frame) : Frame :=
  let n := ws.n
  let Ym : Vec := fun i => if i < n.toNat then L.y L.mark i - L.g i else L.y L.mark i
  let Sm : Vec := fun i => if i < n.toNat then L.s L.mark i - L.x i else L.s L.mark i
  let L3 : Frame :=
    { L with iter := L.iter + 1, mp := if L.mp < ws.m then L.mp + 1 else L.mp,
             stage := 3,
             y := Function.update L.y L.mark Ym,
             s := Function.update L.s L.mark Sm }
  let L4 : Frame :=
    if L3.active.isNone then
      { L3 with rho := Function.update L3.rho L3.mark
                         (op_ddot n (L3.y L3.mark) (L3.s L3.mark)) }
    else L3
  { L4 with task := (acceptTask ws L4).1, csave := (acceptTask ws L4).2 }

/-- The block `if (stage == 2) ...` (lines 391-443): "Determine the line search
parameter".  `ls` is what `op_csrch` returns if it is called. -/
def search (ws : Workspace) (ls : Csrch) (L : Frame) : Frame :=
  if L.stage = 2 then
    if FLAG_IS_SET ws.flags FLAG_FMIN = true ∧ L.f < ws.fmin then
      { L with task := Task.WARN, csave := "op_vmlmb_next: F < FMIN" }
    else
      let L2 : Frame := { L with stp := ls.stp, task := ls.task, csave := ls.csave }
      if ls.info = 1 then
        { L2 with x := fun i =>
            if i < ws.n.toNat then L2.s L2.mark i - L2.stp * L2.d i else L2.x i }
      else if ls.info = 2 ∨ ls.info = 5 then accept ws L2
      else if ls.info ≥ 3 then
        { L2 with x := op_dcopy ws.n (L2.s L2.mark) L2.x,
                  g := op_dcopy ws.n (L2.y L2.mark) L2.g,
                  f := L2.f0 }
      else L2
  else L

/-- The line-search part of `op_vmlmb_next`, from `if (stage == 1)` to label
`done`. -/
def lineSearch (ws : Workspace) (ls : Csrch) (L : Frame) : Frame :=
  search ws ls (initSearch ws L)

/-- The locals of `op_vmlmb_next` after `if (task == OP_TASK_FG) ++nevals`. -/
def entry (ws : Workspace) (x : Vec) (f : ℚ) (g : Vec) (active : Option Mask) : Frame :=
  let L0 := load ws x f g active
  if L0.task = Task.FG then { L0 with nevals := L0.nevals + 1 } else L0

/-- The chain `if (stage == 0) ... else if (stage == 3) ... else if (stage == 2)
... else ...` of `op_vmlmb_next` (lines 206-362). -/
def direction (sqrt : ℚ → ℚ) (ws : Workspace) (h : Option Vec) (L : Frame) : Flow :=
  if L.stage = 0 then
    if FLAG_IS_SET ws.flags FLAG_FMIN = true ∧ L.f ≤ ws.fmin then
      Flow.done { L with task := Task.ERROR, csave := "op_vmlmb_next: initial F <= FMIN" }
    else restart sqrt ws h { L with iter := 0, nevals := 1, nrestarts := 0, mark := 0 }
  else if L.stage = 3 then stage3 sqrt ws h L
  else if L.stage = 2 then Flow.cont { L with gd := -op_ddot ws.n L.g L.d }
  else Flow.done { L with task := Task.ERROR, csave := "op_vmlmb_next: corrupted workspace" }

/-- Function `op_vmlmb_next`.  `sqrt` is the square root used by the external norm
kernel and `ls` the outcome of the call of the external line search `op_csrch`,
if one is made (at most one is). -/
def op_vmlmb_next (sqrt : ℚ → ℚ) (ls : Csrch)
    (x : Vec) (f : ℚ) (g : Vec) (active : Option Mask) (h : Option Vec)
    (ws : Workspace) : Result :=
  match direction sqrt ws h (entry ws x f g active) with
  | Flow.done L => done ws L
  | Flow.cont L => done ws (lineSearch ws ls L)

/-- The frame a `Flow` carries. -/
def Flow.frame : Flow → Frame
  | Flow.done L => L
  | Flow.cont L => L

/-- Whether control goes on to the line-search part. -/
def Flow.isCont : Flow → Bool
  | Flow.done _ => false
  | Flow.cont _ => true

/-- The frame with which stage 3 jumps to label `restart`, if it does: after the
first loop when every pair is invalid, or after a failed descent test. -/
def restartFrame (sqrt : ℚ → ℚ) (ws : Workspace) (h : Option Vec) (L : Frame) : Option Frame :=
  match twoLoop ws h L with
  | Recursion.done _ => none
  | Recursion.restart L1 => some L1
  | Recursion.dir L1 =>
    if ¬ descent sqrt ws L1 (-op_ddot ws.n L1.g L1.d) then
      some { L1 with gd := -op_ddot ws.n L1.g L1.d, nrestarts := L1.nrestarts + 1 }
    else none

/-- The frame a `Recursion` carries. -/
def Recursion.frame : Recursion → Frame
  | Recursion.done L => L
  | Recursion.restart L => L
  | Recursion.dir L => L

/-- Whether the two-loop recursion produced a direction. -/
def Recursion.isDir : Recursion → Bool
  | Recursion.dir _ => true
  | _ => false

/-- The frame with which a call of `op_vmlmb_next` enters the restart path
(label `restart`), if it does: on a first call at stage 0 that passes the `fmin`
test, or on a jump from stage 3. -/
def restartEntry (sqrt : ℚ → ℚ) (ws : Workspace) (x : Vec) (f : ℚ) (g : Vec)
    (active : Option Mask) (h : Option Vec) : Option Frame :=
  if (entry ws x f g active).stage = 0 then
    if FLAG_IS_SET ws.flags FLAG_FMIN = true ∧ (entry ws x f g active).f ≤ ws.fmin then none
    else some { entry ws x f g active with iter := 0, nevals := 1, nrestarts := 0, mark := 0 }
  else if (entry ws x f g active).stage = 3 then restartFrame sqrt ws h (entry ws x f g active)
  else none

/-- The arguments of one call of `op_vmlmb_next`, with the outcome of the line
search on that call. -/
structure Call where
  /-- Outcome of `op_csrch` if it is called. -/
  ls : Csrch
  /-- Argument `x`. -/
  x : Vec
  /-- Argument `*f`. -/
  f : ℚ
  /-- Argument `g`. -/
  g : Vec
  /-- Argument `active`. -/
  active : Option Mask
  /-- Argument `h`. -/
  h : Option Vec

/-- One call of `op_vmlmb_next`. -/
def step (sqrt : ℚ → ℚ) (ws : Workspace) (c : Call) : Result :=
  op_vmlmb_next sqrt c.ls c.x c.f c.g c.active c.h ws

/-- The workspace after a sequence of calls of `op_vmlmb_next`. -/
def steps (sqrt : ℚ → ℚ) : Workspace → List Call → Workspace
  | ws, [] => ws
  | ws, c :: cs => steps sqrt (step sqrt ws c).ws cs

/-- On this call `op_csrch` is called: control reaches the line-search part and
the test `have_fmin && *f < fmin` fails. -/
def searchCalled (sqrt : ℚ → ℚ) (ws : Workspace) (c : Call) : Prop :=
  (direction sqrt ws c.h (entry ws c.x c.f c.g c.active)).isCont = true ∧
    ¬ (FLAG_IS_SET ws.flags FLAG_FMIN = true ∧ c.f < ws.fmin)

/-- This call starts a line search: the direction part ends with `stage = 1`,
so that the point, the objective and the gradient passed are saved. -/
def startsSearch (sqrt : ℚ → ℚ) (ws : Workspace) (c : Call) : Prop :=
  (direction sqrt ws c.h (entry ws c.x c.f c.g c.active)).isCont = true ∧
    (direction sqrt ws c.h (entry ws c.x c.f c.g c.active)).frame.stage = 1

/-- The call does not accept a step: either `op_csrch` is not called, because
`have_fmin && *f < fmin`, or it returns an `info` other than 2 and 5.  Every trial
call, on which `op_csrch` returns `info == 1`, is such a call. -/
def goesOn (ws : Workspace) (c : Call) : Prop :=
  (FLAG_IS_SET ws.flags FLAG_FMIN = true ∧ c.f < ws.fmin) ∨ (c.ls.info ≠ 2 ∧ c.ls.info ≠ 5)

/-- No call of the sequence, made in turn from `ws`, accepts a step. -/
def AllGoOn (sqrt : ℚ → ℚ) : Workspace → List Call → Prop
  | _, [] => True
  | ws, c :: cs => goesOn ws c ∧ AllGoOn sqrt (step sqrt ws c).ws cs

/-- The workspace `w` is in the middle of the line search started from the
point `x0` with objective `f0` and gradient `g0`, which left the workspace `w0`:
`stage = 2`, slot `mark` of the store holds `x0` and `g0`, `f0` is saved, and the
counters are those of `w0`. -/
def Searching (x0 g0 : Vec) (f0 : ℚ) (w0 w : Workspace) : Prop :=
  w.stage = 2 ∧ w.n = w0.n ∧ w.m = w0.m ∧ w.flags = w0.flags ∧ w.fmin = w0.fmin ∧
  w.mark = w0.mark ∧ w.iter = w0.iter ∧ w.mp = w0.mp ∧ w.f0 = f0 ∧
  (∀ i, i < w.n.toNat → w.s w.mark i = x0 i) ∧ (∀ i, i < w.n.toNat → w.y w.mark i = g0 i)

/-- The first `n` elements of an array, as a vector of dimension `n`. -/
def toFin (n : Nat) (v : Vec) : Fin n → ℚ := fun i => v i

/-- The BFGS update of an approximation `H` of the inverse Hessian by the pair
`(s, y)` with `rho = s.y`, as the specification writes it:
`(I - s yᵀ/rho) H (I - y sᵀ/rho) + s sᵀ/rho`. -/
def bfgsUpdate {n : Nat} (H : Matrix (Fin n) (Fin n) ℚ) (s y : Fin n → ℚ) (rho : ℚ) :
    Matrix (Fin n) (Fin n) ℚ :=
  (1 - (1 / rho) • Matrix.vecMulVec s y) * H * (1 - (1 / rho) • Matrix.vecMulVec y s) +
    (1 / rho) • Matrix.vecMulVec s s

/-- The limited-memory BFGS matrix as the specification describes it: starting
from `gamma * I`, the update is applied for the stored pairs from oldest to
newest.  `sv k`, `yv k`, `rho k` is the `k`-th most recent pair (`k = 0` the most
recent one, `k = mp - 1` the oldest), and `bfgsInverse ... j` is the matrix after
the `j` oldest pairs have been applied. -/
def bfgsInverse {n : Nat} (gamma : ℚ) (sv yv : Nat → Fin n → ℚ) (rho : Nat → ℚ) (mp : Nat) :
    Nat → Matrix (Fin n) (Fin n) ℚ
  | 0 => gamma • (1 : Matrix (Fin n) (Fin n) ℚ)
  | j + 1 =>
    bfgsUpdate (bfgsInverse gamma sv yv rho mp j) (sv (mp - 1 - j)) (yv (mp - 1 - j))
      (rho (mp - 1 - j))

/-- The slot of the store the two-loop recursion visits at index `k`:
`j = (mm - k)%m` with `mm = mark + m`. -/
def slot (ws : Workspace) (L : Frame) (k : Nat) : Int :=
  (L.mark + ws.m - (k : Int)).tmod ws.m

/-- The vector `d` after `k` iterations of the first loop, in exact arithmetic
on vectors of dimension `n`. -/
def qSeq {n : Nat} (sv yv : Nat → Fin n → ℚ) (rho : Nat → ℚ) (g : Fin n → ℚ) :
    Nat → Fin n → ℚ
  | 0 => g
  | k + 1 =>
    qSeq sv yv rho g k - (Matrix.dotProduct (sv k) (qSeq sv yv rho g k) / rho k) • yv k

/-- The coefficient `alpha` computed at iteration `k` of the first loop. -/
def aSeq {n : Nat} (sv yv : Nat → Fin n → ℚ) (rho : Nat → ℚ) (g : Fin n → ℚ) (k : Nat) : ℚ :=
  Matrix.dotProduct (sv k) (qSeq sv yv rho g k) / rho k

/-- The effect on a vector `r` of the last `c` iterations `k = c-1, ..., 0` of the
second loop, in exact arithmetic on vectors of dimension `n`. -/
def rSeq {n : Nat} (sv yv : Nat → Fin n → ℚ) (rho : Nat → ℚ) (g : Fin n → ℚ) :
    Nat → (Fin n → ℚ) → Fin n → ℚ
  | 0, r => r
  | c + 1, r =>
    rSeq sv yv rho g c
      (r + (aSeq sv yv rho g c - Matrix.dotProduct (yv c) r / rho c) • sv c)

/-- The workspaces reachable from a successful `op_vmlmb_first` by calls of
`op_vmlmb_next` (any arguments, any line-search outcome) and `op_vmlmb_set_fmin`. -/
inductive Reachable (sqrt : ℚ → ℚ) : Workspace → Prop where
  | first (n m : Int) (fatol frtol sftol sgtol sxtol delta epsilon : ℚ) (ws : Workspace)
      (hv : ValidArgs n m fatol frtol sftol sgtol sxtol delta epsilon) :
      Reachable sqrt (op_vmlmb_first n m fatol frtol sftol sgtol sxtol delta epsilon ws).2
  | next (ws : Workspace) (c : Call) (hr : Reachable sqrt ws) :
      Reachable sqrt (step sqrt ws c).ws
  | set_fmin (ws : Workspace) (v : ℚ) (hr : Reachable sqrt ws) :
      Reachable sqrt (op_vmlmb_set_fmin ws v).2.2

/-- The gradient restricted to the active set: zero where the mask forbids. -/
def masked (g : Vec) (active : Option Mask) : Vec :=
  match active with
  | none => g
  | some act => fun i => if act i then g i else 0

/-- The scale of the steepest-ascent direction as the specification words it:
`delta*||x||/gpnorm` if `delta > 0` and that product is positive, `1/gpnorm`
otherwise. -/
def steepestScale (delta xnorm gpnorm : ℚ) : ℚ :=
  if delta > 0 ∧ delta * xnorm / gpnorm > 0 then delta * xnorm / gpnorm else 1 / gpnorm

/-- A workspace whose every slot holds a value that `op_vmlmb_first` must
replace; used to evaluate the code on concrete inputs. -/
def junk : Workspace :=
  { csave := "", task := Task.START, stage := 7, m := 0, n := 0, iter := 5, mark := 5, mp := 5,
    flags := 1, nevals := 5, nrestarts := 5, sftol := 9, sgtol := 9, sxtol := 9, frtol := 9,
    fatol := 9, fmin := 9, f0 := 9, gd := 9, gd0 := 9, stp := 9, stpmin := 9, stpmax := 9,
    delta := 9, epsilon := 9, gpnorm := 9, alpha := fun _ => 0, rho := fun _ => 0,
    d := fun _ => 0, s := fun _ _ => 0, y := fun _ _ => 0 }

/-- A workspace initialised for `n = 1`, `m = 1`, `epsilon = 1/100`, `delta = 0`. -/
def flatWs : Workspace :=
  (op_vmlmb_first 1 1 0 0 (1/1000) (9/10) (1/10) 0 (1/100) junk).2

/-- First call on `f(x) = x^2/2` at `x = 1`: the line search is started and
returns the trial step `stp = 1`. -/
def flatCall0 : Call :=
  { ls := { info := 1, stp := 1, task := Task.FG, csave := "" },
    x := fun _ => 1, f := 1/2, g := fun _ => 1, active := none, h := none }

/-- Second call, at the trial point `x = 0` where `f = 0` and `g = 0`: the line
search reports convergence. -/
def flatCall1 : Call :=
  { ls := { info := 2, stp := 1, task := Task.CONV, csave := "" },
    x := fun _ => 0, f := 0, g := fun _ => 0, active := none, h := none }

/-- Third call, unchanged point: the next direction is computed. -/
def flatCall2 : Call :=
  { ls := { info := 1, stp := 1, task := Task.FG, csave := "" },
    x := fun _ => 0, f := 0, g := fun _ => 0, active := none, h := none }

/-- A workspace initialised for `n = 2`, `m = 2`, `delta = 1/10`, `epsilon = 0`. -/
def planeWs : Workspace :=
  (op_vmlmb_first 2 2 0 (1/100000000) (1/1000) (9/10) (1/10) (1/10) 0 junk).2

/-- First call at `x = (3, 4)` with gradient `(0, 5)`; the line search returns a
trial step. -/
def planeCall0 : Call :=
  { ls := { info := 1, stp := 1, task := Task.FG, csave := "" },
    x := fun i => if i = 0 then 3 else 4, f := 10, g := fun i => if i = 0 then 0 else 5,
    active := none, h := none }

/-- A trial call: the line search asks for another point. -/
def planeTrial : Call :=
  { ls := { info := 1, stp := 1/2, task := Task.FG, csave := "" },
    x := fun i => if i = 0 then 3 else 3, f := 7, g := fun i => if i = 0 then 0 else 4,
    active := none, h := none }

/-- A call on which the line search accepts the step. -/
def planeAccept : Call :=
  { ls := { info := 2, stp := 1/2, task := Task.CONV, csave := "" },
    x := fun i => if i = 0 then 3 else 2, f := 5, g := fun i => if i = 0 then 0 else 3,
    active := none, h := none }

/-- A call on which the line search fails (`info = 4`). -/
def planeFail : Call :=
  { ls := { info := 4, stp := 1/2, task := Task.WARN, csave := "" },
    x := fun i => if i = 0 then 3 else 2, f := 5, g := fun i => if i = 0 then 0 else 3,
    active := none, h := none }

/-- A frame at stage 3 with `n = 2`, `m = 1` and a single stored pair
`S[0] = (1, 1)`, `Y[0] = (2, 0)`, `rho[0] = 2`, and gradient `(1, 1)`. -/
def pairFrame : Frame :=
  { csave := "", task := Task.NEWX, stage := 3, iter := 1, mark := 0, mp := 1, nevals := 2,
    nrestarts := 0, f0 := 0, gd := 0, gd0 := 0, stp := 1, stpmin := 0, stpmax := STPMAX,
    gpnorm := 0, alpha := fun _ => 0, rho := fun _ => 2, d := fun _ => 0,
    s := fun _ _ => 1, y := fun _ i => if i = 0 then 2 else 0,
    x := fun _ => 0, f := 0, g := fun _ => 1, active := none }

/-- A workspace initialised for `n = 2`, `m = 1`. -/
def pairWs : Workspace :=
  (op_vmlmb_first 2 1 0 0 (1/1000) (9/10) (1/10) 0 0 junk).2

/-- A workspace initialised for `n = 3`, `m = 2`. -/
def diagWs : Workspace :=
  (op_vmlmb_first 3 2 0 0 (1/1000) (9/10) (1/10) 0 0 junk).2

/-- The messages `op_vmlmb_next` can leave in `csave` other than "initial F <=
FMIN", "corrupted workspace" and the message left by `op_csrch`. -/
def fixedMessages : List String :=
  ["op_vmlmb_next: H is not positive definite",
   "op_vmlmb_next: local minimum found",
   "op_vmlmb_next: preconditioner is not positive definite",
   "op_vmlmb_next: F < FMIN",
   "op_vmlmb_next: no parameter change",
   "op_vmlmb_next: no gradient change",
   "op_vmlmb_next: FRTOL test satisfied",
   "op_vmlmb_next: FATOL test satisfied",
   "op_vmlmb_next: new improved solution available for inspection"]

/-- What the caller does between `op_vmlmb_first` and now, one step at a time:
a call of `op_vmlmb_next` or a call of `op_vmlmb_set_fmin`. -/
inductive Event where
  | call (c : Call)
  | fmin (v : ℚ)

/-- The workspace after one event. -/
def Event.apply (sqrt : ℚ → ℚ) (ws : Workspace) : Event → Workspace
  | Event.call c => (step sqrt ws c).ws
  | Event.fmin v => (op_vmlmb_set_fmin ws v).2.2

/-- The workspace after a sequence of events. -/
def run (sqrt : ℚ → ℚ) : Workspace → List Event → Workspace
  | ws, [] => ws
  | ws, e :: es => run sqrt (e.apply sqrt ws) es

/-- The number of calls of `op_vmlmb_next`, in a sequence of events played from
`ws`, whose task on entry was `FG`. -/
def countFG (sqrt : ℚ → ℚ) : Workspace → List Event → Int
  | _, [] => 0
  | ws, Event.call c :: es =>
    (if ws.task = Task.FG then 1 else 0) + countFG sqrt (step sqrt ws c).ws es
  | ws, Event.fmin v :: es => countFG sqrt (op_vmlmb_set_fmin ws v).2.2 es

/-- The value passed to the last call of `op_vmlmb_set_fmin` in a sequence of
events that follows a state where the last value set, if any, was `acc`. -/
def lastFmin (acc : Option ℚ) : List Event → Option ℚ
  | [] => acc
  | Event.call _ :: es => lastFmin acc es
  | Event.fmin v :: es => lastFmin (some v) es

/-- A first call at `x = (3, 4)` where the gradient vanishes. -/
def restCall : Call :=
  { ls := { info := 1, stp := 1, task := Task.FG, csave := "" },
    x := fun i => if i = 0 then 3 else 4, f := 10, g := fun _ => 0,
    active := none, h := none }

/-- The workspace of the run on the plane after its first call, with `fmin` set
to 8 while the line search is in progress. -/
def floorWs : Workspace :=
  (op_vmlmb_set_fmin (step Rat.sqrt planeWs planeCall0).ws 8).2.2

/-- A workspace whose stored stage is 1, a value that `op_vmlmb_next` never
stores on return. -/
def strayWs : Workspace := { planeWs with stage := 1 }

/-- A workspace initialised for `n = 1`, `m = 1`, `delta = 0`, `epsilon = 0`,
with `fatol = frtol = 0`. -/
def quarticWs : Workspace :=
  (op_vmlmb_first 1 1 0 0 (1/1000) (9/10) (1/10) 0 0 junk).2

/-- First call of a run on `f(x) = x^4/32`, at `x = 2`: `f = 1/2`, `g = 1`; the
line search is started and returns the trial step `stp = 1`. -/
def quarticCall0 : Call :=
  { ls := { info := 1, stp := 1, task := Task.FG, csave := "" },
    x := fun _ => 2, f := 1/2, g := fun _ => 1, active := none, h := none }

/-- Second call, at the trial point `x = 1`: `f = 1/32`, `g = 1/8`; no mask; the
line search accepts the step. -/
def quarticCall1 : Call :=
  { ls := { info := 2, stp := 1, task := Task.CONV, csave := "" },
    x := fun _ => 1, f := 1/32, g := fun _ => 1/8, active := none, h := none }

/-- Third call, at the same point: the next direction is computed and the line
search, started again, returns the trial step `stp = 1`. -/
def quarticCall2 : Call :=
  { ls := { info := 1, stp := 1, task := Task.FG, csave := "" },
    x := fun _ => 1, f := 1/32, g := fun _ => 1/8, active := none, h := none }

/-- Fourth call, at the trial point `x = 6/7`: `f = 81/4802`, `g = 27/343`; a
mask is supplied, with its only variable free; the line search accepts the
step. -/
def quarticCall3 : Call :=
  { ls := { info := 2, stp := 1, task := Task.CONV, csave := "" },
    x := fun _ => 6/7, f := 81/4802, g := fun _ => 27/343,
    active := some fun _ => true, h := none }

/-- Fifth call, at the same point, without a mask: the next direction is
computed. -/
def quarticCall4 : Call :=
  { ls := { info := 1, stp := 1, task := Task.FG, csave := "" },
    x := fun _ => 6/7, f := 81/4802, g := fun _ => 27/343, active := none, h := none }

/-- The frame whose store holds every `S[j]` and `Y[j]` with the opposite sign:
the convention `s(j) = x(j+1) - x(j)`, `y(j) = g(j+1) - g(j)` of the comment that
opens the stage-3 block. -/
def flipStore (L : Frame) : Frame :=
  { L with s := fun j i => -L.s j i, y := fun j i => -L.y j i }

/-- The frame `F` with the store and the work array `alpha` replaced. -/
def withStore (F : Frame) (s y : Int → Vec) (alpha : Int → ℚ) : Frame :=
  { F with s := s, y := y, alpha := alpha }

/-- Which of its three exits the two-loop recursion takes: 0 for `done`, 1 for
`restart`, 2 for the direction. -/
def Recursion.kind : Recursion → Nat
  | Recursion.done _ => 0
  | Recursion.restart _ => 1
  | Recursion.dir _ => 2

/-- What the caller has done since the last restart, as far as the curvature
store is concerned: the point `x0` and the gradient `g0` passed on the call that
started the current line search, and the pairs accepted since the last restart,
newest first.  A pair is the one `op_vmlmb_next` stores on acceptance,
`(x0 - x, g0 - g)`. -/
structure History where
  /-- Point passed on the call that started the line search. -/
  x0 : Vec
  /-- Gradient passed on the call that started the line search. -/
  g0 : Vec
  /-- Pairs accepted since the last restart, newest first. -/
  pairs : List (Vec × Vec)

/-- The history before any call. -/
def History.start : History :=
  { x0 := fun _ => 0, g0 := fun _ => 0, pairs := [] }

/-- The history after one call of `op_vmlmb_next`: a pass through label
`restart` forgets the pairs, a call that sets `stage = 1` starts a line search at
the point passed, and a call on which `op_csrch` returns 2 or 5 accepts the pair
formed with the point passed. -/
def record (sqrt : ℚ → ℚ) (ws : Workspace) (c : Call) (H : History) : History :=
  let D := direction sqrt ws c.h (entry ws c.x c.f c.g c.active)
  let H1 : History :=
    if (restartEntry sqrt ws c.x c.f c.g c.active c.h).isSome then { H with pairs := [] }
    else H
  let H2 : History :=
    if D.isCont = true ∧ D.frame.stage = 1 then { H1 with x0 := c.x, g0 := c.g } else H1
  if D.isCont = true ∧ ¬ (FLAG_IS_SET ws.flags FLAG_FMIN = true ∧ c.f < ws.fmin) ∧
      (c.ls.info = 2 ∨ c.ls.info = 5) then
    { H2 with pairs := (fun i => H2.x0 i - c.x i, fun i => H2.g0 i - c.g i) :: H2.pairs }
  else H2

/-- The history after a sequence of events played from `ws`. -/
def history (sqrt : ℚ → ℚ) : Workspace → List Event → History → History
  | _, [], H => H
  | ws, Event.call c :: es, H => history sqrt (step sqrt ws c).ws es (record sqrt ws c H)
  | ws, Event.fmin v :: es, H => history sqrt (op_vmlmb_set_fmin ws v).2.2 es H

/-- Two arrays hold the same first `n` elements. -/
def agree (n : Int) (a b : Vec) : Prop := ∀ i, i < n.toNat → a i = b i

/-- How the store holds the history: `mp` counts the pairs, capped at `m`; at
stage 3 the pair of rank `j` (0 for the newest) is in slot `(mark - j) mod m` for
`j < mp`; at stage 2 slot `mark` holds the point and the gradient saved at the
start of the line search and the pair of rank `j` is in slot
`(mark - (j + 1)) mod m` for `j < mp`, `j + 1 < m`. -/
def Stored (n m stage mark mp : Int) (s y : Int → Vec) (H : History) : Prop :=
  0 < m ∧ (0 ≤ mark ∧ mark < m) ∧ mp = min (H.pairs.length : Int) m ∧
  (stage = 0 ∨ stage = 2 ∨ stage = 3) ∧
  (stage = 3 → ∀ (j : Nat) (p : Vec × Vec), (j : Int) < mp → H.pairs[j]? = some p →
    agree n (s ((mark - (j : Int)) % m)) p.1 ∧ agree n (y ((mark - (j : Int)) % m)) p.2) ∧
  (stage = 2 → agree n (s mark) H.x0 ∧ agree n (y mark) H.g0 ∧
    ∀ (j : Nat) (p : Vec × Vec), (j : Int) < mp → (j : Int) + 1 < m → H.pairs[j]? = some p →
      agree n (s ((mark - ((j : Int) + 1)) % m)) p.1 ∧
      agree n (y ((mark - ((j : Int) + 1)) % m)) p.2)

/-- The start, a trial and the accepted step of the run on the plane. -/
def planeEvents : List Event :=
  [Event.call planeCall0, Event.call planeTrial, Event.call planeAccept]

/-! ## Theorems -/

/-- On valid arguments `op_vmlmb_first` returns `FG` and initialises the scalar slots. -/
theorem first_task_of_valid (n m : Int) (fatol frtol sftol sgtol sxtol delta epsilon : ℚ)
    (ws : Workspace) (hv : ValidArgs n m fatol frtol sftol sgtol sxtol delta epsilon) :
    op_vmlmb_first n m fatol frtol sftol sgtol sxtol delta epsilon ws =
      (Task.FG, { ws with
        task := Task.FG, stage := 0, m := m, n := n, iter := 0, mark := 0, mp := 0,
        flags := 0, nevals := 0, nrestarts := 0,
        sftol := sftol, sgtol := sgtol, sxtol := sxtol, frtol := frtol,
        fatol := fatol, fmin := 0, f0 := 0, gd := 0, gd0 := 0, stp := 0,
        stpmin := 0, stpmax := 0, delta := delta, epsilon := epsilon, gpnorm := 0 }) := by
  obtain ⟨h1, h2, h3, h4, ⟨h5, h6⟩, ⟨h7, h8⟩, ⟨h9, h10⟩, h11, h12, h13⟩ := hv
  unfold op_vmlmb_first
  rw [if_neg (not_le.2 h1), if_neg (not_le.2 h2), if_neg (not_lt.2 h3), if_neg (not_lt.2 h4),
    if_neg (not_le.2 h5), if_neg (not_le.2 h6), if_neg (not_le.2 h7), if_neg (not_le.2 h8),
    if_neg (not_le.2 h9), if_neg (not_le.2 h10), if_neg (not_le.2 h11), if_neg (not_lt.2 h12),
    if_neg (not_lt.2 h13)]

/-- C2: for every valid argument tuple the workspace produced by
`op_vmlmb_first` has `task = FG`, `stage = 0`, `iter = mp = mark = nrestarts =
nevals = 0`, the `fmin` was-set flag cleared, stores `n` and `m`, and the getters
for `sftol`, `sgtol`, `sxtol`, `frtol`, `fatol`, `delta`, `epsilon` return the
values passed to it. -/
theorem first_state (n m : Int) (fatol frtol sftol sgtol sxtol delta epsilon : ℚ)
    (ws : Workspace) (hv : ValidArgs n m fatol frtol sftol sgtol sxtol delta epsilon) :
    (op_vmlmb_first n m fatol frtol sftol sgtol sxtol delta epsilon ws).1 = Task.FG ∧
    (op_vmlmb_first n m fatol frtol sftol sgtol sxtol delta epsilon ws).2.task = Task.FG ∧
    (op_vmlmb_first n m fatol frtol sftol sgtol sxtol delta epsilon ws).2.stage = 0 ∧
    (op_vmlmb_first n m fatol frtol sftol sgtol sxtol delta epsilon ws).2.iter = 0 ∧
    (op_vmlmb_first n m fatol frtol sftol sgtol sxtol delta epsilon ws).2.mp = 0 ∧
    (op_vmlmb_first n m fatol frtol sftol sgtol sxtol delta epsilon ws).2.mark = 0 ∧
    (op_vmlmb_first n m fatol frtol sftol sgtol sxtol delta epsilon ws).2.nrestarts = 0 ∧
    (op_vmlmb_first n m fatol frtol sftol sgtol sxtol delta epsilon ws).2.nevals = 0 ∧
    (op_vmlmb_get_fmin
      (op_vmlmb_first n m fatol frtol sftol sgtol sxtol delta epsilon ws).2).1 = false ∧
    (op_vmlmb_first n m fatol frtol sftol sgtol sxtol delta epsilon ws).2.n = n ∧
    (op_vmlmb_first n m fatol frtol sftol sgtol sxtol delta epsilon ws).2.m = m ∧
    op_vmlmb_get_sftol
      (op_vmlmb_first n m fatol frtol sftol sgtol sxtol delta epsilon ws).2 = sftol ∧
    op_vmlmb_get_sgtol
      (op_vmlmb_first n m fatol frtol sftol sgtol sxtol delta epsilon ws).2 = sgtol ∧
    op_vmlmb_get_sxtol
      (op_vmlmb_first n m fatol frtol sftol sgtol sxtol delta epsilon ws).2 = sxtol ∧
    op_vmlmb_get_frtol
      (op_vmlmb_first n m fatol frtol sftol sgtol sxtol delta epsilon ws).2 = frtol ∧
    op_vmlmb_get_fatol
      (op_vmlmb_first n m fatol frtol sftol sgtol sxtol delta epsilon ws).2 = fatol ∧
    op_vmlmb_get_delta
      (op_vmlmb_first n m fatol frtol sftol sgtol sxtol delta epsilon ws).2 = delta ∧
    op_vmlmb_get_epsilon
      (op_vmlmb_first n m fatol frtol sftol sgtol sxtol delta epsilon ws).2 = epsilon := by
  rw [first_task_of_valid n m fatol frtol sftol sgtol sxtol delta epsilon ws hv]
  exact ⟨rfl, rfl, rfl, rfl, rfl, rfl, rfl, rfl,
    by simp [op_vmlmb_get_fmin, FLAG_IS_SET, FLAG_FMIN],
    rfl, rfl, rfl, rfl, rfl, rfl, rfl, rfl, rfl⟩

/-- Witness of C2 on `n = 2`, `m = 3` and the workspace `junk`. -/
theorem first_state_witness :
    ValidArgs 2 3 0 (1/100000000) (1/1000) (9/10) (1/10) 0 0 ∧
    (op_vmlmb_first 2 3 0 (1/100000000) (1/1000) (9/10) (1/10) 0 0 junk).2.stage = 0 ∧
    (op_vmlmb_get_fmin
      (op_vmlmb_first 2 3 0 (1/100000000) (1/1000) (9/10) (1/10) 0 0 junk).2).1 = false ∧
    op_vmlmb_get_sgtol
      (op_vmlmb_first 2 3 0 (1/100000000) (1/1000) (9/10) (1/10) 0 0 junk).2 = 9/10 :=
  have hv : ValidArgs 2 3 0 (1/100000000) (1/1000) (9/10) (1/10) 0 0 := by
    unfold ValidArgs; norm_num
  have h := first_state 2 3 0 (1/100000000) (1/1000) (9/10) (1/10) 0 0 junk hv
  ⟨hv, h.2.2.1, h.2.2.2.2.2.2.2.2.1, h.2.2.2.2.2.2.2.2.2.2.2.2.1⟩

/-! ### Frame lemmas: what each block of `op_vmlmb_next` leaves unchanged -/

/-- The conversion to `int` leaves the values in the range of `int` as they
are. -/
theorem castInt_of_range (z : Int) (h : -2147483648 ≤ z ∧ z < 2147483648) : castInt z = z := by
  unfold castInt
  omega

/-- The result of the conversion to `int` is in the range of `int`, and the
conversion does nothing more to it. -/
theorem castInt_range (z : Int) :
    (-2147483648 ≤ castInt z ∧ castInt z < 2147483648) ∧ castInt (castInt z) = castInt z := by
  unfold castInt
  omega

/-- Function `entry` leaves `stage` as loaded: the stored stage, converted to
`int`. -/
@[simp] theorem entry_stage (ws : Workspace) (x : Vec) (f : ℚ) (g : Vec) (active : Option Mask) :
    (entry ws x f g active).stage = castInt ws.stage := by
  unfold entry load
  dsimp only
  split_ifs <;> rfl

/-- A stored stage in the range of `int` is the stage found on entry. -/
theorem entry_stage_eq (ws : Workspace) (x : Vec) (f : ℚ) (g : Vec) (active : Option Mask)
    (k : Int) (hk : -2147483648 ≤ k ∧ k < 2147483648) (h : ws.stage = k) :
    (entry ws x f g active).stage = k := by
  rw [entry_stage, h]
  exact castInt_of_range k hk

/-- Function `entry` leaves `x` as loaded. -/
@[simp] theorem entry_x (ws : Workspace) (x : Vec) (f : ℚ) (g : Vec) (active : Option Mask) :
    (entry ws x f g active).x = x := by
  unfold entry load
  dsimp only
  split_ifs <;> rfl

/-- Function `entry` leaves `f` as loaded. -/
@[simp] theorem entry_f (ws : Workspace) (x : Vec) (f : ℚ) (g : Vec) (active : Option Mask) :
    (entry ws x f g active).f = f := by
  unfold entry load
  dsimp only
  split_ifs <;> rfl

/-- Function `entry` leaves `g` as loaded. -/
@[simp] theorem entry_g (ws : Workspace) (x : Vec) (f : ℚ) (g : Vec) (active : Option Mask) :
    (entry ws x f g active).g = g := by
  unfold entry load
  dsimp only
  split_ifs <;> rfl

/-- Function `entry` leaves `active` as loaded. -/
@[simp] theorem entry_active (ws : Workspace) (x : Vec) (f : ℚ) (g : Vec) (active : Option Mask) :
    (entry ws x f g active).active = active := by
  unfold entry load
  dsimp only
  split_ifs <;> rfl

/-- Function `entry` leaves `mark` as loaded. -/
@[simp] theorem entry_mark (ws : Workspace) (x : Vec) (f : ℚ) (g : Vec) (active : Option Mask) :
    (entry ws x f g active).mark = ws.mark := by
  unfold entry load
  dsimp only
  split_ifs <;> rfl

/-- Function `entry` leaves `mp` as loaded. -/
@[simp] theorem entry_mp (ws : Workspace) (x : Vec) (f : ℚ) (g : Vec) (active : Option Mask) :
    (entry ws x f g active).mp = ws.mp := by
  unfold entry load
  dsimp only
  split_ifs <;> rfl

/-- Function `entry` leaves `iter` as loaded. -/
@[simp] theorem entry_iter (ws : Workspace) (x : Vec) (f : ℚ) (g : Vec) (active : Option Mask) :
    (entry ws x f g active).iter = ws.iter := by
  unfold entry load
  dsimp only
  split_ifs <;> rfl

/-- Function `entry` leaves `d` as loaded. -/
@[simp] theorem entry_d (ws : Workspace) (x : Vec) (f : ℚ) (g : Vec) (active : Option Mask) :
    (entry ws x f g active).d = ws.d := by
  unfold entry load
  dsimp only
  split_ifs <;> rfl

/-- Function `entry` leaves `s` as loaded. -/
@[simp] theorem entry_s (ws : Workspace) (x : Vec) (f : ℚ) (g : Vec) (active : Option Mask) :
    (entry ws x f g active).s = ws.s := by
  unfold entry load
  dsimp only
  split_ifs <;> rfl

/-- Function `entry` leaves `y` as loaded. -/
@[simp] theorem entry_y (ws : Workspace) (x : Vec) (f : ℚ) (g : Vec) (active : Option Mask) :
    (entry ws x f g active).y = ws.y := by
  unfold entry load
  dsimp only
  split_ifs <;> rfl

/-- Function `entry` leaves `rho` as loaded. -/
@[simp] theorem entry_rho (ws : Workspace) (x : Vec) (f : ℚ) (g : Vec) (active : Option Mask) :
    (entry ws x f g active).rho = ws.rho := by
  unfold entry load
  dsimp only
  split_ifs <;> rfl

/-- Function `entry` leaves `alpha` as loaded. -/
@[simp] theorem entry_alpha (ws : Workspace) (x : Vec) (f : ℚ) (g : Vec) (active : Option Mask) :
    (entry ws x f g active).alpha = ws.alpha := by
  unfold entry load
  dsimp only
  split_ifs <;> rfl

/-- Function `entry` leaves `f0` as loaded. -/
@[simp] theorem entry_f0 (ws : Workspace) (x : Vec) (f : ℚ) (g : Vec) (active : Option Mask) :
    (entry ws x f g active).f0 = ws.f0 := by
  unfold entry load
  dsimp only
  split_ifs <;> rfl

/-- Function `entry` leaves `gd0` as loaded. -/
@[simp] theorem entry_gd0 (ws : Workspace) (x : Vec) (f : ℚ) (g : Vec) (active : Option Mask) :
    (entry ws x f g active).gd0 = ws.gd0 := by
  unfold entry load
  dsimp only
  split_ifs <;> rfl

/-- Function `entry` leaves `nrestarts` as loaded. -/
@[simp] theorem entry_nrestarts (ws : Workspace) (x : Vec) (f : ℚ) (g : Vec) (active : Option Mask) :
    (entry ws x f g active).nrestarts = ws.nrestarts := by
  unfold entry load
  dsimp only
  split_ifs <;> rfl

/-- The restart block leaves `x` unchanged. -/
@[simp] theorem restart_x (sqrt : ℚ → ℚ) (ws : Workspace) (h : Option Vec) (L : Frame) :
    (restart sqrt ws h L).frame.x = L.x := by
  unfold restart
  cases h <;> dsimp only <;> split_ifs <;> rfl

/-- The restart block leaves `f` unchanged. -/
@[simp] theorem restart_f (sqrt : ℚ → ℚ) (ws : Workspace) (h : Option Vec) (L : Frame) :
    (restart sqrt ws h L).frame.f = L.f := by
  unfold restart
  cases h <;> dsimp only <;> split_ifs <;> rfl

/-- The restart block leaves `g` unchanged. -/
@[simp] theorem restart_g (sqrt : ℚ → ℚ) (ws : Workspace) (h : Option Vec) (L : Frame) :
    (restart sqrt ws h L).frame.g = L.g := by
  unfold restart
  cases h <;> dsimp only <;> split_ifs <;> rfl

/-- The restart block leaves `s` unchanged. -/
@[simp] theorem restart_s (sqrt : ℚ → ℚ) (ws : Workspace) (h : Option Vec) (L : Frame) :
    (restart sqrt ws h L).frame.s = L.s := by
  unfold restart
  cases h <;> dsimp only <;> split_ifs <;> rfl

/-- The restart block leaves `y` unchanged. -/
@[simp] theorem restart_y (sqrt : ℚ → ℚ) (ws : Workspace) (h : Option Vec) (L : Frame) :
    (restart sqrt ws h L).frame.y = L.y := by
  unfold restart
  cases h <;> dsimp only <;> split_ifs <;> rfl

/-- The restart block leaves `iter` unchanged. -/
@[simp] theorem restart_iter (sqrt : ℚ → ℚ) (ws : Workspace) (h : Option Vec) (L : Frame) :
    (restart sqrt ws h L).frame.iter = L.iter := by
  unfold restart
  cases h <;> dsimp only <;> split_ifs <;> rfl

/-- The restart block leaves `mark` unchanged. -/
@[simp] theorem restart_mark (sqrt : ℚ → ℚ) (ws : Workspace) (h : Option Vec) (L : Frame) :
    (restart sqrt ws h L).frame.mark = L.mark := by
  unfold restart
  cases h <;> dsimp only <;> split_ifs <;> rfl

/-- The restart block leaves `rho` unchanged. -/
@[simp] theorem restart_rho (sqrt : ℚ → ℚ) (ws : Workspace) (h : Option Vec) (L : Frame) :
    (restart sqrt ws h L).frame.rho = L.rho := by
  unfold restart
  cases h <;> dsimp only <;> split_ifs <;> rfl

/-- The restart block leaves `alpha` unchanged. -/
@[simp] theorem restart_alpha (sqrt : ℚ → ℚ) (ws : Workspace) (h : Option Vec) (L : Frame) :
    (restart sqrt ws h L).frame.alpha = L.alpha := by
  unfold restart
  cases h <;> dsimp only <;> split_ifs <;> rfl

/-- The restart block leaves `f0` unchanged. -/
@[simp] theorem restart_f0 (sqrt : ℚ → ℚ) (ws : Workspace) (h : Option Vec) (L : Frame) :
    (restart sqrt ws h L).frame.f0 = L.f0 := by
  unfold restart
  cases h <;> dsimp only <;> split_ifs <;> rfl

/-- The restart block leaves `gd0` unchanged. -/
@[simp] theorem restart_gd0 (sqrt : ℚ → ℚ) (ws : Workspace) (h : Option Vec) (L : Frame) :
    (restart sqrt ws h L).frame.gd0 = L.gd0 := by
  unfold restart
  cases h <;> dsimp only <;> split_ifs <;> rfl

/-- The restart block leaves `nrestarts` unchanged. -/
@[simp] theorem restart_nrestarts (sqrt : ℚ → ℚ) (ws : Workspace) (h : Option Vec) (L : Frame) :
    (restart sqrt ws h L).frame.nrestarts = L.nrestarts := by
  unfold restart
  cases h <;> dsimp only <;> split_ifs <;> rfl

/-- The restart block leaves `nevals` unchanged. -/
@[simp] theorem restart_nevals (sqrt : ℚ → ℚ) (ws : Workspace) (h : Option Vec) (L : Frame) :
    (restart sqrt ws h L).frame.nevals = L.nevals := by
  unfold restart
  cases h <;> dsimp only <;> split_ifs <;> rfl

/-- The restart block sets `mp = 0`. -/
@[simp] theorem restart_mp (sqrt : ℚ → ℚ) (ws : Workspace) (h : Option Vec) (L : Frame) :
    (restart sqrt ws h L).frame.mp = 0 := by
  unfold restart
  cases h <;> dsimp only <;> split_ifs <;> rfl

/-- The two-loop recursion leaves `x` unchanged. -/
@[simp] theorem twoLoop_x (ws : Workspace) (h : Option Vec) (L : Frame) :
    (twoLoop ws h L).frame.x = L.x := by
  unfold twoLoop
  cases h <;> dsimp only <;> split_ifs <;> rfl

/-- The two-loop recursion leaves `f` unchanged. -/
@[simp] theorem twoLoop_f (ws : Workspace) (h : Option Vec) (L : Frame) :
    (twoLoop ws h L).frame.f = L.f := by
  unfold twoLoop
  cases h <;> dsimp only <;> split_ifs <;> rfl

/-- The two-loop recursion leaves `g` unchanged. -/
@[simp] theorem twoLoop_g (ws : Workspace) (h : Option Vec) (L : Frame) :
    (twoLoop ws h L).frame.g = L.g := by
  unfold twoLoop
  cases h <;> dsimp only <;> split_ifs <;> rfl

/-- The two-loop recursion leaves `s` unchanged. -/
@[simp] theorem twoLoop_s (ws : Workspace) (h : Option Vec) (L : Frame) :
    (twoLoop ws h L).frame.s = L.s := by
  unfold twoLoop
  cases h <;> dsimp only <;> split_ifs <;> rfl

/-- The two-loop recursion leaves `y` unchanged. -/
@[simp] theorem twoLoop_y (ws : Workspace) (h : Option Vec) (L : Frame) :
    (twoLoop ws h L).frame.y = L.y := by
  unfold twoLoop
  cases h <;> dsimp only <;> split_ifs <;> rfl

/-- The two-loop recursion leaves `iter` unchanged. -/
@[simp] theorem twoLoop_iter (ws : Workspace) (h : Option Vec) (L : Frame) :
    (twoLoop ws h L).frame.iter = L.iter := by
  unfold twoLoop
  cases h <;> dsimp only <;> split_ifs <;> rfl

/-- The two-loop recursion leaves `mark` unchanged. -/
@[simp] theorem twoLoop_mark (ws : Workspace) (h : Option Vec) (L : Frame) :
    (twoLoop ws h L).frame.mark = L.mark := by
  unfold twoLoop
  cases h <;> dsimp only <;> split_ifs <;> rfl

/-- The two-loop recursion leaves `mp` unchanged. -/
@[simp] theorem twoLoop_mp (ws : Workspace) (h : Option Vec) (L : Frame) :
    (twoLoop ws h L).frame.mp = L.mp := by
  unfold twoLoop
  cases h <;> dsimp only <;> split_ifs <;> rfl

/-- The two-loop recursion leaves `stage` unchanged. -/
@[simp] theorem twoLoop_stage (ws : Workspace) (h : Option Vec) (L : Frame) :
    (twoLoop ws h L).frame.stage = L.stage := by
  unfold twoLoop
  cases h <;> dsimp only <;> split_ifs <;> rfl

/-- The two-loop recursion leaves `f0` unchanged. -/
@[simp] theorem twoLoop_f0 (ws : Workspace) (h : Option Vec) (L : Frame) :
    (twoLoop ws h L).frame.f0 = L.f0 := by
  unfold twoLoop
  cases h <;> dsimp only <;> split_ifs <;> rfl

/-- The two-loop recursion leaves `gd0` unchanged. -/
@[simp] theorem twoLoop_gd0 (ws : Workspace) (h : Option Vec) (L : Frame) :
    (twoLoop ws h L).frame.gd0 = L.gd0 := by
  unfold twoLoop
  cases h <;> dsimp only <;> split_ifs <;> rfl

/-- The two-loop recursion leaves `nevals` unchanged. -/
@[simp] theorem twoLoop_nevals (ws : Workspace) (h : Option Vec) (L : Frame) :
    (twoLoop ws h L).frame.nevals = L.nevals := by
  unfold twoLoop
  cases h <;> dsimp only <;> split_ifs <;> rfl

/-- The two-loop recursion leaves the checked mask. -/
@[simp] theorem twoLoop_active (ws : Workspace) (h : Option Vec) (L : Frame) :
    (twoLoop ws h L).frame.active = (check_active ws.n L.active h L.task L.csave).active := by
  unfold twoLoop
  cases h <;> dsimp only <;> split_ifs <;> rfl

/-- Stage 3 leaves `x` unchanged. -/
@[simp] theorem stage3_x (sqrt : ℚ → ℚ) (ws : Workspace) (h : Option Vec) (L : Frame) :
    (stage3 sqrt ws h L).frame.x = L.x := by
  have ht := twoLoop_x ws h L
  unfold stage3
  cases htl : twoLoop ws h L with
  | done L1 => rw [htl] at ht; exact ht
  | restart L1 => rw [htl] at ht; exact (restart_x sqrt ws h L1).trans ht
  | dir L1 =>
    rw [htl] at ht
    dsimp only
    split_ifs
    · exact ht
    · exact (restart_x sqrt ws h _).trans ht

/-- Stage 3 leaves `f` unchanged. -/
@[simp] theorem stage3_f (sqrt : ℚ → ℚ) (ws : Workspace) (h : Option Vec) (L : Frame) :
    (stage3 sqrt ws h L).frame.f = L.f := by
  have ht := twoLoop_f ws h L
  unfold stage3
  cases htl : twoLoop ws h L with
  | done L1 => rw [htl] at ht; exact ht
  | restart L1 => rw [htl] at ht; exact (restart_f sqrt ws h L1).trans ht
  | dir L1 =>
    rw [htl] at ht
    dsimp only
    split_ifs
    · exact ht
    · exact (restart_f sqrt ws h _).trans ht

/-- Stage 3 leaves `g` unchanged. -/
@[simp] theorem stage3_g (sqrt : ℚ → ℚ) (ws : Workspace) (h : Option Vec) (L : Frame) :
    (stage3 sqrt ws h L).frame.g = L.g := by
  have ht := twoLoop_g ws h L
  unfold stage3
  cases htl : twoLoop ws h L with
  | done L1 => rw [htl] at ht; exact ht
  | restart L1 => rw [htl] at ht; exact (restart_g sqrt ws h L1).trans ht
  | dir L1 =>
    rw [htl] at ht
    dsimp only
    split_ifs
    · exact ht
    · exact (restart_g sqrt ws h _).trans ht

/-- Stage 3 leaves `s` unchanged. -/
@[simp] theorem stage3_s (sqrt : ℚ → ℚ) (ws : Workspace) (h : Option Vec) (L : Frame) :
    (stage3 sqrt ws h L).frame.s = L.s := by
  have ht := twoLoop_s ws h L
  unfold stage3
  cases htl : twoLoop ws h L with
  | done L1 => rw [htl] at ht; exact ht
  | restart L1 => rw [htl] at ht; exact (restart_s sqrt ws h L1).trans ht
  | dir L1 =>
    rw [htl] at ht
    dsimp only
    split_ifs
    · exact ht
    · exact (restart_s sqrt ws h _).trans ht

/-- Stage 3 leaves `y` unchanged. -/
@[simp] theorem stage3_y (sqrt : ℚ → ℚ) (ws : Workspace) (h : Option Vec) (L : Frame) :
    (stage3 sqrt ws h L).frame.y = L.y := by
  have ht := twoLoop_y ws h L
  unfold stage3
  cases htl : twoLoop ws h L with
  | done L1 => rw [htl] at ht; exact ht
  | restart L1 => rw [htl] at ht; exact (restart_y sqrt ws h L1).trans ht
  | dir L1 =>
    rw [htl] at ht
    dsimp only
    split_ifs
    · exact ht
    · exact (restart_y sqrt ws h _).trans ht

/-- Stage 3 leaves `iter` unchanged. -/
@[simp] theorem stage3_iter (sqrt : ℚ → ℚ) (ws : Workspace) (h : Option Vec) (L : Frame) :
    (stage3 sqrt ws h L).frame.iter = L.iter := by
  have ht := twoLoop_iter ws h L
  unfold stage3
  cases htl : twoLoop ws h L with
  | done L1 => rw [htl] at ht; exact ht
  | restart L1 => rw [htl] at ht; exact (restart_iter sqrt ws h L1).trans ht
  | dir L1 =>
    rw [htl] at ht
    dsimp only
    split_ifs
    · exact ht
    · exact (restart_iter sqrt ws h _).trans ht

/-- Stage 3 leaves `f0` unchanged. -/
@[simp] theorem stage3_f0 (sqrt : ℚ → ℚ) (ws : Workspace) (h : Option Vec) (L : Frame) :
    (stage3 sqrt ws h L).frame.f0 = L.f0 := by
  have ht := twoLoop_f0 ws h L
  unfold stage3
  cases htl : twoLoop ws h L with
  | done L1 => rw [htl] at ht; exact ht
  | restart L1 => rw [htl] at ht; exact (restart_f0 sqrt ws h L1).trans ht
  | dir L1 =>
    rw [htl] at ht
    dsimp only
    split_ifs
    · exact ht
    · exact (restart_f0 sqrt ws h _).trans ht

/-- Stage 3 leaves `gd0` unchanged. -/
@[simp] theorem stage3_gd0 (sqrt : ℚ → ℚ) (ws : Workspace) (h : Option Vec) (L : Frame) :
    (stage3 sqrt ws h L).frame.gd0 = L.gd0 := by
  have ht := twoLoop_gd0 ws h L
  unfold stage3
  cases htl : twoLoop ws h L with
  | done L1 => rw [htl] at ht; exact ht
  | restart L1 => rw [htl] at ht; exact (restart_gd0 sqrt ws h L1).trans ht
  | dir L1 =>
    rw [htl] at ht
    dsimp only
    split_ifs
    · exact ht
    · exact (restart_gd0 sqrt ws h _).trans ht

/-- The direction part leaves `x` unchanged. -/
@[simp] theorem direction_x (sqrt : ℚ → ℚ) (ws : Workspace) (h : Option Vec) (L : Frame) :
    (direction sqrt ws h L).frame.x = L.x := by
  unfold direction
  split_ifs
  · rfl
  · exact restart_x sqrt ws h _
  · exact stage3_x sqrt ws h L
  · rfl
  · rfl

/-- The direction part leaves `f` unchanged. -/
@[simp] theorem direction_f (sqrt : ℚ → ℚ) (ws : Workspace) (h : Option Vec) (L : Frame) :
    (direction sqrt ws h L).frame.f = L.f := by
  unfold direction
  split_ifs
  · rfl
  · exact restart_f sqrt ws h _
  · exact stage3_f sqrt ws h L
  · rfl
  · rfl

/-- The direction part leaves `g` unchanged. -/
@[simp] theorem direction_g (sqrt : ℚ → ℚ) (ws : Workspace) (h : Option Vec) (L : Frame) :
    (direction sqrt ws h L).frame.g = L.g := by
  unfold direction
  split_ifs
  · rfl
  · exact restart_g sqrt ws h _
  · exact stage3_g sqrt ws h L
  · rfl
  · rfl

/-- The direction part leaves `s` unchanged. -/
@[simp] theorem direction_s (sqrt : ℚ → ℚ) (ws : Workspace) (h : Option Vec) (L : Frame) :
    (direction sqrt ws h L).frame.s = L.s := by
  unfold direction
  split_ifs
  · rfl
  · exact restart_s sqrt ws h _
  · exact stage3_s sqrt ws h L
  · rfl
  · rfl

/-- The direction part leaves `y` unchanged. -/
@[simp] theorem direction_y (sqrt : ℚ → ℚ) (ws : Workspace) (h : Option Vec) (L : Frame) :
    (direction sqrt ws h L).frame.y = L.y := by
  unfold direction
  split_ifs
  · rfl
  · exact restart_y sqrt ws h _
  · exact stage3_y sqrt ws h L
  · rfl
  · rfl

/-- The direction part leaves `f0` unchanged. -/
@[simp] theorem direction_f0 (sqrt : ℚ → ℚ) (ws : Workspace) (h : Option Vec) (L : Frame) :
    (direction sqrt ws h L).frame.f0 = L.f0 := by
  unfold direction
  split_ifs
  · rfl
  · exact restart_f0 sqrt ws h _
  · exact stage3_f0 sqrt ws h L
  · rfl
  · rfl

/-- The direction part leaves `gd0` unchanged. -/
@[simp] theorem direction_gd0 (sqrt : ℚ → ℚ) (ws : Workspace) (h : Option Vec) (L : Frame) :
    (direction sqrt ws h L).frame.gd0 = L.gd0 := by
  unfold direction
  split_ifs
  · rfl
  · exact restart_gd0 sqrt ws h _
  · exact stage3_gd0 sqrt ws h L
  · rfl
  · rfl

/-- The initialisation of the line search leaves `mark` unchanged. -/
@[simp] theorem initSearch_mark (ws : Workspace) (L : Frame) :
    (initSearch ws L).mark = L.mark := by
  unfold initSearch
  split_ifs <;> rfl

/-- The initialisation of the line search leaves `f` unchanged. -/
@[simp] theorem initSearch_f (ws : Workspace) (L : Frame) :
    (initSearch ws L).f = L.f := by
  unfold initSearch
  split_ifs <;> rfl

/-- The initialisation of the line search leaves `x` unchanged. -/
@[simp] theorem initSearch_x (ws : Workspace) (L : Frame) :
    (initSearch ws L).x = L.x := by
  unfold initSearch
  split_ifs <;> rfl

/-- The initialisation of the line search leaves `g` unchanged. -/
@[simp] theorem initSearch_g (ws : Workspace) (L : Frame) :
    (initSearch ws L).g = L.g := by
  unfold initSearch
  split_ifs <;> rfl

/-- The initialisation of the line search leaves `active` unchanged. -/
@[simp] theorem initSearch_active (ws : Workspace) (L : Frame) :
    (initSearch ws L).active = L.active := by
  unfold initSearch
  split_ifs <;> rfl

/-- The initialisation of the line search leaves `mp` unchanged. -/
@[simp] theorem initSearch_mp (ws : Workspace) (L : Frame) :
    (initSearch ws L).mp = L.mp := by
  unfold initSearch
  split_ifs <;> rfl

/-- The initialisation of the line search leaves `iter` unchanged. -/
@[simp] theorem initSearch_iter (ws : Workspace) (L : Frame) :
    (initSearch ws L).iter = L.iter := by
  unfold initSearch
  split_ifs <;> rfl

/-- The initialisation of the line search leaves `d` unchanged. -/
@[simp] theorem initSearch_d (ws : Workspace) (L : Frame) :
    (initSearch ws L).d = L.d := by
  unfold initSearch
  split_ifs <;> rfl

/-- The initialisation of the line search leaves `gd` unchanged. -/
@[simp] theorem initSearch_gd (ws : Workspace) (L : Frame) :
    (initSearch ws L).gd = L.gd := by
  unfold initSearch
  split_ifs <;> rfl

/-- The initialisation of the line search leaves `rho` unchanged. -/
@[simp] theorem initSearch_rho (ws : Workspace) (L : Frame) :
    (initSearch ws L).rho = L.rho := by
  unfold initSearch
  split_ifs <;> rfl

/-- The initialisation of the line search leaves `alpha` unchanged. -/
@[simp] theorem initSearch_alpha (ws : Workspace) (L : Frame) :
    (initSearch ws L).alpha = L.alpha := by
  unfold initSearch
  split_ifs <;> rfl

/-- The initialisation of the line search leaves `nevals` unchanged. -/
@[simp] theorem initSearch_nevals (ws : Workspace) (L : Frame) :
    (initSearch ws L).nevals = L.nevals := by
  unfold initSearch
  split_ifs <;> rfl

/-- The initialisation of the line search leaves `nrestarts` unchanged. -/
@[simp] theorem initSearch_nrestarts (ws : Workspace) (L : Frame) :
    (initSearch ws L).nrestarts = L.nrestarts := by
  unfold initSearch
  split_ifs <;> rfl

/-- Accepting the step leaves `mark` unchanged. -/
@[simp] theorem accept_mark (ws : Workspace) (L : Frame) :
    (accept ws L).mark = L.mark := by
  unfold accept
  dsimp only
  split_ifs <;> rfl

/-- Accepting the step leaves `d` unchanged. -/
@[simp] theorem accept_d (ws : Workspace) (L : Frame) :
    (accept ws L).d = L.d := by
  unfold accept
  dsimp only
  split_ifs <;> rfl

/-- Accepting the step leaves `gd` unchanged. -/
@[simp] theorem accept_gd (ws : Workspace) (L : Frame) :
    (accept ws L).gd = L.gd := by
  unfold accept
  dsimp only
  split_ifs <;> rfl

/-- Accepting the step leaves `f` unchanged. -/
@[simp] theorem accept_f (ws : Workspace) (L : Frame) :
    (accept ws L).f = L.f := by
  unfold accept
  dsimp only
  split_ifs <;> rfl

/-- Accepting the step leaves `f0` unchanged. -/
@[simp] theorem accept_f0 (ws : Workspace) (L : Frame) :
    (accept ws L).f0 = L.f0 := by
  unfold accept
  dsimp only
  split_ifs <;> rfl

/-- Accepting the step leaves `gd0` unchanged. -/
@[simp] theorem accept_gd0 (ws : Workspace) (L : Frame) :
    (accept ws L).gd0 = L.gd0 := by
  unfold accept
  dsimp only
  split_ifs <;> rfl

/-- Accepting the step leaves `stp` unchanged. -/
@[simp] theorem accept_stp (ws : Workspace) (L : Frame) :
    (accept ws L).stp = L.stp := by
  unfold accept
  dsimp only
  split_ifs <;> rfl

/-- Accepting the step leaves `x` unchanged. -/
@[simp] theorem accept_x (ws : Workspace) (L : Frame) :
    (accept ws L).x = L.x := by
  unfold accept
  dsimp only
  split_ifs <;> rfl

/-- Accepting the step leaves `g` unchanged. -/
@[simp] theorem accept_g (ws : Workspace) (L : Frame) :
    (accept ws L).g = L.g := by
  unfold accept
  dsimp only
  split_ifs <;> rfl

/-- Accepting the step leaves `active` unchanged. -/
@[simp] theorem accept_active (ws : Workspace) (L : Frame) :
    (accept ws L).active = L.active := by
  unfold accept
  dsimp only
  split_ifs <;> rfl

/-- Accepting the step leaves `alpha` unchanged. -/
@[simp] theorem accept_alpha (ws : Workspace) (L : Frame) :
    (accept ws L).alpha = L.alpha := by
  unfold accept
  dsimp only
  split_ifs <;> rfl

/-- Accepting the step leaves `nevals` unchanged. -/
@[simp] theorem accept_nevals (ws : Workspace) (L : Frame) :
    (accept ws L).nevals = L.nevals := by
  unfold accept
  dsimp only
  split_ifs <;> rfl

/-- Accepting the step leaves `nrestarts` unchanged. -/
@[simp] theorem accept_nrestarts (ws : Workspace) (L : Frame) :
    (accept ws L).nrestarts = L.nrestarts := by
  unfold accept
  dsimp only
  split_ifs <;> rfl

/-- Accepting the step increments `iter`. -/
@[simp] theorem accept_iter (ws : Workspace) (L : Frame) :
    (accept ws L).iter = L.iter + 1 := by
  unfold accept
  dsimp only
  split_ifs <;> rfl

/-- Accepting the step sets `stage = 3`. -/
@[simp] theorem accept_stage (ws : Workspace) (L : Frame) :
    (accept ws L).stage = 3 := by
  unfold accept
  dsimp only
  split_ifs <;> rfl

/-- Accepting the step increments `mp` below `m`. -/
@[simp] theorem accept_mp (ws : Workspace) (L : Frame) :
    (accept ws L).mp = (if L.mp < ws.m then L.mp + 1 else L.mp) := by
  unfold accept
  dsimp only
  split_ifs <;> rfl

/-- Accepting the step rewrites slot `mark` of `S`. -/
@[simp] theorem accept_s (ws : Workspace) (L : Frame) :
    (accept ws L).s = Function.update L.s L.mark
      (fun i => if i < ws.n.toNat then L.s L.mark i - L.x i else L.s L.mark i) := by
  unfold accept
  dsimp only
  split_ifs <;> rfl

/-- Accepting the step rewrites slot `mark` of `Y`. -/
@[simp] theorem accept_y (ws : Workspace) (L : Frame) :
    (accept ws L).y = Function.update L.y L.mark
      (fun i => if i < ws.n.toNat then L.y L.mark i - L.g i else L.y L.mark i) := by
  unfold accept
  dsimp only
  split_ifs <;> rfl

/-- The line-search block leaves `mark` unchanged. -/
@[simp] theorem search_mark (ws : Workspace) (ls : Csrch) (L : Frame) :
    (search ws ls L).mark = L.mark := by
  unfold search
  dsimp only
  split_ifs <;> first | rfl | exact accept_mark ws _

/-- The line-search block leaves `d` unchanged. -/
@[simp] theorem search_d (ws : Workspace) (ls : Csrch) (L : Frame) :
    (search ws ls L).d = L.d := by
  unfold search
  dsimp only
  split_ifs <;> first | rfl | exact accept_d ws _

/-- The line-search block leaves `gd` unchanged. -/
@[simp] theorem search_gd (ws : Workspace) (ls : Csrch) (L : Frame) :
    (search ws ls L).gd = L.gd := by
  unfold search
  dsimp only
  split_ifs <;> first | rfl | exact accept_gd ws _

/-- The line-search block leaves `alpha` unchanged. -/
@[simp] theorem search_alpha (ws : Workspace) (ls : Csrch) (L : Frame) :
    (search ws ls L).alpha = L.alpha := by
  unfold search
  dsimp only
  split_ifs <;> first | rfl | exact accept_alpha ws _

/-- The line-search block leaves `active` unchanged. -/
@[simp] theorem search_active (ws : Workspace) (ls : Csrch) (L : Frame) :
    (search ws ls L).active = L.active := by
  unfold search
  dsimp only
  split_ifs <;> first | rfl | exact accept_active ws _

/-- The line-search block leaves `nevals` unchanged. -/
@[simp] theorem search_nevals (ws : Workspace) (ls : Csrch) (L : Frame) :
    (search ws ls L).nevals = L.nevals := by
  unfold search
  dsimp only
  split_ifs <;> first | rfl | exact accept_nevals ws _

/-- The line-search block leaves `nrestarts` unchanged. -/
@[simp] theorem search_nrestarts (ws : Workspace) (ls : Csrch) (L : Frame) :
    (search ws ls L).nrestarts = L.nrestarts := by
  unfold search
  dsimp only
  split_ifs <;> first | rfl | exact accept_nrestarts ws _

/-- The line-search block leaves `f0` unchanged. -/
@[simp] theorem search_f0 (ws : Workspace) (ls : Csrch) (L : Frame) :
    (search ws ls L).f0 = L.f0 := by
  unfold search
  dsimp only
  split_ifs <;> first | rfl | exact accept_f0 ws _

/-- The line-search block leaves `gd0` unchanged. -/
@[simp] theorem search_gd0 (ws : Workspace) (ls : Csrch) (L : Frame) :
    (search ws ls L).gd0 = L.gd0 := by
  unfold search
  dsimp only
  split_ifs <;> first | rfl | exact accept_gd0 ws _

/-! ### The blocks of `op_vmlmb_next` case by case -/

theorem initSearch_start (ws : Workspace) (L : Frame) (h1 : L.stage = 1) :
    initSearch ws L =
      { L with f0 := L.f, gd0 := L.gd, stpmin := 0, stpmax := STPMAX,
               stp := min 1 STPMAX,
               s := Function.update L.s L.mark (op_dcopy ws.n L.x (L.s L.mark)),
               y := Function.update L.y L.mark (op_dcopy ws.n L.g (L.y L.mark)),
               stage := 2, task := Task.START } := by
  unfold initSearch
  rw [if_pos h1]

theorem initSearch_continue (ws : Workspace) (L : Frame) (h1 : L.stage ≠ 1) :
    initSearch ws L = { L with task := Task.FG } := by
  unfold initSearch
  rw [if_neg h1]

theorem search_warn (ws : Workspace) (ls : Csrch) (L : Frame) (h2 : L.stage = 2)
    (hm : FLAG_IS_SET ws.flags FLAG_FMIN = true ∧ L.f < ws.fmin) :
    search ws ls L = { L with task := Task.WARN, csave := "op_vmlmb_next: F < FMIN" } := by
  unfold search
  rw [if_pos h2, if_pos hm]

theorem search_trial (ws : Workspace) (ls : Csrch) (L : Frame) (h2 : L.stage = 2)
    (hm : ¬ (FLAG_IS_SET ws.flags FLAG_FMIN = true ∧ L.f < ws.fmin)) (hi : ls.info = 1) :
    search ws ls L =
      { L with stp := ls.stp, task := ls.task, csave := ls.csave,
               x := fun i => if i < ws.n.toNat then L.s L.mark i - ls.stp * L.d i else L.x i } := by
  unfold search
  rw [if_pos h2, if_neg hm]
  dsimp only
  rw [if_pos hi]

theorem search_accept (ws : Workspace) (ls : Csrch) (L : Frame) (h2 : L.stage = 2)
    (hm : ¬ (FLAG_IS_SET ws.flags FLAG_FMIN = true ∧ L.f < ws.fmin))
    (hi : ls.info = 2 ∨ ls.info = 5) :
    search ws ls L = accept ws { L with stp := ls.stp, task := ls.task, csave := ls.csave } := by
  have h1 : ls.info ≠ 1 := by omega
  unfold search
  rw [if_pos h2, if_neg hm]
  dsimp only
  rw [if_neg h1, if_pos hi]

theorem search_fail (ws : Workspace) (ls : Csrch) (L : Frame) (h2 : L.stage = 2)
    (hm : ¬ (FLAG_IS_SET ws.flags FLAG_FMIN = true ∧ L.f < ws.fmin))
    (hi : 3 ≤ ls.info) (h5 : ls.info ≠ 5) :
    search ws ls L =
      { L with stp := ls.stp, task := ls.task, csave := ls.csave,
               x := op_dcopy ws.n (L.s L.mark) L.x,
               g := op_dcopy ws.n (L.y L.mark) L.g,
               f := L.f0 } := by
  have h1 : ls.info ≠ 1 := by omega
  have h25 : ¬ (ls.info = 2 ∨ ls.info = 5) := by omega
  unfold search
  rw [if_pos h2, if_neg hm]
  dsimp only
  rw [if_neg h1, if_neg h25, if_pos hi]

theorem accept_task (ws : Workspace) (L : Frame) :
    (accept ws L).task = (acceptTask ws (accept ws L)).1 := by
  unfold accept
  dsimp only
  split_ifs <;> rfl

theorem restart_cont_stage (sqrt : ℚ → ℚ) (ws : Workspace) (h : Option Vec) (L : Frame)
    (hc : (restart sqrt ws h L).isCont = true) : (restart sqrt ws h L).frame.stage = 1 := by
  unfold restart at hc ⊢
  dsimp only at hc ⊢
  cases h <;> dsimp only at hc ⊢ <;> split_ifs at hc ⊢ <;>
    first | rfl | (simp [Flow.isCont] at hc)

theorem stage3_cont_stage (sqrt : ℚ → ℚ) (ws : Workspace) (h : Option Vec) (L : Frame)
    (hc : (stage3 sqrt ws h L).isCont = true) : (stage3 sqrt ws h L).frame.stage = 1 := by
  unfold stage3 at hc ⊢
  cases htl : twoLoop ws h L with
  | done L1 => rw [htl] at hc; simp [Flow.isCont] at hc
  | restart L1 =>
    rw [htl] at hc
    exact restart_cont_stage sqrt ws h L1 hc
  | dir L1 =>
    rw [htl] at hc
    dsimp only at hc ⊢
    split_ifs at hc ⊢
    · rfl
    · exact restart_cont_stage sqrt ws h _ hc

theorem direction_cont_stage (sqrt : ℚ → ℚ) (ws : Workspace) (h : Option Vec) (L : Frame)
    (hc : (direction sqrt ws h L).isCont = true) :
    ((direction sqrt ws h L).frame.stage = 1 ∧ L.stage ≠ 2) ∨
    (L.stage = 2 ∧ direction sqrt ws h L = Flow.cont { L with gd := -op_ddot ws.n L.g L.d }) := by
  unfold direction at hc ⊢
  by_cases h0 : L.stage = 0
  · rw [if_pos h0] at hc ⊢
    split_ifs at hc ⊢
    · simp [Flow.isCont] at hc
    · exact Or.inl ⟨restart_cont_stage sqrt ws h _ hc, by omega⟩
  · rw [if_neg h0] at hc ⊢
    by_cases h3 : L.stage = 3
    · rw [if_pos h3] at hc ⊢
      exact Or.inl ⟨stage3_cont_stage sqrt ws h _ hc, by omega⟩
    · rw [if_neg h3] at hc ⊢
      by_cases h2 : L.stage = 2
      · rw [if_pos h2]
        exact Or.inr ⟨h2, rfl⟩
      · rw [if_neg h2] at hc
        simp [Flow.isCont] at hc

theorem next_of_cont (sqrt : ℚ → ℚ) (ws : Workspace) (c : Call)
    (hc : (direction sqrt ws c.h (entry ws c.x c.f c.g c.active)).isCont = true) :
    step sqrt ws c = done ws (search ws c.ls
      (initSearch ws (direction sqrt ws c.h (entry ws c.x c.f c.g c.active)).frame)) := by
  unfold step op_vmlmb_next lineSearch
  cases hd : direction sqrt ws c.h (entry ws c.x c.f c.g c.active) with
  | done L => rw [hd] at hc; simp [Flow.isCont] at hc
  | cont L => rfl

theorem next_of_done (sqrt : ℚ → ℚ) (ws : Workspace) (c : Call)
    (hc : (direction sqrt ws c.h (entry ws c.x c.f c.g c.active)).isCont = false) :
    step sqrt ws c = done ws (direction sqrt ws c.h (entry ws c.x c.f c.g c.active)).frame := by
  unfold step op_vmlmb_next
  cases hd : direction sqrt ws c.h (entry ws c.x c.f c.g c.active) with
  | done L => rfl
  | cont L => rw [hd] at hc; simp [Flow.isCont] at hc

theorem accept_rho (ws : Workspace) (L : Frame) (k : Int) (hk : L.mark = k)
    (ha : L.active = none) :
    (accept ws L).rho k = op_ddot ws.n ((accept ws L).y k) ((accept ws L).s k) := by
  subst hk
  unfold accept
  dsimp only
  rw [ha]
  simp only [Option.isNone_none, if_true, Function.update_same]

theorem initSearch_stage (ws : Workspace) (L : Frame) (h : L.stage = 1 ∨ L.stage = 2) :
    (initSearch ws L).stage = 2 := by
  unfold initSearch
  split_ifs with h1
  · rfl
  · simpa [h1] using h

theorem direction_stage (sqrt : ℚ → ℚ) (ws : Workspace) (h : Option Vec) (L : Frame)
    (hc : (direction sqrt ws h L).isCont = true) :
    (direction sqrt ws h L).frame.stage = 1 ∨ (direction sqrt ws h L).frame.stage = 2 := by
  rcases direction_cont_stage sqrt ws h L hc with h1 | h2
  · exact Or.inl h1.1
  · rw [h2.2]; exact Or.inr h2.1

theorem step_stage2 (sqrt : ℚ → ℚ) (ws : Workspace) (c : Call) (h2 : ws.stage = 2) :
    step sqrt ws c = done ws (search ws c.ls
      { entry ws c.x c.f c.g c.active with
        gd := -op_ddot ws.n c.g ws.d, task := Task.FG }) := by
  have hs : (entry ws c.x c.f c.g c.active).stage = 2 :=
    entry_stage_eq ws c.x c.f c.g c.active 2 (by omega) h2
  have hd : direction sqrt ws c.h (entry ws c.x c.f c.g c.active) =
      Flow.cont { entry ws c.x c.f c.g c.active with gd := -op_ddot ws.n c.g ws.d } := by
    unfold direction
    rw [if_neg (by omega), if_neg (by omega), if_pos hs]
    simp only [entry_g, entry_d]
  have hc : (direction sqrt ws c.h (entry ws c.x c.f c.g c.active)).isCont = true := by
    rw [hd]; rfl
  rw [next_of_cont sqrt ws c hc, hd]
  simp only [Flow.frame]
  rw [initSearch_continue ws _ (by show (entry ws c.x c.f c.g c.active).stage ≠ 1; omega)]

theorem called_frame (sqrt : ℚ → ℚ) (ws : Workspace) (c : Call)
    (hcall : searchCalled sqrt ws c) :
    (initSearch ws (direction sqrt ws c.h (entry ws c.x c.f c.g c.active)).frame).stage = 2 ∧
    ¬ (FLAG_IS_SET ws.flags FLAG_FMIN = true ∧
      (initSearch ws (direction sqrt ws c.h (entry ws c.x c.f c.g c.active)).frame).f < ws.fmin) := by
  refine ⟨initSearch_stage ws _ (direction_stage sqrt ws c.h _ hcall.1), ?_⟩
  rw [initSearch_f, direction_f, entry_f]
  exact hcall.2

/-! ### C3: the two-loop recursion is the BFGS recursion -/

theorem vecMulVec_mulVec {n : Nat} (w v u : Fin n → ℚ) :
    Matrix.mulVec (Matrix.vecMulVec w v) u = Matrix.dotProduct v u • w := by
  ext i
  simp only [Matrix.mulVec, Matrix.dotProduct, Matrix.vecMulVec_apply, Pi.smul_apply,
    smul_eq_mul, Finset.sum_mul]
  refine Finset.sum_congr rfl fun j _ => ?_
  ring

theorem bfgsUpdate_mulVec {n : Nat} (H : Matrix (Fin n) (Fin n) ℚ) (s y q : Fin n → ℚ)
    (rho : ℚ) :
    Matrix.mulVec (bfgsUpdate H s y rho) q =
      Matrix.mulVec H (q - (Matrix.dotProduct s q / rho) • y) +
        (Matrix.dotProduct s q / rho -
          Matrix.dotProduct y
            (Matrix.mulVec H (q - (Matrix.dotProduct s q / rho) • y)) / rho) • s := by
  have h1 : Matrix.mulVec (1 - (1 / rho) • Matrix.vecMulVec y s) q =
      q - (Matrix.dotProduct s q / rho) • y := by
    rw [Matrix.sub_mulVec, Matrix.one_mulVec, Matrix.smul_mulVec_assoc, vecMulVec_mulVec,
      smul_smul]
    congr 2
    ring
  unfold bfgsUpdate
  rw [Matrix.add_mulVec, ← Matrix.mulVec_mulVec, ← Matrix.mulVec_mulVec, h1,
    Matrix.sub_mulVec, Matrix.one_mulVec, Matrix.smul_mulVec_assoc, vecMulVec_mulVec,
    Matrix.smul_mulVec_assoc, vecMulVec_mulVec, smul_smul, smul_smul, sub_smul]
  have e1 : 1 / rho * Matrix.dotProduct y
      (Matrix.mulVec H (q - (Matrix.dotProduct s q / rho) • y)) =
      Matrix.dotProduct y (Matrix.mulVec H (q - (Matrix.dotProduct s q / rho) • y)) / rho := by
    ring
  have e2 : 1 / rho * Matrix.dotProduct s q = Matrix.dotProduct s q / rho := by ring
  rw [e1, e2]
  abel

theorem rSeq_bfgs {n : Nat} (gamma : ℚ) (sv yv : Nat → Fin n → ℚ) (rho : Nat → ℚ)
    (g : Fin n → ℚ) (mp : Nat) : ∀ c, c ≤ mp →
    rSeq sv yv rho g c
        (Matrix.mulVec (bfgsInverse gamma sv yv rho mp (mp - c)) (qSeq sv yv rho g c)) =
      Matrix.mulVec (bfgsInverse gamma sv yv rho mp mp) g := by
  intro c
  induction c with
  | zero => intro _; rfl
  | succ c ih =>
    intro hc
    have hidx : mp - c = (mp - (c + 1)) + 1 := by omega
    have hk : mp - 1 - (mp - (c + 1)) = c := by omega
    have hstep : Matrix.mulVec (bfgsInverse gamma sv yv rho mp (mp - c)) (qSeq sv yv rho g c) =
        Matrix.mulVec (bfgsInverse gamma sv yv rho mp (mp - (c + 1))) (qSeq sv yv rho g (c + 1)) +
          (aSeq sv yv rho g c - Matrix.dotProduct (yv c)
            (Matrix.mulVec (bfgsInverse gamma sv yv rho mp (mp - (c + 1)))
              (qSeq sv yv rho g (c + 1))) / rho c) • sv c := by
      rw [hidx]
      simp only [bfgsInverse, hk]
      rw [bfgsUpdate_mulVec]
      rfl
    show rSeq sv yv rho g c _ = _
    rw [← hstep]
    exact ih (by omega)

theorem ddot_toFin (n : Int) (a b : Vec) :
    op_ddot n a b = Matrix.dotProduct (toFin n.toNat a) (toFin n.toNat b) := by
  unfold op_ddot Matrix.dotProduct toFin
  rw [Finset.sum_range]

theorem toFin_daxpy (n : Int) (c : ℚ) (x y : Vec) :
    toFin n.toNat (op_daxpy_active n c x y none) = toFin n.toNat y + c • toFin n.toNat x := by
  funext i
  simp only [toFin, op_daxpy_active, if_pos i.isLt, Pi.add_apply, Pi.smul_apply, smul_eq_mul]

theorem toFin_dscal (n : Int) (c : ℚ) (v : Vec) :
    toFin n.toNat (op_dscal n c v) = c • toFin n.toNat v := by
  funext i
  simp only [toFin, op_dscal, if_pos i.isLt, Pi.smul_apply, smul_eq_mul]

theorem toFin_dcopy (n : Int) (g d : Vec) :
    toFin n.toNat (op_dcopy_active n g d none) = toFin n.toNat g := by
  funext i
  simp only [toFin, op_dcopy_active, if_pos i.isLt]

theorem slot_ne (ws : Workspace) (L : Frame) (hmark : 0 ≤ L.mark) (k c : Nat) (hkc : k < c)
    (hc : (c : Int) < ws.m) : slot ws L c ≠ slot ws L k := by
  unfold slot
  have hm : 0 < ws.m := by omega
  rw [Int.tmod_eq_emod (by omega) (le_of_lt hm), Int.tmod_eq_emod (by omega) (le_of_lt hm)]
  intro he
  have hd : ws.m ∣ (L.mark + ws.m - (k : Int)) - (L.mark + ws.m - (c : Int)) :=
    Int.dvd_of_emod_eq_zero (Int.emod_eq_emod_iff_emod_sub_eq_zero.1 he.symm)
  have hle := Int.le_of_dvd (by omega) hd
  omega

theorem firstBody_none (n m mm : Int) (s y : Int → Vec) (k : Int) (t : TwoLoop)
    (hpos : 0 < t.rho ((mm - k).tmod m)) :
    firstBody n m mm none s y k t =
      { alpha := Function.update t.alpha ((mm - k).tmod m)
          (op_ddot n (s ((mm - k).tmod m)) t.d / t.rho ((mm - k).tmod m)),
        rho := t.rho,
        d := op_daxpy_active n (-(op_ddot n (s ((mm - k).tmod m)) t.d / t.rho ((mm - k).tmod m)))
          (y ((mm - k).tmod m)) t.d none,
        gamma := if t.gamma ≤ 0 then
            t.rho ((mm - k).tmod m) /
              op_ddot n (y ((mm - k).tmod m)) (y ((mm - k).tmod m))
          else t.gamma } := by
  unfold firstBody
  simp only [Option.isSome_none, Bool.false_eq_true, if_false]
  rw [if_pos hpos]
  rfl

theorem dot_self_pos {n : Nat} (s y : Fin n → ℚ) (h : 0 < Matrix.dotProduct s y) :
    0 < Matrix.dotProduct y y := by
  have hnn : 0 ≤ Matrix.dotProduct y y := Finset.sum_nonneg fun i _ => mul_self_nonneg (y i)
  rcases hnn.lt_or_eq with hlt | heq
  · exact hlt
  · have hy : y = 0 := Matrix.dotProduct_self_eq_zero.1 heq.symm
    rw [hy, Matrix.dotProduct_zero] at h
    exact absurd h (lt_irrefl 0)

theorem firstLoop_inv (ws : Workspace) (L : Frame) (d1 : Vec) (hmark : 0 ≤ L.mark)
    (hle : L.mp ≤ ws.m)
    (hrho : ∀ k : Nat, (k : Int) < L.mp → 0 < L.rho (slot ws L k))
    (hg0 : 0 < L.rho (slot ws L 0) /
      op_ddot ws.n (L.y (slot ws L 0)) (L.y (slot ws L 0))) :
    ∀ c : Nat, (c : Int) ≤ L.mp →
      (firstLoop ws.n ws.m (L.mark + ws.m) none L.s L.y c
        { alpha := L.alpha, rho := L.rho, d := d1, gamma := 0 }).rho = L.rho ∧
      toFin ws.n.toNat (firstLoop ws.n ws.m (L.mark + ws.m) none L.s L.y c
        { alpha := L.alpha, rho := L.rho, d := d1, gamma := 0 }).d =
        qSeq (fun k => toFin ws.n.toNat (L.s (slot ws L k)))
          (fun k => toFin ws.n.toNat (L.y (slot ws L k))) (fun k => L.rho (slot ws L k))
          (toFin ws.n.toNat d1) c ∧
      (∀ k : Nat, k < c →
        (firstLoop ws.n ws.m (L.mark + ws.m) none L.s L.y c
          { alpha := L.alpha, rho := L.rho, d := d1, gamma := 0 }).alpha (slot ws L k) =
        aSeq (fun k => toFin ws.n.toNat (L.s (slot ws L k)))
          (fun k => toFin ws.n.toNat (L.y (slot ws L k))) (fun k => L.rho (slot ws L k))
          (toFin ws.n.toNat d1) k) ∧
      (firstLoop ws.n ws.m (L.mark + ws.m) none L.s L.y c
        { alpha := L.alpha, rho := L.rho, d := d1, gamma := 0 }).gamma =
        (if c = 0 then 0 else L.rho (slot ws L 0) /
          op_ddot ws.n (L.y (slot ws L 0)) (L.y (slot ws L 0))) := by
  intro c
  induction c with
  | zero => intro _; exact ⟨rfl, rfl, fun k hk => absurd hk (Nat.not_lt_zero k), rfl⟩
  | succ c ih =>
    intro hc
    obtain ⟨h1, h2, h3, h4⟩ := ih (by omega)
    have hpos : 0 < (firstLoop ws.n ws.m (L.mark + ws.m) none L.s L.y c
        { alpha := L.alpha, rho := L.rho, d := d1, gamma := 0 }).rho
        ((L.mark + ws.m - (c : Int)).tmod ws.m) := by
      rw [h1]; exact hrho c (by omega)
    show (firstBody ws.n ws.m (L.mark + ws.m) none L.s L.y (c : Int) _).rho = _ ∧
      toFin ws.n.toNat (firstBody ws.n ws.m (L.mark + ws.m) none L.s L.y (c : Int) _).d = _ ∧
      (∀ k : Nat, k < c + 1 →
        (firstBody ws.n ws.m (L.mark + ws.m) none L.s L.y (c : Int) _).alpha _ = _) ∧
      (firstBody ws.n ws.m (L.mark + ws.m) none L.s L.y (c : Int) _).gamma = _
    rw [firstBody_none _ _ _ _ _ _ _ hpos]
    dsimp only
    have ha : op_ddot ws.n (L.s ((L.mark + ws.m - (c : Int)).tmod ws.m))
        (firstLoop ws.n ws.m (L.mark + ws.m) none L.s L.y c
          { alpha := L.alpha, rho := L.rho, d := d1, gamma := 0 }).d /
        (firstLoop ws.n ws.m (L.mark + ws.m) none L.s L.y c
          { alpha := L.alpha, rho := L.rho, d := d1, gamma := 0 }).rho
          ((L.mark + ws.m - (c : Int)).tmod ws.m) =
        aSeq (fun k => toFin ws.n.toNat (L.s (slot ws L k)))
          (fun k => toFin ws.n.toNat (L.y (slot ws L k))) (fun k => L.rho (slot ws L k))
          (toFin ws.n.toNat d1) c := by
      rw [ddot_toFin, h2, h1]
      rfl
    refine ⟨h1, ?_, ?_, ?_⟩
    · rw [toFin_daxpy, h2, ha, neg_smul, ← sub_eq_add_neg]
      rfl
    · intro k hk
      rcases Nat.lt_succ_iff_lt_or_eq.1 hk with hlt | heq
      · have hne : slot ws L k ≠ (L.mark + ws.m - (c : Int)).tmod ws.m :=
          (slot_ne ws L hmark k c hlt (by omega)).symm
        rw [Function.update_noteq hne]
        exact h3 k hlt
      · subst heq
        show Function.update _ (slot ws L k) _ (slot ws L k) = _
        rw [Function.update_same]
        exact ha
    · rw [h4]
      rw [if_neg (Nat.succ_ne_zero c)]
      by_cases hc0 : c = 0
      · subst hc0
        rw [if_pos rfl, if_pos le_rfl, h1]
        rfl
      · rw [if_neg hc0, if_neg (not_le.2 hg0)]

theorem secondBody_none (n m mm : Int) (s y : Int → Vec) (alpha rho : Int → ℚ) (k : Int)
    (d : Vec) (hpos : 0 < rho ((mm - k).tmod m)) :
    secondBody n m mm none s y alpha rho k d =
      op_daxpy_active n
        (alpha ((mm - k).tmod m) - op_ddot n (y ((mm - k).tmod m)) d / rho ((mm - k).tmod m))
        (s ((mm - k).tmod m)) d none := by
  unfold secondBody
  exact if_pos hpos

theorem secondLoop_inv (ws : Workspace) (L : Frame) (g : Fin ws.n.toNat → ℚ)
    (alpha : Int → ℚ)
    (hrho : ∀ k : Nat, (k : Int) < L.mp → 0 < L.rho (slot ws L k))
    (halpha : ∀ k : Nat, (k : Int) < L.mp → alpha (slot ws L k) =
      aSeq (fun k => toFin ws.n.toNat (L.s (slot ws L k)))
        (fun k => toFin ws.n.toNat (L.y (slot ws L k))) (fun k => L.rho (slot ws L k)) g k) :
    ∀ c : Nat, (c : Int) ≤ L.mp → ∀ d : Vec,
      toFin ws.n.toNat
          (secondLoop ws.n ws.m (L.mark + ws.m) none L.s L.y alpha L.rho c d) =
        rSeq (fun k => toFin ws.n.toNat (L.s (slot ws L k)))
          (fun k => toFin ws.n.toNat (L.y (slot ws L k))) (fun k => L.rho (slot ws L k)) g c
          (toFin ws.n.toNat d) := by
  intro c
  induction c with
  | zero => intro _ d; rfl
  | succ c ih =>
    intro hc d
    show toFin ws.n.toNat (secondLoop ws.n ws.m (L.mark + ws.m) none L.s L.y alpha L.rho c
      (secondBody ws.n ws.m (L.mark + ws.m) none L.s L.y alpha L.rho (c : Int) d)) = _
    rw [ih (by omega), secondBody_none _ _ _ _ _ _ _ _ _ (hrho c (by omega)), toFin_daxpy,
      ddot_toFin]
    have ha := halpha c (by omega)
    unfold slot at ha
    rw [ha]
    rfl

/-- C3: over exact arithmetic, with no active mask and no preconditioner, for
every mark `>= 0`, every `1 <= mp <= m` and every store whose `mp` visited pairs
all have `rho[j] = S[j].Y[j] > 0`, the two-loop recursion of stage 3 produces a
direction, and this direction equals `H*g` where `H` is obtained from
`gamma*I`, `gamma = rho_last/(y_last.y_last)` for the most recent pair, by the
BFGS inverse update applied for the `mp` stored pairs from oldest to newest. -/
theorem twoLoop_bfgs (ws : Workspace) (L : Frame) (hact : L.active = none)
    (hmark : 0 ≤ L.mark) (hmp : 1 ≤ L.mp) (hle : L.mp ≤ ws.m)
    (hrho : ∀ k : Nat, k < L.mp.toNat →
      L.rho (slot ws L k) = op_ddot ws.n (L.s (slot ws L k)) (L.y (slot ws L k)) ∧
        0 < L.rho (slot ws L k)) :
    (twoLoop ws none L).isDir = true ∧
    toFin ws.n.toNat (twoLoop ws none L).frame.d =
      Matrix.mulVec
        (bfgsInverse
          (L.rho (slot ws L 0) / op_ddot ws.n (L.y (slot ws L 0)) (L.y (slot ws L 0)))
          (fun k => toFin ws.n.toNat (L.s (slot ws L k)))
          (fun k => toFin ws.n.toNat (L.y (slot ws L k)))
          (fun k => L.rho (slot ws L k)) L.mp.toNat L.mp.toNat)
        (toFin ws.n.toNat L.g) := by
  have hmpN : ((L.mp.toNat : Nat) : Int) = L.mp := Int.toNat_of_nonneg (by omega)
  have hpos : ∀ k : Nat, (k : Int) < L.mp → 0 < L.rho (slot ws L k) :=
    fun k hk => (hrho k (by omega)).2
  have hg0 : 0 < L.rho (slot ws L 0) /
      op_ddot ws.n (L.y (slot ws L 0)) (L.y (slot ws L 0)) := by
    have h0 := hrho 0 (by omega)
    have hyy : 0 < op_ddot ws.n (L.y (slot ws L 0)) (L.y (slot ws L 0)) := by
      rw [ddot_toFin]
      apply dot_self_pos (toFin ws.n.toNat (L.s (slot ws L 0)))
      rw [← ddot_toFin, ← h0.1]
      exact h0.2
    exact div_pos h0.2 hyy
  obtain ⟨h1, h2, h3, h4⟩ := firstLoop_inv ws L (op_dcopy_active ws.n L.g L.d none) hmark hle
    hpos hg0 L.mp.toNat (by omega)
  rw [toFin_dcopy] at h2 h3
  rw [if_neg (by omega)] at h4
  have hsecond := secondLoop_inv ws L (toFin ws.n.toNat L.g) _ hpos
    (fun k hk => h3 k (by omega)) L.mp.toNat (by omega)
  have hfin := rSeq_bfgs
    (L.rho (slot ws L 0) / op_ddot ws.n (L.y (slot ws L 0)) (L.y (slot ws L 0)))
    (fun k => toFin ws.n.toNat (L.s (slot ws L k)))
    (fun k => toFin ws.n.toNat (L.y (slot ws L k))) (fun k => L.rho (slot ws L k))
    (toFin ws.n.toNat L.g) L.mp.toNat L.mp.toNat le_rfl
  have hH0 : ∀ q : Fin ws.n.toNat → ℚ, Matrix.mulVec
      (bfgsInverse
        (L.rho (slot ws L 0) / op_ddot ws.n (L.y (slot ws L 0)) (L.y (slot ws L 0)))
        (fun k => toFin ws.n.toNat (L.s (slot ws L k)))
        (fun k => toFin ws.n.toNat (L.y (slot ws L k)))
        (fun k => L.rho (slot ws L k)) L.mp.toNat 0) q =
      (L.rho (slot ws L 0) / op_ddot ws.n (L.y (slot ws L 0)) (L.y (slot ws L 0))) • q := by
    intro q
    show Matrix.mulVec (_ • (1 : Matrix (Fin ws.n.toNat) (Fin ws.n.toNat) ℚ)) q = _
    rw [Matrix.smul_mulVec_assoc, Matrix.one_mulVec]
  rw [Nat.sub_self, hH0] at hfin
  have hgam : (firstLoop ws.n ws.m (L.mark + ws.m) none L.s L.y L.mp.toNat
      { alpha := L.alpha, rho := L.rho, d := op_dcopy_active ws.n L.g L.d none,
        gamma := 0 }).gamma > 0 := by
    rw [h4]; exact hg0
  unfold twoLoop
  simp only [check_active, hact, ne_eq, not_true_eq_false, if_false, if_pos hgam,
    Recursion.isDir, Recursion.frame, true_and]
  rw [h1, hsecond, toFin_dscal, h2, h4, ← hfin]

/-- Witness of C3 for `m = 1` with a single pair: `S[0] = (1, 1)`,
`Y[0] = (2, 0)`, `rho[0] = 2` and `g = (1, 1)` give `d = (1, 2)`. -/
theorem twoLoop_bfgs_witness :
    (pairFrame.active = none ∧ 0 ≤ pairFrame.mark ∧ 1 ≤ pairFrame.mp ∧
      pairFrame.mp ≤ pairWs.m ∧ pairWs.m = 1) ∧
    (twoLoop pairWs none pairFrame).isDir = true ∧
    (twoLoop pairWs none pairFrame).frame.d 0 = 1 ∧
    (twoLoop pairWs none pairFrame).frame.d 1 = 2 ∧
    toFin pairWs.n.toNat (twoLoop pairWs none pairFrame).frame.d =
      Matrix.mulVec
        (bfgsInverse
          (pairFrame.rho (slot pairWs pairFrame 0) /
            op_ddot pairWs.n (pairFrame.y (slot pairWs pairFrame 0))
              (pairFrame.y (slot pairWs pairFrame 0)))
          (fun k => toFin pairWs.n.toNat (pairFrame.s (slot pairWs pairFrame k)))
          (fun k => toFin pairWs.n.toNat (pairFrame.y (slot pairWs pairFrame k)))
          (fun k => pairFrame.rho (slot pairWs pairFrame k)) pairFrame.mp.toNat
          pairFrame.mp.toNat)
        (toFin pairWs.n.toNat pairFrame.g) :=
  have h := twoLoop_bfgs pairWs pairFrame rfl (by decide) (by decide) (by decide!)
    (by decide!)
  ⟨⟨rfl, by decide!⟩, h.1, by decide!, by decide!, h.2⟩

/-! ### C4: the descent test -/

/-- With `epsilon = 0`, a stage-3 direction that passes the descent test has
`gd = -g.d < 0`. -/
theorem stage3_descent_strict (sqrt : ℚ → ℚ) (ws : Workspace) (h : Option Vec) (L : Frame)
    (heps : ¬ ws.epsilon > 0) (hno : restartFrame sqrt ws h L = none)
    (hc : (stage3 sqrt ws h L).isCont = true) :
    (stage3 sqrt ws h L).frame.gd < 0 ∧
    (stage3 sqrt ws h L).frame.gd =
      -op_ddot ws.n (stage3 sqrt ws h L).frame.g (stage3 sqrt ws h L).frame.d := by
  unfold restartFrame at hno
  unfold stage3 at hc ⊢
  cases htl : twoLoop ws h L with
  | done L1 => rw [htl] at hc; simp [Flow.isCont] at hc
  | restart L1 => rw [htl] at hno; simp at hno
  | dir L1 =>
    rw [htl] at hno hc
    dsimp only at hno hc ⊢
    by_cases hd : ¬ descent sqrt ws L1 (-op_ddot ws.n L1.g L1.d) = true
    · rw [if_pos hd] at hno; simp at hno
    · rw [if_neg hd]
      have hd1 : descent sqrt ws L1 (-op_ddot ws.n L1.g L1.d) = true := not_not.1 hd
      unfold descent at hd1
      rw [if_neg heps] at hd1
      exact ⟨of_decide_eq_true hd1, rfl⟩

/-- C4 (the code departs from the claim): with `epsilon = 1/100`, after an
accepted step that lands on a point where the gradient is zero, the two-loop
recursion of stage 3 completes, the descent test
`gd <= -epsilon*||g||*||d||` passes as `0 <= 0`, no restart is triggered, and
the line search is initialised with `g.d = 0`, `gd = 0` and `gd0 = 0`. -/
theorem descent_gap :
    Reachable Rat.sqrt (steps Rat.sqrt flatWs [flatCall0, flatCall1]) ∧
    (steps Rat.sqrt flatWs [flatCall0, flatCall1]).stage = 3 ∧
    (steps Rat.sqrt flatWs [flatCall0, flatCall1]).epsilon = 1 / 100 ∧
    (step Rat.sqrt flatWs flatCall0).task = Task.FG ∧
    (step Rat.sqrt (step Rat.sqrt flatWs flatCall0).ws flatCall1).task = Task.NEWX ∧
    (restartEntry Rat.sqrt (steps Rat.sqrt flatWs [flatCall0, flatCall1])
      flatCall2.x flatCall2.f flatCall2.g flatCall2.active flatCall2.h).isSome = false ∧
    (direction Rat.sqrt (steps Rat.sqrt flatWs [flatCall0, flatCall1]) flatCall2.h
      (entry (steps Rat.sqrt flatWs [flatCall0, flatCall1])
        flatCall2.x flatCall2.f flatCall2.g flatCall2.active)).isCont = true ∧
    (step Rat.sqrt (steps Rat.sqrt flatWs [flatCall0, flatCall1]) flatCall2).ws.nrestarts = 0 ∧
    op_ddot 1 flatCall2.g
      (step Rat.sqrt (steps Rat.sqrt flatWs [flatCall0, flatCall1]) flatCall2).ws.d = 0 ∧
    (step Rat.sqrt (steps Rat.sqrt flatWs [flatCall0, flatCall1]) flatCall2).ws.gd = 0 ∧
    (step Rat.sqrt (steps Rat.sqrt flatWs [flatCall0, flatCall1]) flatCall2).ws.gd0 = 0 ∧
    (step Rat.sqrt (steps Rat.sqrt flatWs [flatCall0, flatCall1]) flatCall2).ws.stage = 2 ∧
    (step Rat.sqrt (steps Rat.sqrt flatWs [flatCall0, flatCall1]) flatCall2).ws.task =
      Task.FG :=
  ⟨Reachable.next _ flatCall1 (Reachable.next _ flatCall0
      (Reachable.first 1 1 0 0 (1/1000) (9/10) (1/10) 0 (1/100) junk
        (by unfold ValidArgs; norm_num))),
    by decide!, by decide!, by decide!, by decide!, by decide!, by decide!, by decide!,
    by decide!, by decide!, by decide!, by decide!, by decide!⟩

/-! ### C5: the restart path -/

theorem check_active_none (n : Int) (active : Option Mask) (task : Task) (csave : String) :
    check_active n active none task csave =
      { rc := 0, active := active, task := task, csave := csave } := rfl

theorem restartFrame_fields (sqrt : ℚ → ℚ) (ws : Workspace) (h : Option Vec) (L L1 : Frame)
    (hr : restartFrame sqrt ws h L = some L1) :
    L1.g = L.g ∧ L1.x = L.x ∧ L1.active = (check_active ws.n L.active h L.task L.csave).active ∧
    stage3 sqrt ws h L = restart sqrt ws h L1 := by
  have hg := twoLoop_g ws h L
  have hx := twoLoop_x ws h L
  have ha := twoLoop_active ws h L
  unfold restartFrame at hr
  unfold stage3
  cases htl : twoLoop ws h L with
  | done L2 => rw [htl] at hr; simp at hr
  | restart L2 =>
    rw [htl] at hr hg hx ha
    simp only [Option.some.injEq] at hr
    subst hr
    exact ⟨hg, hx, ha, rfl⟩
  | dir L2 =>
    rw [htl] at hr hg hx ha
    dsimp only at hr ⊢
    by_cases hd : ¬ descent sqrt ws L2 (-op_ddot ws.n L2.g L2.d) = true
    · rw [if_pos hd] at hr
      rw [if_pos hd]
      simp only [Option.some.injEq] at hr
      subst hr
      exact ⟨hg, hx, ha, rfl⟩
    · rw [if_neg hd] at hr
      simp at hr

theorem restartEntry_fields (sqrt : ℚ → ℚ) (ws : Workspace) (x : Vec) (f : ℚ)
    (g : Vec) (active : Option Mask) (h : Option Vec) (L : Frame)
    (hr : restartEntry sqrt ws x f g active h = some L) :
    L.g = g ∧ L.x = x ∧ (h = none → L.active = active) ∧
    direction sqrt ws h (entry ws x f g active) = restart sqrt ws h L := by
  unfold restartEntry at hr
  unfold direction
  by_cases h0 : (entry ws x f g active).stage = 0
  · rw [if_pos h0] at hr ⊢
    by_cases hm : FLAG_IS_SET ws.flags FLAG_FMIN = true ∧ (entry ws x f g active).f ≤ ws.fmin
    · rw [if_pos hm] at hr; simp at hr
    · rw [if_neg hm] at hr ⊢
      simp only [Option.some.injEq] at hr
      subst hr
      exact ⟨entry_g ws x f g active, entry_x ws x f g active,
        fun _ => entry_active ws x f g active, rfl⟩
  · rw [if_neg h0] at hr ⊢
    by_cases h3 : (entry ws x f g active).stage = 3
    · rw [if_pos h3] at hr ⊢
      have hf := restartFrame_fields sqrt ws h _ L hr
      refine ⟨hf.1.trans (entry_g ws x f g active), hf.2.1.trans (entry_x ws x f g active), ?_,
        hf.2.2.2⟩
      intro hn
      subst hn
      rw [hf.2.2.1, check_active_none]
      exact entry_active ws x f g active
    · rw [if_neg h3] at hr; simp at hr

theorem search_mp (ws : Workspace) (ls : Csrch) (L : Frame) (h2 : ls.info ≠ 2)
    (h5 : ls.info ≠ 5) : (search ws ls L).mp = L.mp := by
  unfold search
  dsimp only
  split_ifs with _ _ _ h
  · rfl
  · rfl
  · exact absurd h (by omega)
  · rfl
  · rfl
  · rfl

theorem dcopy_active_apply (n : Int) (g d : Vec) (active : Option Mask) (i : Nat)
    (hi : i < n.toNat) : op_dcopy_active n g d active i = masked g active i := by
  cases active <;> simp [op_dcopy_active, masked, hi]

theorem ddot_congr (n : Int) (a b a1 b1 : Vec) (ha : ∀ i, i < n.toNat → a i = a1 i)
    (hb : ∀ i, i < n.toNat → b i = b1 i) : op_ddot n a b = op_ddot n a1 b1 := by
  unfold op_ddot
  refine Finset.sum_congr rfl fun i hi => ?_
  rw [ha i (Finset.mem_range.1 hi), hb i (Finset.mem_range.1 hi)]

theorem dnrm2_dcopy_active (sqrt : ℚ → ℚ) (n : Int) (g d : Vec) (active : Option Mask) :
    op_dnrm2 sqrt n (op_dcopy_active n g d active) = op_dnrm2 sqrt n (masked g active) := by
  unfold op_dnrm2
  rw [ddot_congr n _ _ _ _ (dcopy_active_apply n g d active) (dcopy_active_apply n g d active)]

theorem steepestScale_pos (delta xnorm gp : ℚ) (hgp : 0 < gp) :
    0 < steepestScale delta xnorm gp := by
  unfold steepestScale
  split_ifs with hc
  · exact hc.2
  · exact one_div_pos.2 hgp

theorem steepestScale_code (delta xnorm gp : ℚ) :
    (if (if delta > 0 then (xnorm / gp) * delta else 0) ≤ 0 then 1 / gp
      else (if delta > 0 then (xnorm / gp) * delta else 0)) = steepestScale delta xnorm gp := by
  unfold steepestScale
  have e : xnorm / gp * delta = delta * xnorm / gp := by ring
  by_cases hd : delta > 0
  · rw [if_pos hd, e]
    by_cases hp : delta * xnorm / gp ≤ 0
    · rw [if_pos hp, if_neg (fun hh => absurd hh.2 (not_lt.2 hp))]
    · rw [if_neg hp, if_pos ⟨hd, not_le.1 hp⟩]
  · rw [if_neg hd, if_pos le_rfl, if_neg (fun hh => hd hh.1)]

theorem restart_none (sqrt : ℚ → ℚ) (ws : Workspace) (L : Frame)
    (hgp : 0 < op_dnrm2 sqrt ws.n (masked L.g L.active)) :
    (restart sqrt ws none L).isCont = true ∧
    (∀ i, i < ws.n.toNat → (restart sqrt ws none L).frame.d i =
        steepestScale ws.delta (op_dnrm2 sqrt ws.n L.x)
          (op_dnrm2 sqrt ws.n (masked L.g L.active)) * masked L.g L.active i) ∧
    (restart sqrt ws none L).frame.gd =
        -steepestScale ws.delta (op_dnrm2 sqrt ws.n L.x)
          (op_dnrm2 sqrt ws.n (masked L.g L.active)) *
          (op_dnrm2 sqrt ws.n (masked L.g L.active)) ^ 2 := by
  have hne : op_dnrm2 sqrt ws.n (masked L.g L.active) ≠ 0 := ne_of_gt hgp
  simp only [restart, check_active, ne_eq, not_true_eq_false, if_false, dnrm2_dcopy_active,
    if_neg hne, Flow.frame, Flow.isCont, steepestScale_code]
  refine ⟨trivial, ?_, ?_⟩
  · intro i hi
    split_ifs with h1
    · rw [h1, one_mul, dcopy_active_apply _ _ _ _ _ hi]
    · simp only [op_dscal, if_pos hi]
      rw [dcopy_active_apply _ _ _ _ _ hi]
  · ring

/-- C5: whenever `op_vmlmb_next` runs the restart path (first call at stage 0,
or a restart triggered from stage 3) without a preconditioner and with
`gpnorm = ||masked g|| > 0`, the path sets `mp = 0` and the call leaves
`d = scale * masked(g)` and `gd = -scale*gpnorm^2 < 0`, where `scale > 0` is
`delta*||x||/gpnorm` if `delta > 0` and that product is positive and `1/gpnorm`
otherwise, in particular when `delta = 0` or `||x|| = 0`; `mp` is still zero on
return unless the line search accepts a step on this very call. -/
theorem restart_steepest (sqrt : ℚ → ℚ) (ls : Csrch) (x : Vec) (f : ℚ) (g : Vec)
    (active : Option Mask) (ws : Workspace)
    (hrun : (restartEntry sqrt ws x f g active none).isSome = true)
    (hgp : 0 < op_dnrm2 sqrt ws.n (masked g active)) :
    (∀ L, restartEntry sqrt ws x f g active none = some L →
      (restart sqrt ws none L).frame.mp = 0) ∧
    (∀ i, i < ws.n.toNat → (op_vmlmb_next sqrt ls x f g active none ws).ws.d i =
        steepestScale ws.delta (op_dnrm2 sqrt ws.n x) (op_dnrm2 sqrt ws.n (masked g active)) *
          masked g active i) ∧
    0 < steepestScale ws.delta (op_dnrm2 sqrt ws.n x) (op_dnrm2 sqrt ws.n (masked g active)) ∧
    ((ws.delta = 0 ∨ op_dnrm2 sqrt ws.n x = 0) →
      steepestScale ws.delta (op_dnrm2 sqrt ws.n x) (op_dnrm2 sqrt ws.n (masked g active)) =
        1 / op_dnrm2 sqrt ws.n (masked g active)) ∧
    (op_vmlmb_next sqrt ls x f g active none ws).ws.gd =
        -steepestScale ws.delta (op_dnrm2 sqrt ws.n x) (op_dnrm2 sqrt ws.n (masked g active)) *
          (op_dnrm2 sqrt ws.n (masked g active)) ^ 2 ∧
    (op_vmlmb_next sqrt ls x f g active none ws).ws.gd < 0 ∧
    (ls.info ≠ 2 → ls.info ≠ 5 → (op_vmlmb_next sqrt ls x f g active none ws).ws.mp = 0) := by
  obtain ⟨L, hL⟩ := Option.isSome_iff_exists.1 hrun
  obtain ⟨hg, hx, ha, hdir⟩ := restartEntry_fields sqrt ws x f g active none L hL
  have ha1 := ha rfl
  have hpos := steepestScale_pos ws.delta (op_dnrm2 sqrt ws.n x) _ hgp
  rw [← hg, ← ha1] at hgp
  have hb := restart_none sqrt ws L hgp
  rw [hg, ha1, hx] at hb
  rw [hg, ha1] at hgp
  have hnext : op_vmlmb_next sqrt ls x f g active none ws =
      done ws (search ws ls (initSearch ws (restart sqrt ws none L).frame)) := by
    have := next_of_cont sqrt ws ⟨ls, x, f, g, active, none⟩ (by rw [hdir]; exact hb.1)
    rw [← hdir]
    exact this
  rw [hnext]
  refine ⟨fun L1 _ => restart_mp sqrt ws none L1, ?_, hpos, ?_, ?_, ?_, ?_⟩
  · intro i hi
    show (search ws ls _).d i = _
    rw [search_d, initSearch_d, hb.2.1 i hi]
  · intro h0
    unfold steepestScale
    refine if_neg ?_
    rintro ⟨hd, hp⟩
    rcases h0 with h0 | h0
    · exact absurd h0 (ne_of_gt hd)
    · rw [h0, mul_zero, zero_div] at hp
      exact absurd hp (lt_irrefl 0)
  · show (search ws ls _).gd = _
    rw [search_gd, initSearch_gd, hb.2.2]
  · show (search ws ls _).gd < 0
    rw [search_gd, initSearch_gd, hb.2.2]
    have := mul_pos hpos (pow_pos hgp 2)
    linarith
  · intro h2 h5
    show (search ws ls _).mp = 0
    rw [search_mp ws ls _ h2 h5, initSearch_mp, restart_mp]

/-- Witness of C5: the first call at `x = (3, 4)` with gradient `(0, 5)` and
`delta = 1/10` gives `scale = 1/10`, `d = (0, 1/2)` and `gd = -5/2`. -/
theorem restart_steepest_witness :
    (restartEntry Rat.sqrt planeWs planeCall0.x planeCall0.f planeCall0.g none none).isSome =
      true ∧
    0 < op_dnrm2 Rat.sqrt planeWs.n (masked planeCall0.g none) ∧
    (step Rat.sqrt planeWs planeCall0).ws.d 1 = 1 / 2 ∧
    (op_vmlmb_next Rat.sqrt planeCall0.ls planeCall0.x planeCall0.f planeCall0.g none none
      planeWs).ws.gd < 0 :=
  ⟨by decide!, by decide!, by decide!,
    (restart_steepest Rat.sqrt planeCall0.ls planeCall0.x planeCall0.f planeCall0.g none
      planeWs (by decide!) (by decide!)).2.2.2.2.2.1⟩

/-! ### C6, C7, C8: the line search from its start to its verdict -/

/-- A call that does not accept a step leaves the line search at stage 2 with
the store and the counters unchanged. -/
theorem search_goesOn (ws : Workspace) (ls : Csrch) (L : Frame) (h2 : L.stage = 2)
    (hg : (FLAG_IS_SET ws.flags FLAG_FMIN = true ∧ L.f < ws.fmin) ∨
      (ls.info ≠ 2 ∧ ls.info ≠ 5)) :
    (search ws ls L).stage = 2 ∧ (search ws ls L).s = L.s ∧ (search ws ls L).y = L.y ∧
    (search ws ls L).mp = L.mp ∧ (search ws ls L).iter = L.iter := by
  unfold search
  dsimp only
  rw [if_pos h2]
  by_cases hm : FLAG_IS_SET ws.flags FLAG_FMIN = true ∧ L.f < ws.fmin
  · rw [if_pos hm]
    exact ⟨h2, rfl, rfl, rfl, rfl⟩
  · rw [if_neg hm]
    have hn : ¬ (ls.info = 2 ∨ ls.info = 5) := by
      rcases hg with h | h
      · exact absurd h hm
      · omega
    rw [if_neg hn]
    split_ifs <;> exact ⟨h2, rfl, rfl, rfl, rfl⟩

theorem start_searching (sqrt : ℚ → ℚ) (ws : Workspace) (c : Call)
    (hs : startsSearch sqrt ws c) (ht : goesOn ws c) :
    Searching c.x c.g c.f (step sqrt ws c).ws (step sqrt ws c).ws ∧
    (step sqrt ws c).ws.n = ws.n ∧ (step sqrt ws c).ws.m = ws.m := by
  have hi := initSearch_stage ws _ (Or.inl hs.2)
  have hg := search_goesOn ws c.ls
    (initSearch ws (direction sqrt ws c.h (entry ws c.x c.f c.g c.active)).frame) hi
    (by rw [initSearch_f, direction_f, entry_f]; exact ht)
  rw [next_of_cont sqrt ws c hs.1]
  refine ⟨⟨hg.1, rfl, rfl, rfl, rfl, rfl, rfl, rfl, ?_, ?_, ?_⟩, rfl, rfl⟩
  · show (search ws c.ls _).f0 = c.f
    rw [search_f0, initSearch_start ws _ hs.2]
    show (direction sqrt ws c.h (entry ws c.x c.f c.g c.active)).frame.f = c.f
    rw [direction_f, entry_f]
  · intro i hi
    show (search ws c.ls _).s (search ws c.ls _).mark i = c.x i
    rw [hg.2.1, search_mark, initSearch_start ws _ hs.2]
    simp only [Function.update_same, op_dcopy, direction_x, entry_x]
    exact if_pos (show i < ws.n.toNat from hi)
  · intro i hi
    show (search ws c.ls _).y (search ws c.ls _).mark i = c.g i
    rw [hg.2.2.1, search_mark, initSearch_start ws _ hs.2]
    simp only [Function.update_same, op_dcopy, direction_g, entry_g]
    exact if_pos (show i < ws.n.toNat from hi)

theorem trial_searching (sqrt : ℚ → ℚ) (x0 g0 : Vec) (f0 : ℚ) (w0 w : Workspace) (c : Call)
    (hs : Searching x0 g0 f0 w0 w) (ht : goesOn w c) :
    Searching x0 g0 f0 w0 (step sqrt w c).ws := by
  have hg := search_goesOn w c.ls
    { entry w c.x c.f c.g c.active with gd := -op_ddot w.n c.g w.d, task := Task.FG }
    (entry_stage_eq w c.x c.f c.g c.active 2 (by omega) hs.1)
    (by show (_ ∧ (entry w c.x c.f c.g c.active).f < w.fmin) ∨ _; rw [entry_f]; exact ht)
  rw [step_stage2 sqrt w c hs.1]
  obtain ⟨h1, h2, h3, h4, h5, h6, h7, h8, h9, h10, h11⟩ := hs
  refine ⟨hg.1, h2, h3, h4, h5, ?_, ?_, ?_, ?_, ?_, ?_⟩
  · show (search w c.ls _).mark = _
    rw [search_mark]
    show (entry w c.x c.f c.g c.active).mark = _
    rw [entry_mark, h6]
  · show (search w c.ls _).iter = _
    rw [hg.2.2.2.2]
    show (entry w c.x c.f c.g c.active).iter = _
    rw [entry_iter, h7]
  · show (search w c.ls _).mp = _
    rw [hg.2.2.2.1]
    show (entry w c.x c.f c.g c.active).mp = _
    rw [entry_mp, h8]
  · show (search w c.ls _).f0 = _
    rw [search_f0]
    show (entry w c.x c.f c.g c.active).f0 = _
    rw [entry_f0, h9]
  · intro i hi
    show (search w c.ls _).s (search w c.ls _).mark i = _
    rw [hg.2.1, search_mark]
    show (entry w c.x c.f c.g c.active).s (entry w c.x c.f c.g c.active).mark i = _
    rw [entry_mark, entry_s]; exact h10 i hi
  · intro i hi
    show (search w c.ls _).y (search w c.ls _).mark i = _
    rw [hg.2.2.1, search_mark]
    show (entry w c.x c.f c.g c.active).y (entry w c.x c.f c.g c.active).mark i = _
    rw [entry_mark, entry_y]; exact h11 i hi

theorem trials_searching (sqrt : ℚ → ℚ) (x0 g0 : Vec) (f0 : ℚ) (w0 : Workspace)
    (cs : List Call) : ∀ w : Workspace, Searching x0 g0 f0 w0 w → AllGoOn sqrt w cs →
    Searching x0 g0 f0 w0 (steps sqrt w cs) := by
  induction cs with
  | nil => intro w hs _; exact hs
  | cons c cs ih =>
    intro w hs ht
    exact ih (step sqrt w c).ws (trial_searching sqrt x0 g0 f0 w0 w c hs ht.1) ht.2

/-- C6: for every stage-2 call of `op_vmlmb_next` in which the line search
returns `info` in `{2, 5}`, made after the start of the line search at `x0`, `g0`
and any number of calls that do not accept a step (in particular trial calls):
`iter` increases by one, `mp` becomes `min(mp+1, m)` (given `mp <= m`), `stage`
becomes 3, `mark` is unchanged, slot `mark` of the store becomes
`(x0 - x, g0 - g)`, `rho[mark]` is the full dot product of `Y[mark]` and `S[mark]`
when no mask is passed, and no other slot of `S` or `Y` is modified. -/
theorem accepted_step (sqrt : ℚ → ℚ) (ws : Workspace) (c0 : Call) (cs : List Call)
    (cf : Call) (hstart : startsSearch sqrt ws c0) (h0 : goesOn ws c0)
    (hcs : AllGoOn sqrt (step sqrt ws c0).ws cs)
    (hcalled : ¬ (FLAG_IS_SET (steps sqrt (step sqrt ws c0).ws cs).flags FLAG_FMIN = true ∧
      cf.f < (steps sqrt (step sqrt ws c0).ws cs).fmin))
    (hacc : cf.ls.info = 2 ∨ cf.ls.info = 5)
    (hmp : (steps sqrt (step sqrt ws c0).ws cs).mp ≤ (steps sqrt (step sqrt ws c0).ws cs).m) :
    (steps sqrt (step sqrt ws c0).ws cs).stage = 2 ∧
    (step sqrt (steps sqrt (step sqrt ws c0).ws cs) cf).ws.iter =
      (steps sqrt (step sqrt ws c0).ws cs).iter + 1 ∧
    (step sqrt (steps sqrt (step sqrt ws c0).ws cs) cf).ws.mp =
      min ((steps sqrt (step sqrt ws c0).ws cs).mp + 1) (steps sqrt (step sqrt ws c0).ws cs).m ∧
    (step sqrt (steps sqrt (step sqrt ws c0).ws cs) cf).ws.stage = 3 ∧
    (step sqrt (steps sqrt (step sqrt ws c0).ws cs) cf).ws.mark =
      (steps sqrt (step sqrt ws c0).ws cs).mark ∧
    (∀ i, i < ws.n.toNat →
      (step sqrt (steps sqrt (step sqrt ws c0).ws cs) cf).ws.s
        (steps sqrt (step sqrt ws c0).ws cs).mark i = c0.x i - cf.x i) ∧
    (∀ i, i < ws.n.toNat →
      (step sqrt (steps sqrt (step sqrt ws c0).ws cs) cf).ws.y
        (steps sqrt (step sqrt ws c0).ws cs).mark i = c0.g i - cf.g i) ∧
    (cf.active = none →
      (step sqrt (steps sqrt (step sqrt ws c0).ws cs) cf).ws.rho
          (steps sqrt (step sqrt ws c0).ws cs).mark =
        op_ddot ws.n
          ((step sqrt (steps sqrt (step sqrt ws c0).ws cs) cf).ws.y
            (steps sqrt (step sqrt ws c0).ws cs).mark)
          ((step sqrt (steps sqrt (step sqrt ws c0).ws cs) cf).ws.s
            (steps sqrt (step sqrt ws c0).ws cs).mark)) ∧
    (∀ j, j ≠ (steps sqrt (step sqrt ws c0).ws cs).mark →
      (step sqrt (steps sqrt (step sqrt ws c0).ws cs) cf).ws.s j =
          (steps sqrt (step sqrt ws c0).ws cs).s j ∧
        (step sqrt (steps sqrt (step sqrt ws c0).ws cs) cf).ws.y j =
          (steps sqrt (step sqrt ws c0).ws cs).y j) := by
  obtain ⟨hs1, hn1, -⟩ := start_searching sqrt ws c0 hstart h0
  have hs2 := trials_searching sqrt c0.x c0.g c0.f _ cs _ hs1 hcs
  generalize steps sqrt (step sqrt ws c0).ws cs = w2 at hs2 hcalled hmp ⊢
  generalize (step sqrt ws c0).ws = w1 at hs2 hn1 ⊢
  obtain ⟨h1, h2, h3, h4, h5, h6, h7, h8, h9, h10, h11⟩ := hs2
  have hn : w2.n = ws.n := h2.trans hn1
  rw [step_stage2 sqrt w2 cf h1]
  rw [search_accept w2 cf.ls _
    (by exact entry_stage_eq w2 cf.x cf.f cf.g cf.active 2 (by omega) h1) (by
    show ¬ (FLAG_IS_SET w2.flags FLAG_FMIN = true ∧ (entry w2 cf.x cf.f cf.g cf.active).f < w2.fmin)
    rw [entry_f]; exact hcalled) hacc]
  refine ⟨h1, ?_, ?_, ?_, ?_, ?_, ?_, ?_, ?_⟩
  · show (accept w2 _).iter = _
    rw [accept_iter]
    show (entry w2 cf.x cf.f cf.g cf.active).iter + 1 = _
    rw [entry_iter]
  · show (accept w2 _).mp = _
    rw [accept_mp]
    show (if (entry w2 cf.x cf.f cf.g cf.active).mp < w2.m then
      (entry w2 cf.x cf.f cf.g cf.active).mp + 1 else (entry w2 cf.x cf.f cf.g cf.active).mp) = _
    rw [entry_mp]
    split_ifs with hlt
    · exact (min_eq_left (by omega)).symm
    · have : w2.mp = w2.m := by omega
      rw [this]
      exact (min_eq_right (by omega)).symm
  · show (accept w2 _).stage = _
    rw [accept_stage]
  · show (accept w2 _).mark = _
    rw [accept_mark]
    exact entry_mark w2 cf.x cf.f cf.g cf.active
  · intro i hi
    show (accept w2 _).s w2.mark i = _
    rw [accept_s]
    show Function.update (entry w2 cf.x cf.f cf.g cf.active).s
      (entry w2 cf.x cf.f cf.g cf.active).mark _ w2.mark i = _
    rw [entry_mark, Function.update_same, if_pos (hn ▸ hi), entry_s, entry_x, h10 i (hn ▸ hi)]
  · intro i hi
    show (accept w2 _).y w2.mark i = _
    rw [accept_y]
    show Function.update (entry w2 cf.x cf.f cf.g cf.active).y
      (entry w2 cf.x cf.f cf.g cf.active).mark _ w2.mark i = _
    rw [entry_mark, Function.update_same, if_pos (hn ▸ hi), entry_y, entry_g, h11 i (hn ▸ hi)]
  · intro ha
    rw [← hn]
    exact accept_rho w2 _ w2.mark (entry_mark w2 cf.x cf.f cf.g cf.active)
      (by show (entry w2 cf.x cf.f cf.g cf.active).active = none; rw [entry_active, ha])
  · intro j hj
    constructor
    · show (accept w2 _).s j = _
      rw [accept_s]
      show Function.update (entry w2 cf.x cf.f cf.g cf.active).s
        (entry w2 cf.x cf.f cf.g cf.active).mark _ j = _
      rw [entry_mark, Function.update_noteq hj, entry_s]
    · show (accept w2 _).y j = _
      rw [accept_y]
      show Function.update (entry w2 cf.x cf.f cf.g cf.active).y
        (entry w2 cf.x cf.f cf.g cf.active).mark _ j = _
      rw [entry_mark, Function.update_noteq hj, entry_y]

/-- Witness of C6: start at `x0 = (3, 4)`, `g0 = (0, 5)`, one trial call, then
acceptance at `x = (3, 2)`, `g = (0, 3)`. -/
theorem accepted_step_witness :
    startsSearch Rat.sqrt planeWs planeCall0 ∧ goesOn planeWs planeCall0 ∧
    AllGoOn Rat.sqrt (step Rat.sqrt planeWs planeCall0).ws [planeTrial] ∧
    (step Rat.sqrt (steps Rat.sqrt (step Rat.sqrt planeWs planeCall0).ws [planeTrial])
      planeAccept).ws.mp = 1 ∧
    (step Rat.sqrt (steps Rat.sqrt (step Rat.sqrt planeWs planeCall0).ws [planeTrial])
      planeAccept).ws.s 0 1 = 2 ∧
    (step Rat.sqrt (steps Rat.sqrt (step Rat.sqrt planeWs planeCall0).ws [planeTrial])
      planeAccept).ws.stage = 3 :=
  have h1 : startsSearch Rat.sqrt planeWs planeCall0 := by unfold startsSearch; decide!
  have h2 : goesOn planeWs planeCall0 := by unfold goesOn; decide!
  have h3 : AllGoOn Rat.sqrt (step Rat.sqrt planeWs planeCall0).ws [planeTrial] := by
    simp only [AllGoOn, goesOn]; decide!
  have h := accepted_step Rat.sqrt planeWs planeCall0 [planeTrial] planeAccept h1 h2 h3
    (by decide!) (by decide!) (by decide!)
  ⟨h1, h2, h3, by decide!, by decide!, h.2.2.2.1⟩

theorem op_noneof_iff (n : Int) (v : Vec) :
    op_noneof n v = true ↔ ∀ i, i < n.toNat → v i = 0 := by
  simp [op_noneof, List.all_eq_true]

theorem max_eq (a b : ℚ) : max a b = Max.max a b := by
  unfold max
  split_ifs with h
  · exact (max_eq_left h).symm
  · exact (max_eq_right (le_of_lt (not_le.1 h))).symm

theorem acceptTask_spec (ws : Workspace) (A : Frame) :
    ((∀ i, i < ws.n.toNat → A.s A.mark i = 0) → (acceptTask ws A).1 = Task.WARN) ∧
    (¬ (∀ i, i < ws.n.toNat → A.s A.mark i = 0) → (∀ i, i < ws.n.toNat → A.y A.mark i = 0) →
      (acceptTask ws A).1 = Task.WARN) ∧
    (¬ (∀ i, i < ws.n.toNat → A.s A.mark i = 0) → ¬ (∀ i, i < ws.n.toNat → A.y A.mark i = 0) →
      Max.max |A.f - A.f0| |A.stp * A.gd0| ≤ ws.frtol * |A.f0| →
      (acceptTask ws A).1 = Task.CONV) ∧
    (¬ (∀ i, i < ws.n.toNat → A.s A.mark i = 0) → ¬ (∀ i, i < ws.n.toNat → A.y A.mark i = 0) →
      ¬ Max.max |A.f - A.f0| |A.stp * A.gd0| ≤ ws.frtol * |A.f0| →
      Max.max |A.f - A.f0| |A.stp * A.gd0| ≤ ws.fatol →
      (acceptTask ws A).1 = Task.CONV) ∧
    (¬ (∀ i, i < ws.n.toNat → A.s A.mark i = 0) → ¬ (∀ i, i < ws.n.toNat → A.y A.mark i = 0) →
      ¬ Max.max |A.f - A.f0| |A.stp * A.gd0| ≤ ws.frtol * |A.f0| →
      ¬ Max.max |A.f - A.f0| |A.stp * A.gd0| ≤ ws.fatol →
      (acceptTask ws A).1 = Task.NEWX) ∧
    ((acceptTask ws A).1 = Task.NEWX →
      ¬ (∀ i, i < ws.n.toNat → A.s A.mark i = 0) ∧ ¬ (∀ i, i < ws.n.toNat → A.y A.mark i = 0) ∧
      ws.frtol * |A.f0| < Max.max |A.f - A.f0| |A.stp * A.gd0| ∧
      ws.fatol < Max.max |A.f - A.f0| |A.stp * A.gd0|) := by
  unfold acceptTask
  dsimp only
  rw [max_eq]
  simp only [← op_noneof_iff]
  by_cases hs : op_noneof ws.n (A.s A.mark) = true
  · simp [hs]
  · rw [if_neg hs]
    by_cases hy : op_noneof ws.n (A.y A.mark) = true
    · simp [hs, hy]
    · rw [if_neg hy]
      by_cases h1 : Max.max |A.f - A.f0| |A.stp * A.gd0| ≤ ws.frtol * |A.f0|
      · simp [hs, hy, h1]
      · rw [if_neg h1]
        by_cases h2 : Max.max |A.f - A.f0| |A.stp * A.gd0| ≤ ws.fatol
        · simp [hs, hy, h1, h2]
        · rw [if_neg h2]
          simp [hs, hy, h1, h2, not_le.1 h1, not_le.1 h2]

/-- C7: on every accepted step (line search `info` in `{2, 5}`) the task
returned by `op_vmlmb_next` is decided, in this order, by: `WARN` if `S[mark]` is
entirely zero; else `WARN` if `Y[mark]` is entirely zero; else, with
`change = max(|f - f0|, |stp*gd0|)`, `CONV` if `change <= frtol*|f0|`; else `CONV`
if `change <= fatol`; else `NEWX`.  Hence `NEWX` is returned only when both
differences are non-zero, `change > frtol*|f0|` and `change > fatol`. -/
theorem accepted_task (sqrt : ℚ → ℚ) (ws : Workspace) (c : Call)
    (hcall : searchCalled sqrt ws c) (hacc : c.ls.info = 2 ∨ c.ls.info = 5) :
    ((∀ i, i < ws.n.toNat → (step sqrt ws c).ws.s (step sqrt ws c).ws.mark i = 0) →
      (step sqrt ws c).task = Task.WARN) ∧
    (¬ (∀ i, i < ws.n.toNat → (step sqrt ws c).ws.s (step sqrt ws c).ws.mark i = 0) →
      (∀ i, i < ws.n.toNat → (step sqrt ws c).ws.y (step sqrt ws c).ws.mark i = 0) →
      (step sqrt ws c).task = Task.WARN) ∧
    (¬ (∀ i, i < ws.n.toNat → (step sqrt ws c).ws.s (step sqrt ws c).ws.mark i = 0) →
      ¬ (∀ i, i < ws.n.toNat → (step sqrt ws c).ws.y (step sqrt ws c).ws.mark i = 0) →
      Max.max |(step sqrt ws c).f - (step sqrt ws c).ws.f0|
          |(step sqrt ws c).ws.stp * (step sqrt ws c).ws.gd0| ≤
        ws.frtol * |(step sqrt ws c).ws.f0| →
      (step sqrt ws c).task = Task.CONV) ∧
    (¬ (∀ i, i < ws.n.toNat → (step sqrt ws c).ws.s (step sqrt ws c).ws.mark i = 0) →
      ¬ (∀ i, i < ws.n.toNat → (step sqrt ws c).ws.y (step sqrt ws c).ws.mark i = 0) →
      ¬ Max.max |(step sqrt ws c).f - (step sqrt ws c).ws.f0|
          |(step sqrt ws c).ws.stp * (step sqrt ws c).ws.gd0| ≤
        ws.frtol * |(step sqrt ws c).ws.f0| →
      Max.max |(step sqrt ws c).f - (step sqrt ws c).ws.f0|
          |(step sqrt ws c).ws.stp * (step sqrt ws c).ws.gd0| ≤ ws.fatol →
      (step sqrt ws c).task = Task.CONV) ∧
    (¬ (∀ i, i < ws.n.toNat → (step sqrt ws c).ws.s (step sqrt ws c).ws.mark i = 0) →
      ¬ (∀ i, i < ws.n.toNat → (step sqrt ws c).ws.y (step sqrt ws c).ws.mark i = 0) →
      ¬ Max.max |(step sqrt ws c).f - (step sqrt ws c).ws.f0|
          |(step sqrt ws c).ws.stp * (step sqrt ws c).ws.gd0| ≤
        ws.frtol * |(step sqrt ws c).ws.f0| →
      ¬ Max.max |(step sqrt ws c).f - (step sqrt ws c).ws.f0|
          |(step sqrt ws c).ws.stp * (step sqrt ws c).ws.gd0| ≤ ws.fatol →
      (step sqrt ws c).task = Task.NEWX) ∧
    ((step sqrt ws c).task = Task.NEWX →
      ¬ (∀ i, i < ws.n.toNat → (step sqrt ws c).ws.s (step sqrt ws c).ws.mark i = 0) ∧
      ¬ (∀ i, i < ws.n.toNat → (step sqrt ws c).ws.y (step sqrt ws c).ws.mark i = 0) ∧
      ws.frtol * |(step sqrt ws c).ws.f0| <
        Max.max |(step sqrt ws c).f - (step sqrt ws c).ws.f0|
          |(step sqrt ws c).ws.stp * (step sqrt ws c).ws.gd0| ∧
      ws.fatol < Max.max |(step sqrt ws c).f - (step sqrt ws c).ws.f0|
          |(step sqrt ws c).ws.stp * (step sqrt ws c).ws.gd0|) ∧
    (step sqrt ws c).f = c.f ∧ (step sqrt ws c).ws.stp = c.ls.stp := by
  have hf := called_frame sqrt ws c hcall
  rw [next_of_cont sqrt ws c hcall.1, search_accept ws c.ls _ hf.1 hf.2 hacc]
  have hspec := acceptTask_spec ws (accept ws
    { initSearch ws (direction sqrt ws c.h (entry ws c.x c.f c.g c.active)).frame with
      stp := c.ls.stp, task := c.ls.task, csave := c.ls.csave })
  rw [← accept_task] at hspec
  refine ⟨hspec.1, hspec.2.1, hspec.2.2.1, hspec.2.2.2.1, hspec.2.2.2.2.1, hspec.2.2.2.2.2, ?_, ?_⟩
  · show (accept ws _).f = c.f
    rw [accept_f]
    show (initSearch ws _).f = c.f
    rw [initSearch_f, direction_f, entry_f]
  · show (accept ws _).stp = c.ls.stp
    rw [accept_stp]

/-- Witness of C7: the accepted step of the run on the plane returns `NEWX`. -/
theorem accepted_task_witness :
    searchCalled Rat.sqrt
      (steps Rat.sqrt (step Rat.sqrt planeWs planeCall0).ws [planeTrial]) planeAccept ∧
    (step Rat.sqrt (steps Rat.sqrt (step Rat.sqrt planeWs planeCall0).ws [planeTrial])
      planeAccept).task = Task.NEWX ∧
    (step Rat.sqrt (steps Rat.sqrt (step Rat.sqrt planeWs planeCall0).ws [planeTrial])
      planeAccept).f = planeAccept.f :=
  have h1 : searchCalled Rat.sqrt
      (steps Rat.sqrt (step Rat.sqrt planeWs planeCall0).ws [planeTrial]) planeAccept := by
    unfold searchCalled; decide!
  have h := accepted_task Rat.sqrt _ planeAccept h1 (by decide!)
  ⟨h1, by decide!, h.2.2.2.2.2.2.1⟩

/-- C8: for every line search started by `op_vmlmb_next` at the point `x0` with
objective `f0` and gradient `g0`, followed by any number of calls that do not
accept a step (in particular trial calls, on which the line search returned
`info == 1`), if on the next call, a stage-2 call, the line search returns a
failure verdict (`info >= 3` other than the accepted value 5), then on return `x`,
`g` and `f` are `x0`, `g0` and `f0` again, the task returned is the one set by the
line search, and `iter`, `mp` and `mark` are unchanged. -/
theorem search_failure_restores (sqrt : ℚ → ℚ) (ws : Workspace) (c0 : Call) (cs : List Call)
    (cf : Call) (hstart : startsSearch sqrt ws c0) (h0 : goesOn ws c0)
    (hcs : AllGoOn sqrt (step sqrt ws c0).ws cs)
    (hcalled : ¬ (FLAG_IS_SET (steps sqrt (step sqrt ws c0).ws cs).flags FLAG_FMIN = true ∧
      cf.f < (steps sqrt (step sqrt ws c0).ws cs).fmin))
    (hfail : 3 ≤ cf.ls.info ∧ cf.ls.info ≠ 5) :
    (steps sqrt (step sqrt ws c0).ws cs).stage = 2 ∧
    (∀ i, i < ws.n.toNat → (step sqrt (steps sqrt (step sqrt ws c0).ws cs) cf).x i = c0.x i) ∧
    (∀ i, i < ws.n.toNat → (step sqrt (steps sqrt (step sqrt ws c0).ws cs) cf).g i = c0.g i) ∧
    (step sqrt (steps sqrt (step sqrt ws c0).ws cs) cf).f = c0.f ∧
    (step sqrt (steps sqrt (step sqrt ws c0).ws cs) cf).task = cf.ls.task ∧
    (step sqrt (steps sqrt (step sqrt ws c0).ws cs) cf).ws.iter = (step sqrt ws c0).ws.iter ∧
    (step sqrt (steps sqrt (step sqrt ws c0).ws cs) cf).ws.mp = (step sqrt ws c0).ws.mp ∧
    (step sqrt (steps sqrt (step sqrt ws c0).ws cs) cf).ws.mark = (step sqrt ws c0).ws.mark := by
  obtain ⟨hs1, hn1, -⟩ := start_searching sqrt ws c0 hstart h0
  have hs2 := trials_searching sqrt c0.x c0.g c0.f _ cs _ hs1 hcs
  generalize steps sqrt (step sqrt ws c0).ws cs = w2 at hs2 hcalled ⊢
  generalize (step sqrt ws c0).ws = w1 at hs2 hn1 ⊢
  obtain ⟨h1, h2, h3, h4, h5, h6, h7, h8, h9, h10, h11⟩ := hs2
  have hn : w2.n = ws.n := h2.trans hn1
  rw [step_stage2 sqrt w2 cf h1]
  rw [search_fail w2 cf.ls _
    (by exact entry_stage_eq w2 cf.x cf.f cf.g cf.active 2 (by omega) h1) (by
    show ¬ (FLAG_IS_SET w2.flags FLAG_FMIN = true ∧ (entry w2 cf.x cf.f cf.g cf.active).f < w2.fmin)
    rw [entry_f]; exact hcalled) hfail.1 hfail.2]
  refine ⟨h1, ?_, ?_, ?_, rfl, ?_, ?_, ?_⟩
  · intro i hi
    show op_dcopy w2.n ((entry w2 cf.x cf.f cf.g cf.active).s
      (entry w2 cf.x cf.f cf.g cf.active).mark) _ i = c0.x i
    rw [entry_s, entry_mark]
    simp only [op_dcopy]
    rw [if_pos (hn ▸ hi)]
    exact h10 i (hn ▸ hi)
  · intro i hi
    show op_dcopy w2.n ((entry w2 cf.x cf.f cf.g cf.active).y
      (entry w2 cf.x cf.f cf.g cf.active).mark) _ i = c0.g i
    rw [entry_y, entry_mark]
    simp only [op_dcopy]
    rw [if_pos (hn ▸ hi)]
    exact h11 i (hn ▸ hi)
  · show (entry w2 cf.x cf.f cf.g cf.active).f0 = c0.f
    rw [entry_f0, h9]
  · show (entry w2 cf.x cf.f cf.g cf.active).iter = _
    rw [entry_iter, h7]
  · show (entry w2 cf.x cf.f cf.g cf.active).mp = _
    rw [entry_mp, h8]
  · show (entry w2 cf.x cf.f cf.g cf.active).mark = _
    rw [entry_mark, h6]

/-- Witness of C8: start at `x0 = (3, 4)`, `g0 = (0, 5)`, `f0 = 10`, one trial
call, then a failure with `info = 4`. -/
theorem search_failure_restores_witness :
    startsSearch Rat.sqrt planeWs planeCall0 ∧ goesOn planeWs planeCall0 ∧
    AllGoOn Rat.sqrt (step Rat.sqrt planeWs planeCall0).ws [planeTrial] ∧
    (step Rat.sqrt (steps Rat.sqrt (step Rat.sqrt planeWs planeCall0).ws [planeTrial])
      planeFail).x 1 = 4 ∧
    (step Rat.sqrt (steps Rat.sqrt (step Rat.sqrt planeWs planeCall0).ws [planeTrial])
      planeFail).f = planeCall0.f ∧
    (step Rat.sqrt (steps Rat.sqrt (step Rat.sqrt planeWs planeCall0).ws [planeTrial])
      planeFail).task = Task.WARN :=
  have h1 : startsSearch Rat.sqrt planeWs planeCall0 := by unfold startsSearch; decide!
  have h2 : goesOn planeWs planeCall0 := by unfold goesOn; decide!
  have h3 : AllGoOn Rat.sqrt (step Rat.sqrt planeWs planeCall0).ws [planeTrial] := by
    simp only [AllGoOn, goesOn]; decide!
  have h := search_failure_restores Rat.sqrt planeWs planeCall0 [planeTrial] planeFail h1 h2 h3
    (by decide!) (by decide!)
  ⟨h1, h2, h3, by decide!, h.2.2.2.1, h.2.2.2.2.1⟩

/-! ### C9: validation of the mask and the preconditioner -/

theorem check_active_fail (n : Int) (hv : Vec) (task : Task) (csave : String)
    (hbad : ∃ i, i < n.toNat ∧ hv i ≤ 0) :
    check_active n none (some hv) task csave =
      { rc := -1, active := none, task := Task.ERROR,
        csave := "op_vmlmb_next: H is not positive definite" } := by
  have : ((List.range n.toNat).any fun i => decide (hv i ≤ 0)) = true := by
    rw [List.any_eq_true]
    obtain ⟨i, hi, hle⟩ := hbad
    exact ⟨i, List.mem_range.2 hi, decide_eq_true hle⟩
  simp only [check_active]
  rw [if_pos this]

theorem check_active_pass (n : Int) (hv : Vec) (task : Task) (csave : String)
    (hgood : ¬ ∃ i, i < n.toNat ∧ hv i ≤ 0) :
    check_active n none (some hv) task csave =
      { rc := 0, active := none, task := task, csave := csave } := by
  have : ¬ ((List.range n.toNat).any fun i => decide (hv i ≤ 0)) = true := by
    rw [List.any_eq_true]
    rintro ⟨i, hi, hle⟩
    exact hgood ⟨i, List.mem_range.1 hi, of_decide_eq_true hle⟩
  simp only [check_active]
  rw [if_neg this]

/-- C9: `check_active`, as run by `op_vmlmb_next` before every direction
computation: (1) when `h` is given without `active`, it fails, with `ERROR` and
the message "H is not positive definite", if and only if some `h[i] <= 0` for
`i < n`, and `op_vmlmb_next` then returns that error; (2) when both are given it
never fails and the resulting mask is `active[i] and h[i] > 0` for every `i < n`,
so every index still active has `h[i] > 0`; (3) when `h` is absent it never fails
and leaves `active` unchanged. -/
theorem check_active_spec (sqrt : ℚ → ℚ) (ls : Csrch) (x : Vec) (f : ℚ) (g : Vec)
    (ws : Workspace) (n : Int) (act : Mask) (active : Option Mask) (hv : Vec)
    (task : Task) (csave : String) :
    ((check_active n none (some hv) task csave).rc ≠ 0 ↔ ∃ i, i < n.toNat ∧ hv i ≤ 0) ∧
    ((check_active n none (some hv) task csave).rc ≠ 0 →
      (check_active n none (some hv) task csave).task = Task.ERROR ∧
      (check_active n none (some hv) task csave).csave =
        "op_vmlmb_next: H is not positive definite") ∧
    (((ws.stage = 0 ∧ ¬ (FLAG_IS_SET ws.flags FLAG_FMIN = true ∧ f ≤ ws.fmin)) ∨ ws.stage = 3) →
      (∃ i, i < ws.n.toNat ∧ hv i ≤ 0) →
      (op_vmlmb_next sqrt ls x f g none (some hv) ws).task = Task.ERROR ∧
      (op_vmlmb_next sqrt ls x f g none (some hv) ws).ws.csave =
        "op_vmlmb_next: H is not positive definite") ∧
    ((check_active n (some act) (some hv) task csave).rc = 0 ∧
      (check_active n (some act) (some hv) task csave).task = task ∧
      ∃ act1, (check_active n (some act) (some hv) task csave).active = some act1 ∧
        (∀ i, i < n.toNat → act1 i = (act i && decide (hv i > 0))) ∧
        (∀ i, i < n.toNat → act1 i = true → hv i > 0)) ∧
    check_active n active none task csave =
      { rc := 0, active := active, task := task, csave := csave } := by
  refine ⟨?_, ?_, ?_, ?_, rfl⟩
  · by_cases hb : ∃ i, i < n.toNat ∧ hv i ≤ 0
    · rw [check_active_fail n hv task csave hb]
      exact ⟨fun _ => hb, fun _ => by decide⟩
    · rw [check_active_pass n hv task csave hb]
      exact ⟨fun h => absurd rfl h, fun h => absurd h hb⟩
  · intro hrc
    by_cases hb : ∃ i, i < n.toNat ∧ hv i ≤ 0
    · rw [check_active_fail n hv task csave hb]
      exact ⟨rfl, rfl⟩
    · rw [check_active_pass n hv task csave hb] at hrc
      exact absurd rfl hrc
  · intro hst hb
    unfold op_vmlmb_next
    have hd : direction sqrt ws (some hv) (entry ws x f g none) =
        Flow.done (direction sqrt ws (some hv) (entry ws x f g none)).frame ∧
        (direction sqrt ws (some hv) (entry ws x f g none)).frame.task = Task.ERROR ∧
        (direction sqrt ws (some hv) (entry ws x f g none)).frame.csave =
          "op_vmlmb_next: H is not positive definite" := by
      unfold direction
      rcases hst with ⟨h0, hm⟩ | h3
      · rw [if_pos (entry_stage_eq ws x f g none 0 (by omega) h0),
          if_neg (by rw [entry_f]; exact hm)]
        unfold restart
        dsimp only
        rw [entry_active, check_active_fail ws.n hv _ _ hb]
        exact ⟨rfl, rfl, rfl⟩
      · rw [if_neg (by rw [entry_stage_eq ws x f g none 3 (by omega) h3]; decide),
          if_pos (entry_stage_eq ws x f g none 3 (by omega) h3)]
        unfold stage3 twoLoop
        dsimp only
        rw [entry_active, check_active_fail ws.n hv _ _ hb]
        exact ⟨rfl, rfl, rfl⟩
    rw [hd.1]
    exact ⟨hd.2.1, hd.2.2⟩
  · refine ⟨rfl, rfl, _, rfl, ?_, ?_⟩
    · intro i hi
      have hi1 : (i : Int) < n := Int.lt_toNat.1 hi
      by_cases hh : hv i ≤ 0
      · cases ha : act i <;> simp [hi1, hh, not_lt.2 hh]
      · cases ha : act i <;> simp [hi1, hh, not_le.1 hh]
    · intro i hi
      have hi1 : (i : Int) < n := Int.lt_toNat.1 hi
      by_cases hh : hv i ≤ 0
      · cases ha : act i <;> simp [hi1, hh]
      · intro _; exact not_le.1 hh

/-- Witness of C9: a first step with `h = (1, 1, -1)` and no mask returns
`ERROR`, "H is not positive definite". -/
theorem check_active_spec_witness :
    (op_vmlmb_next Rat.sqrt planeCall0.ls (fun _ => 1) 1 (fun _ => 1) none
      (some fun i => if i = 2 then -1 else 1) diagWs).task = Task.ERROR ∧
    (op_vmlmb_next Rat.sqrt planeCall0.ls (fun _ => 1) 1 (fun _ => 1) none
      (some fun i => if i = 2 then -1 else 1) diagWs).ws.csave =
      "op_vmlmb_next: H is not positive definite" :=
  (check_active_spec Rat.sqrt planeCall0.ls (fun _ => 1) 1 (fun _ => 1) diagWs 3
    (fun _ => true) none (fun i => if i = 2 then -1 else 1) Task.FG "").2.2.1
    (Or.inl (by decide!)) ⟨2, by decide!, by decide!⟩

/-! ### C10: bounds on `mp` and `mark` -/

theorem stage3_mp_mark (sqrt : ℚ → ℚ) (ws : Workspace) (h : Option Vec) (L : Frame) :
    ((stage3 sqrt ws h L).frame.mp = 0 ∨ (stage3 sqrt ws h L).frame.mp = L.mp) ∧
    ((stage3 sqrt ws h L).frame.mark = L.mark ∨
      (stage3 sqrt ws h L).frame.mark = (L.mark + 1).tmod ws.m) := by
  have hmp := twoLoop_mp ws h L
  have hmk := twoLoop_mark ws h L
  unfold stage3
  cases htl : twoLoop ws h L with
  | done L1 => rw [htl] at hmp hmk; exact ⟨Or.inr hmp, Or.inl hmk⟩
  | restart L1 =>
    rw [htl] at hmp hmk
    exact ⟨Or.inl (restart_mp sqrt ws h L1), Or.inl ((restart_mark sqrt ws h L1).trans hmk)⟩
  | dir L1 =>
    rw [htl] at hmp hmk
    dsimp only
    split_ifs
    · refine ⟨Or.inr hmp, Or.inr ?_⟩
      show (L1.mark + 1).tmod ws.m = _
      rw [show L1.mark = L.mark from hmk]
    · exact ⟨Or.inl (restart_mp sqrt ws h _), Or.inl ((restart_mark sqrt ws h _).trans hmk)⟩

theorem direction_mp_mark (sqrt : ℚ → ℚ) (ws : Workspace) (h : Option Vec) (L : Frame) :
    ((direction sqrt ws h L).frame.mp = 0 ∨ (direction sqrt ws h L).frame.mp = L.mp) ∧
    ((direction sqrt ws h L).frame.mark = L.mark ∨ (direction sqrt ws h L).frame.mark = 0 ∨
      (direction sqrt ws h L).frame.mark = (L.mark + 1).tmod ws.m) := by
  unfold direction
  split_ifs
  · exact ⟨Or.inr rfl, Or.inl rfl⟩
  · exact ⟨Or.inl (restart_mp sqrt ws h _), Or.inr (Or.inl (restart_mark sqrt ws h _))⟩
  · have := stage3_mp_mark sqrt ws h L
    exact ⟨this.1, this.2.elim Or.inl fun hh => Or.inr (Or.inr hh)⟩
  · exact ⟨Or.inr rfl, Or.inl rfl⟩
  · exact ⟨Or.inr rfl, Or.inl rfl⟩

theorem search_mp_cases (ws : Workspace) (ls : Csrch) (L : Frame) :
    (search ws ls L).mp = L.mp ∨ (L.mp < ws.m ∧ (search ws ls L).mp = L.mp + 1) := by
  unfold search
  dsimp only
  split_ifs
  · exact Or.inl rfl
  · exact Or.inl rfl
  · rw [accept_mp]
    dsimp only
    split_ifs with hlt
    · exact Or.inr ⟨hlt, rfl⟩
    · exact Or.inl rfl
  · exact Or.inl rfl
  · exact Or.inl rfl
  · exact Or.inl rfl

theorem step_mp_mark (sqrt : ℚ → ℚ) (ws : Workspace) (c : Call) :
    (step sqrt ws c).ws.m = ws.m ∧
    ((step sqrt ws c).ws.mp = 0 ∨ (step sqrt ws c).ws.mp = ws.mp ∨
      (0 < ws.m ∧ (step sqrt ws c).ws.mp = 1) ∨
      (ws.mp < ws.m ∧ (step sqrt ws c).ws.mp = ws.mp + 1)) ∧
    ((step sqrt ws c).ws.mark = ws.mark ∨ (step sqrt ws c).ws.mark = 0 ∨
      (step sqrt ws c).ws.mark = (ws.mark + 1).tmod ws.m) := by
  have hd := direction_mp_mark sqrt ws c.h (entry ws c.x c.f c.g c.active)
  rw [entry_mp, entry_mark] at hd
  cases hc : (direction sqrt ws c.h (entry ws c.x c.f c.g c.active)).isCont with
  | false =>
    rw [next_of_done sqrt ws c hc]
    refine ⟨rfl, ?_, hd.2⟩
    rcases hd.1 with h | h
    · exact Or.inl h
    · exact Or.inr (Or.inl h)
  | true =>
    rw [next_of_cont sqrt ws c hc]
    refine ⟨rfl, ?_, ?_⟩
    · show (search ws c.ls _).mp = 0 ∨ (search ws c.ls _).mp = ws.mp ∨
        (0 < ws.m ∧ (search ws c.ls _).mp = 1) ∨ (ws.mp < ws.m ∧ (search ws c.ls _).mp = ws.mp + 1)
      rcases search_mp_cases ws c.ls
        (initSearch ws (direction sqrt ws c.h (entry ws c.x c.f c.g c.active)).frame) with h | h
      · rw [h, initSearch_mp]
        rcases hd.1 with h1 | h1
        · exact Or.inl h1
        · exact Or.inr (Or.inl h1)
      · rw [initSearch_mp] at h
        rw [h.2]
        rcases hd.1 with h1 | h1
        · rw [h1] at h ⊢
          exact Or.inr (Or.inr (Or.inl ⟨h.1, rfl⟩))
        · rw [h1] at h ⊢
          exact Or.inr (Or.inr (Or.inr ⟨h.1, rfl⟩))
    · show (search ws c.ls _).mark = _ ∨ (search ws c.ls _).mark = _ ∨ (search ws c.ls _).mark = _
      rw [search_mark, initSearch_mark]
      exact hd.2

theorem tmod_succ_bounds (a m : Int) (ha : 0 ≤ a) (hm : 0 < m) :
    0 ≤ (a + 1).tmod m ∧ (a + 1).tmod m < m := by
  rw [Int.tmod_eq_emod (by omega) (le_of_lt hm)]
  exact ⟨Int.emod_nonneg _ (by omega), Int.emod_lt_of_pos _ hm⟩

theorem reachable_inv (sqrt : ℚ → ℚ) (ws : Workspace) (hr : Reachable sqrt ws) :
    0 < ws.m ∧ 0 ≤ ws.mp ∧ ws.mp ≤ ws.m ∧ 0 ≤ ws.mark ∧ ws.mark < ws.m := by
  induction hr with
  | first n m fatol frtol sftol sgtol sxtol delta epsilon ws hv =>
    rw [first_task_of_valid n m fatol frtol sftol sgtol sxtol delta epsilon ws hv]
    have hm : 0 < m := hv.2.1
    exact ⟨hm, le_refl _, le_of_lt hm, le_refl _, hm⟩
  | next ws c _ ih =>
    obtain ⟨hm, hmp0, hmp1, hmk0, hmk1⟩ := ih
    obtain ⟨h1, h2, h3⟩ := step_mp_mark sqrt ws c
    have hb := tmod_succ_bounds ws.mark ws.m hmk0 hm
    rw [h1]
    refine ⟨hm, ?_, ?_, ?_, ?_⟩
    · rcases h2 with h | h | h | h <;> omega
    · rcases h2 with h | h | h | h <;> omega
    · rcases h3 with h | h | h <;> omega
    · rcases h3 with h | h | h <;> omega
  | set_fmin ws v _ ih => exact ih

/-- C10: in every workspace reachable from a successful `op_vmlmb_first` by any
sequence of `op_vmlmb_next` and `op_vmlmb_set_fmin` calls, with arbitrary
arguments and arbitrary line-search verdicts, `0 <= mp <= m` and
`0 <= mark < m`. -/
theorem reachable_bounds (sqrt : ℚ → ℚ) (ws : Workspace) (hr : Reachable sqrt ws) :
    (0 ≤ ws.mp ∧ ws.mp ≤ ws.m) ∧ (0 ≤ ws.mark ∧ ws.mark < ws.m) :=
  have h := reachable_inv sqrt ws hr
  ⟨⟨h.2.1, h.2.2.1⟩, h.2.2.2.1, h.2.2.2.2⟩

/-- Witness of C10: the workspace after the start, a trial and an accepted step
of the run on the plane. -/
theorem reachable_bounds_witness :
    Reachable Rat.sqrt (steps Rat.sqrt planeWs [planeCall0, planeTrial, planeAccept]) ∧
    (steps Rat.sqrt planeWs [planeCall0, planeTrial, planeAccept]).mp = 1 ∧
    (steps Rat.sqrt planeWs [planeCall0, planeTrial, planeAccept]).m = 2 ∧
    (0 ≤ (steps Rat.sqrt planeWs [planeCall0, planeTrial, planeAccept]).mark ∧
      (steps Rat.sqrt planeWs [planeCall0, planeTrial, planeAccept]).mark <
        (steps Rat.sqrt planeWs [planeCall0, planeTrial, planeAccept]).m) :=
  have hr : Reachable Rat.sqrt (steps Rat.sqrt planeWs [planeCall0, planeTrial, planeAccept]) :=
    Reachable.next _ planeAccept (Reachable.next _ planeTrial (Reachable.next _ planeCall0
      (Reachable.first 2 2 0 (1/100000000) (1/1000) (9/10) (1/10) (1/10) 0 junk
        (by unfold ValidArgs; norm_num))))
  ⟨hr, by decide!, by decide!, (reachable_bounds Rat.sqrt _ hr).2⟩

/-! ### Messages, constant slots and the flag of fmin -/

/-- A call of `op_vmlmb_next` leaves the constant slots of the workspace, and
`dsave[INDEX_OF_GPNORM]`, as they were. -/
theorem step_const (sqrt : ℚ → ℚ) (ws : Workspace) (c : Call) :
    (step sqrt ws c).ws.gpnorm = ws.gpnorm ∧ (step sqrt ws c).ws.flags = ws.flags ∧
    (step sqrt ws c).ws.fmin = ws.fmin ∧ (step sqrt ws c).ws.n = ws.n ∧
    (step sqrt ws c).ws.m = ws.m ∧ (step sqrt ws c).ws.epsilon = ws.epsilon ∧
    (step sqrt ws c).ws.delta = ws.delta ∧ (step sqrt ws c).ws.frtol = ws.frtol ∧
    (step sqrt ws c).ws.fatol = ws.fatol := by
  unfold step op_vmlmb_next
  cases direction sqrt ws c.h (entry ws c.x c.f c.g c.active) <;>
    exact ⟨rfl, rfl, rfl, rfl, rfl, rfl, rfl, rfl, rfl⟩

/-- Raising `FLAG_FMIN` in a bit set makes the test `FLAG_IS_SET` hold. -/
theorem flag_set_of_or (fl : Nat) : FLAG_IS_SET (fl ||| FLAG_FMIN) FLAG_FMIN = true := by
  have h : (fl ||| 1) &&& 1 = 1 := by
    rw [Nat.and_one_is_mod]
    have := Nat.or_mod_two_eq_one (a := fl) (b := 1)
    omega
  simp [FLAG_IS_SET, FLAG_FMIN, h]

/-- When `check_active` fails it leaves `ERROR` and its message. -/
theorem check_active_error (n : Int) (active : Option Mask) (h : Option Vec) (task : Task)
    (csave : String) (hrc : (check_active n active h task csave).rc ≠ 0) :
    (check_active n active h task csave).task = Task.ERROR ∧
    (check_active n active h task csave).csave =
      "op_vmlmb_next: H is not positive definite" := by
  cases h with
  | none => exact absurd rfl hrc
  | some hv =>
    cases active with
    | some act => exact absurd rfl hrc
    | none =>
      by_cases hb : ∃ i, i < n.toNat ∧ hv i ≤ 0
      · rw [check_active_fail n hv task csave hb]; exact ⟨rfl, rfl⟩
      · rw [check_active_pass n hv task csave hb] at hrc; exact absurd rfl hrc

/-- A restart block that jumps to `done` leaves one of the fixed messages. -/
theorem restart_done_csave (sqrt : ℚ → ℚ) (ws : Workspace) (h : Option Vec) (L : Frame)
    (hc : (restart sqrt ws h L).isCont = false) :
    (restart sqrt ws h L).frame.csave ∈ fixedMessages ∧
    (restart sqrt ws h L).frame.stage = L.stage := by
  unfold restart at hc ⊢
  dsimp only at hc ⊢
  by_cases hrc : (check_active ws.n L.active h L.task L.csave).rc ≠ 0
  · rw [if_pos hrc]
    refine ⟨?_, rfl⟩
    show (check_active ws.n L.active h L.task L.csave).csave ∈ fixedMessages
    rw [(check_active_error ws.n L.active h L.task L.csave hrc).2]
    decide
  · rw [if_neg hrc] at hc ⊢
    by_cases hg : op_dnrm2 sqrt ws.n (op_dcopy_active ws.n L.g L.d
        (check_active ws.n L.active h L.task L.csave).active) = 0
    · rw [if_pos hg]
      refine ⟨?_, rfl⟩
      show "op_vmlmb_next: local minimum found" ∈ fixedMessages
      decide
    · rw [if_neg hg] at hc ⊢
      cases h with
      | none => exact absurd hc (by simp [Flow.isCont])
      | some hv =>
        dsimp only at hc ⊢
        by_cases hgd : -op_ddot ws.n L.g (mulDiag ws.n hv (op_dcopy_active ws.n L.g L.d
            (check_active ws.n L.active (some hv) L.task L.csave).active)) ≥ 0
        · rw [if_pos hgd]
          refine ⟨?_, rfl⟩
          show "op_vmlmb_next: preconditioner is not positive definite" ∈ fixedMessages
          decide
        · rw [if_neg hgd] at hc
          exact absurd hc (by simp [Flow.isCont])

/-- A stage-3 block that jumps to `done` leaves one of the fixed messages and
`stage = 3`. -/
theorem stage3_done_csave (sqrt : ℚ → ℚ) (ws : Workspace) (h : Option Vec) (L : Frame)
    (hc : (stage3 sqrt ws h L).isCont = false) :
    (stage3 sqrt ws h L).frame.csave ∈ fixedMessages ∧
    (stage3 sqrt ws h L).frame.stage = L.stage := by
  have hst := twoLoop_stage ws h L
  unfold stage3 at hc ⊢
  cases htl : twoLoop ws h L with
  | done L1 =>
    rw [htl] at hst
    refine ⟨?_, hst⟩
    show L1.csave ∈ fixedMessages
    unfold twoLoop at htl
    dsimp only at htl
    by_cases hrc : (check_active ws.n L.active h L.task L.csave).rc ≠ 0
    · rw [if_pos hrc] at htl
      injection htl with htl
      rw [← htl]
      show (check_active ws.n L.active h L.task L.csave).csave ∈ fixedMessages
      rw [(check_active_error ws.n L.active h L.task L.csave hrc).2]
      decide
    · rw [if_neg hrc] at htl
      cases h with
      | none => dsimp only at htl; split_ifs at htl
      | some hv => simp at htl
  | restart L1 =>
    rw [htl] at hc hst
    have := restart_done_csave sqrt ws h L1 hc
    exact ⟨this.1, this.2.trans hst⟩
  | dir L1 =>
    rw [htl] at hc hst
    dsimp only at hc ⊢
    split_ifs at hc ⊢
    · simp [Flow.isCont] at hc
    · have := restart_done_csave sqrt ws h _ hc
      exact ⟨this.1, this.2.trans hst⟩

/-- The message left by the line-search block is the one of `op_csrch` or one of
the fixed messages. -/
theorem search_csave (ws : Workspace) (ls : Csrch) (L : Frame) (h2 : L.stage = 2) :
    (search ws ls L).csave = ls.csave ∨ (search ws ls L).csave ∈ fixedMessages := by
  unfold search
  rw [if_pos h2]
  dsimp only
  split_ifs
  · exact Or.inr (by show "op_vmlmb_next: F < FMIN" ∈ fixedMessages; decide)
  · exact Or.inl rfl
  · right
    have hmem : ∀ A : Frame, (acceptTask ws A).2 ∈ fixedMessages := by
      intro A
      unfold acceptTask
      dsimp only
      split_ifs
      · show "op_vmlmb_next: no parameter change" ∈ fixedMessages; decide
      · show "op_vmlmb_next: no gradient change" ∈ fixedMessages; decide
      · show "op_vmlmb_next: FRTOL test satisfied" ∈ fixedMessages; decide
      · show "op_vmlmb_next: FATOL test satisfied" ∈ fixedMessages; decide
      · show "op_vmlmb_next: new improved solution available for inspection" ∈ fixedMessages
        decide
    unfold accept
    dsimp only
    exact hmem _
  · exact Or.inl rfl
  · exact Or.inl rfl

/-- The message in `csave` after a call of `op_vmlmb_next`: the one of
`op_csrch`, or a fixed message, or "initial F <= FMIN" on a stage-0 call with
`fmin` set and `f <= fmin`, or "corrupted workspace" on a call whose stage on entry
is none of 0, 2, 3. -/
theorem step_csave (sqrt : ℚ → ℚ) (ws : Workspace) (c : Call) :
    (step sqrt ws c).ws.csave = c.ls.csave ∨ (step sqrt ws c).ws.csave ∈ fixedMessages ∨
    (castInt ws.stage = 0 ∧ (FLAG_IS_SET ws.flags FLAG_FMIN = true ∧ c.f ≤ ws.fmin) ∧
      (step sqrt ws c).ws.csave = "op_vmlmb_next: initial F <= FMIN") ∨
    ((castInt ws.stage ≠ 0 ∧ castInt ws.stage ≠ 2 ∧ castInt ws.stage ≠ 3) ∧
      (step sqrt ws c).ws.csave = "op_vmlmb_next: corrupted workspace") := by
  cases hc : (direction sqrt ws c.h (entry ws c.x c.f c.g c.active)).isCont with
  | true =>
    rw [next_of_cont sqrt ws c hc]
    have h2 := initSearch_stage ws _ (direction_stage sqrt ws c.h _ hc)
    rcases search_csave ws c.ls _ h2 with h | h
    · exact Or.inl h
    · exact Or.inr (Or.inl h)
  | false =>
    rw [next_of_done sqrt ws c hc]
    show (direction sqrt ws c.h (entry ws c.x c.f c.g c.active)).frame.csave = _ ∨
      (direction sqrt ws c.h (entry ws c.x c.f c.g c.active)).frame.csave ∈ _ ∨
      (_ ∧ _ ∧ (direction sqrt ws c.h (entry ws c.x c.f c.g c.active)).frame.csave = _) ∨
      (_ ∧ (direction sqrt ws c.h (entry ws c.x c.f c.g c.active)).frame.csave = _)
    unfold direction at hc ⊢
    rw [entry_stage, entry_f] at hc ⊢
    by_cases h0 : castInt ws.stage = 0
    · rw [if_pos h0] at hc ⊢
      by_cases hm : FLAG_IS_SET ws.flags FLAG_FMIN = true ∧ c.f ≤ ws.fmin
      · rw [if_pos hm]
        exact Or.inr (Or.inr (Or.inl ⟨h0, hm, rfl⟩))
      · rw [if_neg hm] at hc ⊢
        exact Or.inr (Or.inl (restart_done_csave sqrt ws c.h _ hc).1)
    · rw [if_neg h0] at hc ⊢
      by_cases h3 : castInt ws.stage = 3
      · rw [if_pos h3] at hc ⊢
        exact Or.inr (Or.inl (stage3_done_csave sqrt ws c.h _ hc).1)
      · rw [if_neg h3] at hc ⊢
        by_cases h2 : castInt ws.stage = 2
        · rw [if_pos h2] at hc
          simp [Flow.isCont] at hc
        · rw [if_neg h2]
          exact Or.inr (Or.inr (Or.inr ⟨⟨h0, h2, h3⟩, rfl⟩))

/-! ### C11: flat start -/

/-- The dot product of a vector whose first `n` elements are zero with itself. -/
theorem ddot_self_zero (n : Int) (v : Vec) (hz : ∀ i, i < n.toNat → v i = 0) :
    op_ddot n v v = 0 := by
  unfold op_ddot
  refine Finset.sum_eq_zero fun i hi => ?_
  rw [hz i (Finset.mem_range.1 hi), mul_zero]

/-- The mask left by `check_active` permits no index the mask passed forbids. -/
theorem check_active_masked (n : Int) (g : Vec) (active : Option Mask) (h : Option Vec)
    (task : Task) (csave : String) (hz : ∀ i, i < n.toNat → masked g active i = 0) :
    ∀ i, i < n.toNat → masked g (check_active n active h task csave).active i = 0 := by
  intro i hi
  cases h with
  | none => exact hz i hi
  | some hv =>
    cases active with
    | none =>
      unfold check_active
      dsimp only
      split_ifs <;> exact hz i hi
    | some act =>
      have h1 := hz i hi
      simp only [masked] at h1
      simp only [check_active, masked]
      by_cases hc : i < n.toNat ∧ act i = true ∧ hv i ≤ 0
      · simp only [if_pos hc, Bool.false_eq_true, if_false]
      · simp only [if_neg hc]; exact h1

/-- The return value of `check_active` when the preconditioner, if given without
a mask, is positive on the first `n` elements. -/
theorem check_active_rc (n : Int) (active : Option Mask) (h : Option Vec) (task : Task)
    (csave : String)
    (hpre : active = none → ∀ hv, h = some hv → ∀ i, i < n.toNat → 0 < hv i) :
    (check_active n active h task csave).rc = 0 := by
  cases h with
  | none => rfl
  | some hv =>
    cases active with
    | some act => rfl
    | none =>
      rw [check_active_pass n hv task csave (by
        rintro ⟨i, hi, hle⟩
        exact absurd (hpre rfl hv rfl i hi) (not_lt.2 hle))]

/-- The restart block on a gradient whose active part is zero: `CONV`, "local
minimum found". -/
theorem restart_flat (sqrt : ℚ → ℚ) (hsqrt : sqrt 0 = 0) (ws : Workspace) (h : Option Vec)
    (L : Frame)
    (hpre : L.active = none → ∀ hv, h = some hv → ∀ i, i < ws.n.toNat → 0 < hv i)
    (hz : ∀ i, i < ws.n.toNat → masked L.g L.active i = 0) :
    (restart sqrt ws h L).isCont = false ∧ (restart sqrt ws h L).frame.task = Task.CONV ∧
    (restart sqrt ws h L).frame.csave = "op_vmlmb_next: local minimum found" ∧
    (restart sqrt ws h L).frame.stage = L.stage := by
  have hrc := check_active_rc ws.n L.active h L.task L.csave hpre
  have hgp : op_dnrm2 sqrt ws.n (op_dcopy_active ws.n L.g L.d
      (check_active ws.n L.active h L.task L.csave).active) = 0 := by
    rw [dnrm2_dcopy_active]
    unfold op_dnrm2
    rw [ddot_self_zero ws.n _ (check_active_masked ws.n L.g L.active h L.task L.csave hz), hsqrt]
  unfold restart
  dsimp only
  rw [if_neg (by rw [hrc]; decide), if_pos hgp]
  exact ⟨rfl, rfl, rfl, rfl⟩

/-- C11: on a call of `op_vmlmb_next` at stage 0 (the first call after
`op_vmlmb_first`), provided the `fmin` check and the preconditioner check pass,
if the active-masked gradient is entirely zero (in particular when `g` is
identically zero, or when a mask with no free variable is supplied) then the call
returns `CONV`, "local minimum found", with `iter = 0`, `mp = 0` and `x`
unchanged, without starting a line search: the stage stays 0 and the outcome
does not depend on the line search. -/
theorem flat_start (sqrt : ℚ → ℚ) (hsqrt : sqrt 0 = 0) (ws : Workspace) (c : Call)
    (h0 : ws.stage = 0)
    (hfmin : ¬ (FLAG_IS_SET ws.flags FLAG_FMIN = true ∧ c.f ≤ ws.fmin))
    (hpre : c.active = none → ∀ hv, c.h = some hv → ∀ i, i < ws.n.toNat → 0 < hv i)
    (hz : ∀ i, i < ws.n.toNat → masked c.g c.active i = 0) :
    (step sqrt ws c).task = Task.CONV ∧
    (step sqrt ws c).ws.csave = "op_vmlmb_next: local minimum found" ∧
    (step sqrt ws c).ws.iter = 0 ∧ (step sqrt ws c).ws.mp = 0 ∧
    (step sqrt ws c).x = c.x ∧ (step sqrt ws c).ws.stage = 0 ∧
    (∀ ls : Csrch, step sqrt ws { c with ls := ls } = step sqrt ws c) := by
  have hs : (entry ws c.x c.f c.g c.active).stage = 0 :=
    entry_stage_eq ws c.x c.f c.g c.active 0 (by omega) h0
  have hdir : direction sqrt ws c.h (entry ws c.x c.f c.g c.active) =
      restart sqrt ws c.h
        { entry ws c.x c.f c.g c.active with iter := 0, nevals := 1, nrestarts := 0, mark := 0 } := by
    unfold direction
    rw [if_pos hs, if_neg (by rw [entry_f]; exact hfmin)]
  have hr := restart_flat sqrt hsqrt ws c.h
    { entry ws c.x c.f c.g c.active with iter := 0, nevals := 1, nrestarts := 0, mark := 0 }
    (by show (entry ws c.x c.f c.g c.active).active = none → _; rw [entry_active]; exact hpre)
    (by show ∀ i, i < ws.n.toNat →
          masked (entry ws c.x c.f c.g c.active).g (entry ws c.x c.f c.g c.active).active i = 0
        rw [entry_g, entry_active]; exact hz)
  have hnext : ∀ ls : Csrch, step sqrt ws { c with ls := ls } =
      done ws (restart sqrt ws c.h
        { entry ws c.x c.f c.g c.active with
          iter := 0, nevals := 1, nrestarts := 0, mark := 0 }).frame := by
    intro ls
    rw [next_of_done sqrt ws _ (by dsimp only; rw [hdir]; exact hr.1)]
    dsimp only
    rw [hdir]
  have hc := hnext c.ls
  refine ⟨?_, ?_, ?_, ?_, ?_, ?_, ?_⟩
  · rw [hc]; exact hr.2.1
  · rw [hc]; exact hr.2.2.1
  · rw [hc]; show (restart sqrt ws c.h _).frame.iter = 0; rw [restart_iter]
  · rw [hc]; show (restart sqrt ws c.h _).frame.mp = 0; rw [restart_mp]
  · rw [hc]; show (restart sqrt ws c.h _).frame.x = c.x; rw [restart_x]
    exact entry_x ws c.x c.f c.g c.active
  · rw [hc]; show (restart sqrt ws c.h _).frame.stage = 0; rw [hr.2.2.2]; exact hs
  · intro ls; rw [hnext ls, hc]

/-- Witness of C11: first call of a run on the plane at a point where the
gradient vanishes. -/
theorem flat_start_witness :
    Rat.sqrt 0 = 0 ∧ planeWs.stage = 0 ∧
    (∀ i, i < planeWs.n.toNat → masked restCall.g restCall.active i = 0) ∧
    (step Rat.sqrt planeWs restCall).task = Task.CONV ∧
    (step Rat.sqrt planeWs restCall).ws.csave = "op_vmlmb_next: local minimum found" ∧
    (step Rat.sqrt planeWs restCall).ws.iter = 0 ∧
    (step Rat.sqrt planeWs restCall).ws.mp = 0 :=
  have hz : ∀ i, i < planeWs.n.toNat → masked restCall.g restCall.active i = 0 :=
    fun _ _ => rfl
  have h := flat_start Rat.sqrt (by decide!) planeWs restCall (by decide!)
    (fun hm => absurd hm.1 (by decide!)) (fun _ hv hh => Option.noConfusion hh) hz
  ⟨by decide!, by decide!, hz, h.1, h.2.1, h.2.2.1, h.2.2.2.1⟩

/-! ### C12: initial F <= FMIN -/

/-- A call of `op_vmlmb_next` does not change what `op_vmlmb_get_fmin` reports. -/
theorem get_fmin_step (sqrt : ℚ → ℚ) (ws : Workspace) (c : Call) :
    op_vmlmb_get_fmin (step sqrt ws c).ws = op_vmlmb_get_fmin ws := by
  unfold op_vmlmb_get_fmin
  rw [(step_const sqrt ws c).2.1, (step_const sqrt ws c).2.2.1]

/-- After a sequence of events `op_vmlmb_get_fmin` reports the value of the last
call of `op_vmlmb_set_fmin`, if there was one. -/
theorem get_fmin_run (sqrt : ℚ → ℚ) (evs : List Event) : ∀ (ws : Workspace) (acc : Option ℚ),
    op_vmlmb_get_fmin ws = (acc.isSome, acc) →
    op_vmlmb_get_fmin (run sqrt ws evs) = ((lastFmin acc evs).isSome, lastFmin acc evs) := by
  induction evs with
  | nil => intro ws acc h; exact h
  | cons e es ih =>
    intro ws acc h
    cases e with
    | call c =>
      show op_vmlmb_get_fmin (run sqrt (step sqrt ws c).ws es) = _
      exact ih _ acc (by rw [get_fmin_step]; exact h)
    | fmin v =>
      show op_vmlmb_get_fmin (run sqrt (op_vmlmb_set_fmin ws v).2.2 es) = _
      refine ih _ (some v) ?_
      simp only [op_vmlmb_get_fmin, op_vmlmb_set_fmin, flag_set_of_or, if_true]
      rfl

/-- What the report of `op_vmlmb_get_fmin` says about the flag and the slot. -/
theorem get_fmin_cases (ws : Workspace) (acc : Option ℚ)
    (h : op_vmlmb_get_fmin ws = (acc.isSome, acc)) :
    (acc = none → FLAG_IS_SET ws.flags FLAG_FMIN = false) ∧
    (∀ v, acc = some v → FLAG_IS_SET ws.flags FLAG_FMIN = true ∧ ws.fmin = v) := by
  unfold op_vmlmb_get_fmin at h
  dsimp only at h
  have h1 := congrArg Prod.fst h
  have h2 := congrArg Prod.snd h
  dsimp only at h1 h2
  refine ⟨fun hn => ?_, fun v hs => ?_⟩
  · rw [h1, hn]; rfl
  · have ht : FLAG_IS_SET ws.flags FLAG_FMIN = true := by rw [h1, hs]; rfl
    rw [ht, if_pos rfl, hs] at h2
    exact ⟨ht, Option.some.inj h2⟩

/-- A stage-0 call with `fmin` set and `f <= fmin` goes straight to `done`. -/
theorem step_floor_error (sqrt : ℚ → ℚ) (ws : Workspace) (c : Call) (h0 : ws.stage = 0)
    (hm : FLAG_IS_SET ws.flags FLAG_FMIN = true ∧ c.f ≤ ws.fmin) :
    step sqrt ws c = done ws { entry ws c.x c.f c.g c.active with
      task := Task.ERROR, csave := "op_vmlmb_next: initial F <= FMIN" } := by
  have hs : (entry ws c.x c.f c.g c.active).stage = 0 :=
    entry_stage_eq ws c.x c.f c.g c.active 0 (by omega) h0
  have hd : direction sqrt ws c.h (entry ws c.x c.f c.g c.active) =
      Flow.done { entry ws c.x c.f c.g c.active with
        task := Task.ERROR, csave := "op_vmlmb_next: initial F <= FMIN" } := by
    unfold direction
    rw [if_pos hs, if_pos (by rw [entry_f]; exact hm)]
  rw [next_of_done sqrt ws c (by rw [hd]; rfl), hd]
  rfl

/-- The message "initial F <= FMIN" is left only by the `fmin` test of stage 0. -/
theorem floor_error_origin (sqrt : ℚ → ℚ) (ws : Workspace) (c : Call)
    (hls : c.ls.csave ≠ "op_vmlmb_next: initial F <= FMIN")
    (h : (step sqrt ws c).ws.csave = "op_vmlmb_next: initial F <= FMIN") :
    castInt ws.stage = 0 ∧ FLAG_IS_SET ws.flags FLAG_FMIN = true ∧ c.f ≤ ws.fmin := by
  rcases step_csave sqrt ws c with h1 | h1 | h1 | h1
  · exact absurd (h1.symm.trans h) hls
  · rw [h] at h1
    exact absurd h1 (by decide)
  · exact ⟨h1.1, h1.2.1⟩
  · exact absurd (h.symm.trans h1.2) (by decide)

/-- C12: on a call of `op_vmlmb_next` entered at stage 0, in a workspace reached
from a successful `op_vmlmb_first` by any sequence of calls of `op_vmlmb_next`
and `op_vmlmb_set_fmin`, the message "initial F <= FMIN" is left if and only if
`op_vmlmb_set_fmin` has been called and `f <= v` for the value `v` of its last
call; the task is then `ERROR`, and `x`, `g`, the direction, the curvature store
and the counters are as on entry, with the stage still 0.  If
`op_vmlmb_set_fmin` was never called no `f` leaves this message, `f <= 0`
included.  The line search is assumed not to leave this message itself. -/
theorem initial_floor_error (sqrt : ℚ → ℚ) (n m : Int)
    (fatol frtol sftol sgtol sxtol delta epsilon : ℚ) (ws0 : Workspace)
    (hv : ValidArgs n m fatol frtol sftol sgtol sxtol delta epsilon)
    (evs : List Event) (ws : Workspace)
    (hws : ws = run sqrt
      (op_vmlmb_first n m fatol frtol sftol sgtol sxtol delta epsilon ws0).2 evs)
    (c : Call) (h0 : ws.stage = 0)
    (hls : c.ls.csave ≠ "op_vmlmb_next: initial F <= FMIN") :
    ((step sqrt ws c).ws.csave = "op_vmlmb_next: initial F <= FMIN" ↔
      ∃ v, lastFmin none evs = some v ∧ c.f ≤ v) ∧
    ((∃ v, lastFmin none evs = some v ∧ c.f ≤ v) →
      (step sqrt ws c).task = Task.ERROR ∧
      (step sqrt ws c).x = c.x ∧ (step sqrt ws c).g = c.g ∧ (step sqrt ws c).f = c.f ∧
      (step sqrt ws c).ws.d = ws.d ∧ (step sqrt ws c).ws.s = ws.s ∧
      (step sqrt ws c).ws.y = ws.y ∧ (step sqrt ws c).ws.rho = ws.rho ∧
      (step sqrt ws c).ws.mp = ws.mp ∧ (step sqrt ws c).ws.mark = ws.mark ∧
      (step sqrt ws c).ws.iter = ws.iter ∧ (step sqrt ws c).ws.stage = 0) ∧
    (lastFmin none evs = none →
      (step sqrt ws c).ws.csave ≠ "op_vmlmb_next: initial F <= FMIN") := by
  have hget : op_vmlmb_get_fmin ws = ((lastFmin none evs).isSome, lastFmin none evs) := by
    rw [hws]
    refine get_fmin_run sqrt evs _ none ?_
    rw [first_task_of_valid n m fatol frtol sftol sgtol sxtol delta epsilon ws0 hv]
    simp [op_vmlmb_get_fmin, FLAG_IS_SET, FLAG_FMIN]
  obtain ⟨hnone, hsome⟩ := get_fmin_cases ws _ hget
  have herr : (∃ v, lastFmin none evs = some v ∧ c.f ≤ v) →
      step sqrt ws c = done ws { entry ws c.x c.f c.g c.active with
        task := Task.ERROR, csave := "op_vmlmb_next: initial F <= FMIN" } := by
    rintro ⟨v, hv1, hv2⟩
    obtain ⟨hf, he⟩ := hsome v hv1
    exact step_floor_error sqrt ws c h0 ⟨hf, by rw [he]; exact hv2⟩
  have hback : (step sqrt ws c).ws.csave = "op_vmlmb_next: initial F <= FMIN" →
      ∃ v, lastFmin none evs = some v ∧ c.f ≤ v := by
    intro h
    obtain ⟨_, hf, hle⟩ := floor_error_origin sqrt ws c hls h
    cases hl : lastFmin none evs with
    | none => rw [hnone hl] at hf; exact absurd hf (by decide)
    | some v => exact ⟨v, rfl, by rw [← (hsome v hl).2]; exact hle⟩
  refine ⟨⟨hback, fun h => by rw [herr h]; rfl⟩, fun h => ?_, fun hn h => ?_⟩
  · rw [herr h]
    refine ⟨rfl, entry_x ws c.x c.f c.g c.active, entry_g ws c.x c.f c.g c.active,
      entry_f ws c.x c.f c.g c.active, entry_d ws c.x c.f c.g c.active,
      entry_s ws c.x c.f c.g c.active, entry_y ws c.x c.f c.g c.active,
      entry_rho ws c.x c.f c.g c.active, entry_mp ws c.x c.f c.g c.active,
      entry_mark ws c.x c.f c.g c.active, entry_iter ws c.x c.f c.g c.active, ?_⟩
    exact entry_stage_eq ws c.x c.f c.g c.active 0 (by omega) h0
  · obtain ⟨v, hv1, _⟩ := hback h
    rw [hn] at hv1
    exact absurd hv1 (by simp)

/-- Witness of C12: `fmin` set to 10 right after `op_vmlmb_first`, then a first
call with `f = 10`. -/
theorem initial_floor_error_witness :
    ValidArgs 2 2 0 (1/100000000) (1/1000) (9/10) (1/10) (1/10) 0 ∧
    (run Rat.sqrt planeWs [Event.fmin 10]).stage = 0 ∧
    lastFmin none [Event.fmin 10] = some 10 ∧ planeCall0.f ≤ 10 ∧
    (step Rat.sqrt (run Rat.sqrt planeWs [Event.fmin 10]) planeCall0).ws.csave =
      "op_vmlmb_next: initial F <= FMIN" ∧
    (step Rat.sqrt (run Rat.sqrt planeWs [Event.fmin 10]) planeCall0).task = Task.ERROR ∧
    (step Rat.sqrt planeWs planeCall0).ws.csave ≠ "op_vmlmb_next: initial F <= FMIN" :=
  have hv : ValidArgs 2 2 0 (1/100000000) (1/1000) (9/10) (1/10) (1/10) 0 := by
    unfold ValidArgs; norm_num
  have h := initial_floor_error Rat.sqrt 2 2 0 (1/100000000) (1/1000) (9/10) (1/10) (1/10) 0
    junk hv [Event.fmin 10] (run Rat.sqrt planeWs [Event.fmin 10]) rfl planeCall0 (by decide!)
    (by decide)
  have hex : ∃ v, lastFmin none [Event.fmin 10] = some v ∧ planeCall0.f ≤ v :=
    ⟨10, rfl, by decide!⟩
  ⟨hv, by decide!, rfl, by decide!, h.1.2 hex, (h.2.1 hex).1, by decide!⟩

/-! ### C13: F < FMIN during the line search -/

/-- When `op_csrch` is called, the step length on return is the one it left. -/
theorem search_stp (ws : Workspace) (ls : Csrch) (L : Frame) (h2 : L.stage = 2)
    (hm : ¬ (FLAG_IS_SET ws.flags FLAG_FMIN = true ∧ L.f < ws.fmin)) :
    (search ws ls L).stp = ls.stp := by
  unfold search
  rw [if_pos h2, if_neg hm]
  dsimp only
  split_ifs
  · rfl
  · rw [accept_stp]
  · rfl
  · rfl

/-- C13: for every call of `op_vmlmb_next` entered at stage 2 with `fmin` set and
`f < fmin`, the call returns `WARN`, "F < FMIN", whatever the line search would
have answered (it is not called), and leaves `x`, `stp`, `stage`, `iter`, `mp`,
`mark` and the curvature store unchanged; with `fmin` set and `f = fmin`, or with
`fmin` unset, the line search is called instead and its step length is stored. -/
theorem floor_warn (sqrt : ℚ → ℚ) (ws : Workspace) (c : Call) (h2 : ws.stage = 2) :
    ((FLAG_IS_SET ws.flags FLAG_FMIN = true ∧ c.f < ws.fmin) →
      (step sqrt ws c).task = Task.WARN ∧
      (step sqrt ws c).ws.csave = "op_vmlmb_next: F < FMIN" ∧
      (∀ ls : Csrch, step sqrt ws { c with ls := ls } = step sqrt ws c) ∧
      (step sqrt ws c).x = c.x ∧ (step sqrt ws c).ws.stp = ws.stp ∧
      (step sqrt ws c).ws.stage = 2 ∧ (step sqrt ws c).ws.iter = ws.iter ∧
      (step sqrt ws c).ws.mp = ws.mp ∧ (step sqrt ws c).ws.mark = ws.mark ∧
      (step sqrt ws c).ws.s = ws.s ∧ (step sqrt ws c).ws.y = ws.y ∧
      (step sqrt ws c).ws.rho = ws.rho) ∧
    (¬ (FLAG_IS_SET ws.flags FLAG_FMIN = true ∧ c.f < ws.fmin) →
      searchCalled sqrt ws c ∧ (step sqrt ws c).ws.stp = c.ls.stp) ∧
    (c.f = ws.fmin → searchCalled sqrt ws c ∧ (step sqrt ws c).ws.stp = c.ls.stp) ∧
    (FLAG_IS_SET ws.flags FLAG_FMIN = false →
      searchCalled sqrt ws c ∧ (step sqrt ws c).ws.stp = c.ls.stp) := by
  have hstage : (entry ws c.x c.f c.g c.active).stage = 2 :=
    entry_stage_eq ws c.x c.f c.g c.active 2 (by omega) h2
  have hcont : (direction sqrt ws c.h (entry ws c.x c.f c.g c.active)).isCont = true := by
    unfold direction
    rw [if_neg (by omega), if_neg (by omega), if_pos hstage]
    rfl
  have hcalled : ¬ (FLAG_IS_SET ws.flags FLAG_FMIN = true ∧ c.f < ws.fmin) →
      searchCalled sqrt ws c ∧ (step sqrt ws c).ws.stp = c.ls.stp := by
    intro hm
    refine ⟨⟨hcont, hm⟩, ?_⟩
    rw [step_stage2 sqrt ws c h2]
    show (search ws c.ls _).stp = _
    exact search_stp ws c.ls _ hstage (by
      show ¬ (_ ∧ (entry ws c.x c.f c.g c.active).f < ws.fmin)
      rw [entry_f]; exact hm)
  refine ⟨?_, hcalled, ?_, ?_⟩
  · intro hm
    have hw : ∀ ls : Csrch, step sqrt ws { c with ls := ls } =
        done ws { entry ws c.x c.f c.g c.active with
          gd := -op_ddot ws.n c.g ws.d, task := Task.WARN,
          csave := "op_vmlmb_next: F < FMIN" } := by
      intro ls
      rw [step_stage2 sqrt ws _ h2]
      dsimp only
      rw [search_warn ws ls
        { entry ws c.x c.f c.g c.active with gd := -op_ddot ws.n c.g ws.d, task := Task.FG }
        hstage (by
          show _ ∧ (entry ws c.x c.f c.g c.active).f < ws.fmin
          rw [entry_f]; exact hm)]
    have hc : step sqrt ws c = done ws { entry ws c.x c.f c.g c.active with
          gd := -op_ddot ws.n c.g ws.d, task := Task.WARN,
          csave := "op_vmlmb_next: F < FMIN" } := hw c.ls
    refine ⟨?_, ?_, ?_, ?_, ?_, ?_, ?_, ?_, ?_, ?_, ?_, ?_⟩
    · rw [hc]; rfl
    · rw [hc]; rfl
    · intro ls; rw [hw ls, hc]
    · rw [hc]; exact entry_x ws c.x c.f c.g c.active
    · rw [hc]; show (entry ws c.x c.f c.g c.active).stp = _
      unfold entry load; dsimp only; split_ifs <;> rfl
    · rw [hc]; exact hstage
    · rw [hc]; exact entry_iter ws c.x c.f c.g c.active
    · rw [hc]; exact entry_mp ws c.x c.f c.g c.active
    · rw [hc]; exact entry_mark ws c.x c.f c.g c.active
    · rw [hc]; exact entry_s ws c.x c.f c.g c.active
    · rw [hc]; exact entry_y ws c.x c.f c.g c.active
    · rw [hc]; exact entry_rho ws c.x c.f c.g c.active
  · intro he
    exact hcalled (fun hm => absurd he (ne_of_lt hm.2))
  · intro hf
    exact hcalled (fun hm => by rw [hf] at hm; exact Bool.noConfusion hm.1)

/-- Witness of C13: the run on the plane with `fmin` set to 8 during the line
search, and a trial point where `f = 7`. -/
theorem floor_warn_witness :
    floorWs.stage = 2 ∧ FLAG_IS_SET floorWs.flags FLAG_FMIN = true ∧
    planeTrial.f < floorWs.fmin ∧
    (step Rat.sqrt floorWs planeTrial).task = Task.WARN ∧
    (step Rat.sqrt floorWs planeTrial).ws.csave = "op_vmlmb_next: F < FMIN" ∧
    (step Rat.sqrt floorWs planeTrial).ws.stp = floorWs.stp :=
  have hf : FLAG_IS_SET floorWs.flags FLAG_FMIN = true := by decide!
  have hlt : planeTrial.f < floorWs.fmin := by decide!
  have h := (floor_warn Rat.sqrt floorWs planeTrial (by decide!)).1 ⟨hf, hlt⟩
  ⟨by decide!, hf, hlt, h.1, h.2.1, h.2.2.2.2.1⟩

/-! ### C14: the counter of evaluations -/

/-- The counter `nevals` after `if (task == OP_TASK_FG) ++nevals`. -/
theorem entry_nevals (ws : Workspace) (x : Vec) (f : ℚ) (g : Vec) (active : Option Mask) :
    (entry ws x f g active).nevals = (if ws.task = Task.FG then ws.nevals + 1 else ws.nevals) := by
  unfold entry load
  dsimp only
  split_ifs <;> rfl

/-- Stage 3 leaves `nevals` unchanged. -/
theorem stage3_nevals (sqrt : ℚ → ℚ) (ws : Workspace) (h : Option Vec) (L : Frame) :
    (stage3 sqrt ws h L).frame.nevals = L.nevals := by
  have ht := twoLoop_nevals ws h L
  unfold stage3
  cases htl : twoLoop ws h L with
  | done L1 => rw [htl] at ht; exact ht
  | restart L1 => rw [htl] at ht; exact (restart_nevals sqrt ws h L1).trans ht
  | dir L1 =>
    rw [htl] at ht
    dsimp only
    split_ifs
    · exact ht
    · exact (restart_nevals sqrt ws h _).trans ht

/-- A restart block that jumps to `done` leaves `ERROR` or `CONV`. -/
theorem restart_done_task (sqrt : ℚ → ℚ) (ws : Workspace) (h : Option Vec) (L : Frame)
    (hc : (restart sqrt ws h L).isCont = false) :
    (restart sqrt ws h L).frame.task ≠ Task.FG := by
  unfold restart at hc ⊢
  dsimp only at hc ⊢
  by_cases hrc : (check_active ws.n L.active h L.task L.csave).rc ≠ 0
  · rw [if_pos hrc]
    show (check_active ws.n L.active h L.task L.csave).task ≠ Task.FG
    rw [(check_active_error ws.n L.active h L.task L.csave hrc).1]
    decide
  · rw [if_neg hrc] at hc ⊢
    by_cases hg : op_dnrm2 sqrt ws.n (op_dcopy_active ws.n L.g L.d
        (check_active ws.n L.active h L.task L.csave).active) = 0
    · rw [if_pos hg]
      show Task.CONV ≠ Task.FG
      decide
    · rw [if_neg hg] at hc ⊢
      cases h with
      | none => exact absurd hc (by simp [Flow.isCont])
      | some hv =>
        dsimp only at hc ⊢
        by_cases hgd : -op_ddot ws.n L.g (mulDiag ws.n hv (op_dcopy_active ws.n L.g L.d
            (check_active ws.n L.active (some hv) L.task L.csave).active)) ≥ 0
        · rw [if_pos hgd]
          show Task.ERROR ≠ Task.FG
          decide
        · rw [if_neg hgd] at hc
          exact absurd hc (by simp [Flow.isCont])

/-- The line-search block leaves the stage at 2 or sets it to 3. -/
theorem search_stage (ws : Workspace) (ls : Csrch) (L : Frame) (h2 : L.stage = 2) :
    (search ws ls L).stage = 2 ∨ (search ws ls L).stage = 3 := by
  unfold search
  rw [if_pos h2]
  dsimp only
  split_ifs
  · exact Or.inl h2
  · exact Or.inl h2
  · exact Or.inr (accept_stage ws _)
  · exact Or.inl h2
  · exact Or.inl h2

/-- A call entered at a stage other than 0 counts the evaluation when the task on
entry is `FG`, and does not return to stage 0. -/
theorem step_nevals_later (sqrt : ℚ → ℚ) (ws : Workspace) (c : Call)
    (h0 : castInt ws.stage ≠ 0) :
    (step sqrt ws c).ws.nevals = (if ws.task = Task.FG then ws.nevals + 1 else ws.nevals) ∧
    castInt (step sqrt ws c).ws.stage ≠ 0 := by
  have hn : (direction sqrt ws c.h (entry ws c.x c.f c.g c.active)).frame.nevals =
      (entry ws c.x c.f c.g c.active).nevals := by
    unfold direction
    rw [entry_stage, if_neg h0]
    split_ifs
    · exact stage3_nevals sqrt ws c.h _
    · rfl
    · rfl
  cases hc : (direction sqrt ws c.h (entry ws c.x c.f c.g c.active)).isCont with
  | true =>
    rw [next_of_cont sqrt ws c hc]
    have h2 := initSearch_stage ws _ (direction_stage sqrt ws c.h _ hc)
    refine ⟨?_, ?_⟩
    · show (search ws c.ls _).nevals = _
      rw [search_nevals, initSearch_nevals, hn, entry_nevals]
    · show castInt (search ws c.ls _).stage ≠ 0
      rcases search_stage ws c.ls _ h2 with h | h <;> rw [h] <;> decide
  | false =>
    rw [next_of_done sqrt ws c hc]
    have hcc : castInt (castInt ws.stage) ≠ 0 := by
      rw [(castInt_range ws.stage).2]; exact h0
    refine ⟨?_, ?_⟩
    · show (direction sqrt ws c.h (entry ws c.x c.f c.g c.active)).frame.nevals = _
      rw [hn, entry_nevals]
    · show castInt (direction sqrt ws c.h (entry ws c.x c.f c.g c.active)).frame.stage ≠ 0
      unfold direction at hc ⊢
      rw [entry_stage, if_neg h0] at hc ⊢
      by_cases h3 : castInt ws.stage = 3
      · rw [if_pos h3] at hc ⊢
        rw [(stage3_done_csave sqrt ws c.h _ hc).2, entry_stage]
        exact hcc
      · rw [if_neg h3] at hc ⊢
        by_cases h2 : castInt ws.stage = 2
        · rw [if_pos h2] at hc; simp [Flow.isCont] at hc
        · rw [if_neg h2]
          exact hcc

/-- A call entered at stage 0: either the `fmin` test fails and `nevals` is the
counter after the increment, or `nevals` is set to 1; if the stage is still 0 on
return the task is not `FG`. -/
theorem step_nevals_fresh (sqrt : ℚ → ℚ) (ws : Workspace) (c : Call)
    (h0 : castInt ws.stage = 0) :
    ((step sqrt ws c).ws.nevals = (if ws.task = Task.FG then ws.nevals + 1 else ws.nevals) ∨
      (step sqrt ws c).ws.nevals = 1) ∧
    (castInt (step sqrt ws c).ws.stage = 0 → (step sqrt ws c).ws.task ≠ Task.FG) := by
  have hs : (entry ws c.x c.f c.g c.active).stage = 0 := by rw [entry_stage]; exact h0
  by_cases hm : FLAG_IS_SET ws.flags FLAG_FMIN = true ∧ c.f ≤ ws.fmin
  · have hd : direction sqrt ws c.h (entry ws c.x c.f c.g c.active) =
        Flow.done { entry ws c.x c.f c.g c.active with
          task := Task.ERROR, csave := "op_vmlmb_next: initial F <= FMIN" } := by
      unfold direction
      rw [if_pos hs, if_pos (by rw [entry_f]; exact hm)]
    rw [next_of_done sqrt ws c (by rw [hd]; rfl), hd]
    refine ⟨Or.inl ?_, fun _ => ?_⟩
    · show (entry ws c.x c.f c.g c.active).nevals = _
      rw [entry_nevals]
    · show Task.ERROR ≠ Task.FG
      decide
  · have hd : direction sqrt ws c.h (entry ws c.x c.f c.g c.active) =
        restart sqrt ws c.h { entry ws c.x c.f c.g c.active with
          iter := 0, nevals := 1, nrestarts := 0, mark := 0 } := by
      unfold direction
      rw [if_pos hs, if_neg (by rw [entry_f]; exact hm)]
    cases hc : (direction sqrt ws c.h (entry ws c.x c.f c.g c.active)).isCont with
    | true =>
      rw [next_of_cont sqrt ws c hc]
      have h2 := initSearch_stage ws _ (direction_stage sqrt ws c.h _ hc)
      refine ⟨Or.inr ?_, fun hst => ?_⟩
      · show (search ws c.ls _).nevals = 1
        rw [search_nevals, initSearch_nevals, hd, restart_nevals]
      · exfalso
        have hst1 : castInt (search ws c.ls (initSearch ws
            (direction sqrt ws c.h (entry ws c.x c.f c.g c.active)).frame)).stage = 0 := hst
        rcases search_stage ws c.ls _ h2 with h | h <;> rw [h] at hst1 <;>
          exact absurd hst1 (by decide)
    | false =>
      rw [next_of_done sqrt ws c hc]
      rw [hd] at hc ⊢
      refine ⟨Or.inr ?_, fun _ => ?_⟩
      · show (restart sqrt ws c.h _).frame.nevals = 1
        rw [restart_nevals]
      · exact restart_done_task sqrt ws c.h _ hc

/-- The invariant behind C14, along any sequence of events. -/
theorem nevals_run (sqrt : ℚ → ℚ) (evs : List Event) : ∀ (ws : Workspace) (k : Int),
    ws.nevals = k →
    (castInt ws.stage = 0 → (k = 0 ∧ ws.task = Task.FG) ∨ (k = 1 ∧ ws.task ≠ Task.FG)) →
    (run sqrt ws evs).nevals = k + countFG sqrt ws evs := by
  induction evs with
  | nil => intro ws k hk _; simp [run, countFG, hk]
  | cons e es ih =>
    intro ws k hk hst
    cases e with
    | fmin v =>
      show (run sqrt (op_vmlmb_set_fmin ws v).2.2 es).nevals =
        k + countFG sqrt (op_vmlmb_set_fmin ws v).2.2 es
      exact ih _ k hk hst
    | call c =>
      show (run sqrt (step sqrt ws c).ws es).nevals =
        k + ((if ws.task = Task.FG then 1 else 0) + countFG sqrt (step sqrt ws c).ws es)
      rw [← add_assoc]
      by_cases h0 : castInt ws.stage = 0
      · obtain ⟨hn, ht⟩ := step_nevals_fresh sqrt ws c h0
        refine ih _ _ ?_ ?_
        · rcases hst h0 with ⟨hk0, htask⟩ | ⟨hk1, htask⟩
          · rw [if_pos htask] at hn ⊢
            rcases hn with h | h <;> rw [h] <;> omega
          · rw [if_neg htask] at hn ⊢
            rcases hn with h | h <;> rw [h] <;> omega
        · intro hs0
          right
          refine ⟨?_, ht hs0⟩
          rcases hst h0 with ⟨hk0, htask⟩ | ⟨hk1, htask⟩
          · rw [if_pos htask]; omega
          · rw [if_neg htask]; omega
      · obtain ⟨hn, hs⟩ := step_nevals_later sqrt ws c h0
        refine ih _ _ ?_ (fun h => absurd h hs)
        rw [hn]
        split_ifs <;> omega

/-- C14: in every workspace reached from a successful `op_vmlmb_first` by calls
of `op_vmlmb_next` and `op_vmlmb_set_fmin`, the counter `nevals`, the slot
`isave[INDEX_OF_NEVALS]`, equals the number of calls of `op_vmlmb_next` made so
far whose task on entry was `FG`; the reset `nevals = 1` of stage 0 never makes
the counter disagree with that count. -/
theorem nevals_counts_fg (sqrt : ℚ → ℚ) (n m : Int)
    (fatol frtol sftol sgtol sxtol delta epsilon : ℚ) (ws0 : Workspace)
    (hv : ValidArgs n m fatol frtol sftol sgtol sxtol delta epsilon) (evs : List Event) :
    (run sqrt (op_vmlmb_first n m fatol frtol sftol sgtol sxtol delta epsilon ws0).2 evs).nevals =
      countFG sqrt (op_vmlmb_first n m fatol frtol sftol sgtol sxtol delta epsilon ws0).2 evs := by
  rw [nevals_run sqrt evs _ 0, zero_add]
  · rw [first_task_of_valid n m fatol frtol sftol sgtol sxtol delta epsilon ws0 hv]
  · intro _
    rw [first_task_of_valid n m fatol frtol sftol sgtol sxtol delta epsilon ws0 hv]
    exact Or.inl ⟨rfl, rfl⟩

/-- Witness of C14: the start, a trial and the accepted step of the run on the
plane, with a call of `op_vmlmb_set_fmin` in between, then the call that computes
the next direction: four calls, three of them entered with task `FG`. -/
theorem nevals_counts_fg_witness :
    ValidArgs 2 2 0 (1/100000000) (1/1000) (9/10) (1/10) (1/10) 0 ∧
    countFG Rat.sqrt planeWs [Event.call planeCall0, Event.fmin 1, Event.call planeTrial,
      Event.call planeAccept, Event.call planeTrial] = 3 ∧
    (run Rat.sqrt planeWs [Event.call planeCall0, Event.fmin 1,
      Event.call planeTrial, Event.call planeAccept, Event.call planeTrial]).nevals = 3 :=
  have hv : ValidArgs 2 2 0 (1/100000000) (1/1000) (9/10) (1/10) (1/10) 0 := by
    unfold ValidArgs; norm_num
  have hc : countFG Rat.sqrt planeWs [Event.call planeCall0, Event.fmin 1,
      Event.call planeTrial, Event.call planeAccept, Event.call planeTrial] = 3 := by decide!
  ⟨hv, hc, (nevals_counts_fg Rat.sqrt 2 2 0 (1/100000000) (1/1000) (9/10) (1/10) (1/10) 0
    junk hv _).trans hc⟩

/-! ### C15: corrupted workspace -/

/-- A call entered at a stage other than 0, 2 and 3 goes straight to `done`. -/
theorem step_corrupted (sqrt : ℚ → ℚ) (ws : Workspace) (c : Call)
    (h : castInt ws.stage ≠ 0 ∧ castInt ws.stage ≠ 2 ∧ castInt ws.stage ≠ 3) :
    step sqrt ws c = done ws { entry ws c.x c.f c.g c.active with
      task := Task.ERROR, csave := "op_vmlmb_next: corrupted workspace" } := by
  have hd : direction sqrt ws c.h (entry ws c.x c.f c.g c.active) =
      Flow.done { entry ws c.x c.f c.g c.active with
        task := Task.ERROR, csave := "op_vmlmb_next: corrupted workspace" } := by
    have h0 : (entry ws c.x c.f c.g c.active).stage ≠ 0 := by rw [entry_stage]; exact h.1
    have h2 : (entry ws c.x c.f c.g c.active).stage ≠ 2 := by rw [entry_stage]; exact h.2.1
    have h3 : (entry ws c.x c.f c.g c.active).stage ≠ 3 := by rw [entry_stage]; exact h.2.2
    unfold direction
    rw [if_neg h0, if_neg h3, if_neg h2]
  rw [next_of_done sqrt ws c (by rw [hd]; rfl), hd]
  rfl

/-- The message "corrupted workspace" is left only by the last branch of the
dispatch on the stage. -/
theorem corrupted_origin (sqrt : ℚ → ℚ) (ws : Workspace) (c : Call)
    (hls : c.ls.csave ≠ "op_vmlmb_next: corrupted workspace")
    (h : (step sqrt ws c).ws.csave = "op_vmlmb_next: corrupted workspace") :
    castInt ws.stage ≠ 0 ∧ castInt ws.stage ≠ 2 ∧ castInt ws.stage ≠ 3 := by
  rcases step_csave sqrt ws c with h1 | h1 | h1 | h1
  · exact absurd (h1.symm.trans h) hls
  · rw [h] at h1
    exact absurd h1 (by decide)
  · exact absurd (h.symm.trans h1.2.2) (by decide)
  · exact h1.1

/-- Counterexample to C15 as worded: with stage 1 stored on entry the call is
not dispatched but returns `ERROR`, "corrupted workspace". -/
theorem stage_one_corrupted :
    strayWs.stage = 1 ∧ (step Rat.sqrt strayWs planeCall0).task = Task.ERROR ∧
    (step Rat.sqrt strayWs planeCall0).ws.csave = "op_vmlmb_next: corrupted workspace" := by
  decide!

/-- C15, amended: `op_vmlmb_next` leaves "corrupted workspace" if and only if the
stage found on entry, which is the stored stage converted to `int`, is none of 0,
2 and 3, and then returns `ERROR`.  For a stored stage in the range of `int` this
is the stored stage itself: with 0, 2 or 3 stored the call is dispatched and
never leaves this message, and a stored stage of 1 is reported as corrupted.  The
line search is assumed not to leave this message itself. -/
theorem corrupted_iff (sqrt : ℚ → ℚ) (ws : Workspace) (c : Call)
    (hls : c.ls.csave ≠ "op_vmlmb_next: corrupted workspace") :
    ((step sqrt ws c).ws.csave = "op_vmlmb_next: corrupted workspace" ↔
      castInt ws.stage ≠ 0 ∧ castInt ws.stage ≠ 2 ∧ castInt ws.stage ≠ 3) ∧
    (castInt ws.stage ≠ 0 ∧ castInt ws.stage ≠ 2 ∧ castInt ws.stage ≠ 3 →
      (step sqrt ws c).task = Task.ERROR) ∧
    ((-2147483648 ≤ ws.stage ∧ ws.stage < 2147483648) →
      ((step sqrt ws c).ws.csave = "op_vmlmb_next: corrupted workspace" ↔
        ws.stage ≠ 0 ∧ ws.stage ≠ 2 ∧ ws.stage ≠ 3)) ∧
    (ws.stage = 0 ∨ ws.stage = 2 ∨ ws.stage = 3 →
      (step sqrt ws c).ws.csave ≠ "op_vmlmb_next: corrupted workspace") ∧
    (ws.stage = 1 → (step sqrt ws c).task = Task.ERROR ∧
      (step sqrt ws c).ws.csave = "op_vmlmb_next: corrupted workspace") := by
  have hiff : (step sqrt ws c).ws.csave = "op_vmlmb_next: corrupted workspace" ↔
      castInt ws.stage ≠ 0 ∧ castInt ws.stage ≠ 2 ∧ castInt ws.stage ≠ 3 :=
    ⟨corrupted_origin sqrt ws c hls, fun h => by rw [step_corrupted sqrt ws c h]; rfl⟩
  refine ⟨hiff, fun h => by rw [step_corrupted sqrt ws c h]; rfl, fun hr => ?_, fun h hc => ?_,
    fun h => ?_⟩
  · rw [hiff, castInt_of_range ws.stage hr]
  · have h1 := hiff.1 hc
    rw [castInt_of_range ws.stage (by omega)] at h1
    omega
  · rw [step_corrupted sqrt ws c (by rw [h]; decide)]
    exact ⟨rfl, rfl⟩

/-- Witness of the amended C15: the first call of the run on the plane, entered
at stage 0, is dispatched; the same call on a workspace with stage 7 is not; and
with `2^32` stored, which converts to 0, it is dispatched as at stage 0. -/
theorem corrupted_iff_witness :
    planeCall0.ls.csave ≠ "op_vmlmb_next: corrupted workspace" ∧
    planeWs.stage = 0 ∧
    (step Rat.sqrt planeWs planeCall0).ws.csave ≠ "op_vmlmb_next: corrupted workspace" ∧
    (step Rat.sqrt { planeWs with stage := 7 } planeCall0).ws.csave =
      "op_vmlmb_next: corrupted workspace" ∧
    castInt 4294967296 = 0 ∧
    (step Rat.sqrt { planeWs with stage := 4294967296 } planeCall0).task = Task.FG ∧
    (step Rat.sqrt { planeWs with stage := 4294967296 } planeCall0).ws.stage = 2 :=
  ⟨by decide, by decide!,
    (corrupted_iff Rat.sqrt planeWs planeCall0 (by decide)).2.2.2.1 (Or.inl (by decide!)),
    ((corrupted_iff Rat.sqrt { planeWs with stage := 7 } planeCall0 (by decide)).1).2
      (by decide),
    by decide, by decide!, by decide!⟩

/-! ### C16: the accessors of fmin -/

/-- C16: the `fmin` accessors round trip: after `op_vmlmb_first`,
`op_vmlmb_get_fmin` reports "not set"; for every value `v` and every workspace,
`op_vmlmb_set_fmin` returns whether `fmin` had been set before and yields the
previous value exactly when it had; immediately afterwards `op_vmlmb_get_fmin`
reports "set" with value `v`; `op_vmlmb_set_fmin` changes no slot other than the
`fmin` value and its flag. -/
theorem fmin_round_trip (n m : Int) (fatol frtol sftol sgtol sxtol delta epsilon : ℚ)
    (ws0 : Workspace) (hv : ValidArgs n m fatol frtol sftol sgtol sxtol delta epsilon)
    (ws : Workspace) (v : ℚ) :
    op_vmlmb_get_fmin (op_vmlmb_first n m fatol frtol sftol sgtol sxtol delta epsilon ws0).2 =
      (false, none) ∧
    (op_vmlmb_set_fmin ws v).1 = (op_vmlmb_get_fmin ws).1 ∧
    (op_vmlmb_set_fmin ws v).2.1 = (op_vmlmb_get_fmin ws).2 ∧
    ((op_vmlmb_get_fmin ws).1 = true → (op_vmlmb_set_fmin ws v).2.1 = some ws.fmin) ∧
    ((op_vmlmb_get_fmin ws).1 = false → (op_vmlmb_set_fmin ws v).2.1 = none) ∧
    op_vmlmb_get_fmin (op_vmlmb_set_fmin ws v).2.2 = (true, some v) ∧
    { (op_vmlmb_set_fmin ws v).2.2 with fmin := ws.fmin, flags := ws.flags } = ws := by
  refine ⟨?_, rfl, rfl, ?_, ?_, ?_, rfl⟩
  · rw [first_task_of_valid n m fatol frtol sftol sgtol sxtol delta epsilon ws0 hv]
    simp [op_vmlmb_get_fmin, FLAG_IS_SET, FLAG_FMIN]
  · intro h
    simp only [op_vmlmb_get_fmin] at h
    simp only [op_vmlmb_set_fmin, h, if_true]
  · intro h
    simp only [op_vmlmb_get_fmin] at h
    simp [op_vmlmb_set_fmin, h]
  · simp only [op_vmlmb_get_fmin, op_vmlmb_set_fmin, flag_set_of_or, if_true]

/-- Witness of C16 on the workspace of the run on the plane and `v = -1`. -/
theorem fmin_round_trip_witness :
    ValidArgs 2 2 0 (1/100000000) (1/1000) (9/10) (1/10) (1/10) 0 ∧
    op_vmlmb_get_fmin planeWs = (false, none) ∧
    (op_vmlmb_set_fmin planeWs (-1)).1 = false ∧
    op_vmlmb_get_fmin (op_vmlmb_set_fmin planeWs (-1)).2.2 = (true, some (-1)) ∧
    (op_vmlmb_set_fmin (op_vmlmb_set_fmin planeWs (-1)).2.2 3).2.1 = some (-1) :=
  have hv : ValidArgs 2 2 0 (1/100000000) (1/1000) (9/10) (1/10) (1/10) 0 := by
    unfold ValidArgs; norm_num
  have h := fmin_round_trip 2 2 0 (1/100000000) (1/1000) (9/10) (1/10) (1/10) 0 junk hv
    planeWs (-1)
  ⟨hv, h.1, by decide!, h.2.2.2.2.2.1, by decide!⟩

/-! ### C17: the value of rho used by the two-loop recursion -/

/-- C17, failing run: on `f(x) = x^4/32` with `n = 1`, `m = 1`, a first step from
`x = 2` to `x = 1` is accepted without a mask, which stores `rho[0] = 7/8`; a
second step from `x = 1` to `x = 6/7` is accepted on a call that supplies a mask,
so that the pair `S[0] = 1/7`, `Y[0] = 127/2744` is stored and `rho[0]` is not
written; on the next call, at stage 3 and without a mask, the two-loop recursion
does not recompute `rho[0]`: the value it tests and divides by is still `7/8`,
not `S[0].Y[0] = 127/19208`, and `alpha[0]` is `(S[0].g)/(7/8) = 216/16807`
instead of `216/127`. -/
theorem rho_stale :
    Reachable Rat.sqrt
      (steps Rat.sqrt quarticWs [quarticCall0, quarticCall1, quarticCall2, quarticCall3]) ∧
    (step Rat.sqrt quarticWs quarticCall0).x 0 = quarticCall1.x 0 ∧
    (steps Rat.sqrt quarticWs [quarticCall0, quarticCall1]).rho 0 = 7/8 ∧
    (step Rat.sqrt (steps Rat.sqrt quarticWs [quarticCall0, quarticCall1]) quarticCall2).x 0 =
      quarticCall3.x 0 ∧
    (step Rat.sqrt (steps Rat.sqrt quarticWs [quarticCall0, quarticCall1, quarticCall2])
      quarticCall3).task = Task.NEWX ∧
    (steps Rat.sqrt quarticWs [quarticCall0, quarticCall1, quarticCall2, quarticCall3]).stage
      = 3 ∧
    (steps Rat.sqrt quarticWs [quarticCall0, quarticCall1, quarticCall2, quarticCall3]).mp
      = 1 ∧
    slot (steps Rat.sqrt quarticWs [quarticCall0, quarticCall1, quarticCall2, quarticCall3])
      (entry (steps Rat.sqrt quarticWs [quarticCall0, quarticCall1, quarticCall2, quarticCall3])
        quarticCall4.x quarticCall4.f quarticCall4.g quarticCall4.active) 0 = 0 ∧
    (steps Rat.sqrt quarticWs [quarticCall0, quarticCall1, quarticCall2, quarticCall3]).s 0 0
      = 1/7 ∧
    (steps Rat.sqrt quarticWs [quarticCall0, quarticCall1, quarticCall2, quarticCall3]).y 0 0
      = 127/2744 ∧
    op_ddot_active 1
      ((steps Rat.sqrt quarticWs [quarticCall0, quarticCall1, quarticCall2, quarticCall3]).s 0)
      ((steps Rat.sqrt quarticWs [quarticCall0, quarticCall1, quarticCall2, quarticCall3]).y 0)
      quarticCall4.active = 127/19208 ∧
    (twoLoop (steps Rat.sqrt quarticWs [quarticCall0, quarticCall1, quarticCall2, quarticCall3])
      quarticCall4.h
      (entry (steps Rat.sqrt quarticWs [quarticCall0, quarticCall1, quarticCall2, quarticCall3])
        quarticCall4.x quarticCall4.f quarticCall4.g quarticCall4.active)).frame.rho 0 = 7/8 ∧
    (twoLoop (steps Rat.sqrt quarticWs [quarticCall0, quarticCall1, quarticCall2, quarticCall3])
      quarticCall4.h
      (entry (steps Rat.sqrt quarticWs [quarticCall0, quarticCall1, quarticCall2, quarticCall3])
        quarticCall4.x quarticCall4.f quarticCall4.g quarticCall4.active)).frame.alpha 0 =
      216/16807 ∧
    (step Rat.sqrt
      (steps Rat.sqrt quarticWs [quarticCall0, quarticCall1, quarticCall2, quarticCall3])
      quarticCall4).ws.rho 0 = 7/8 :=
  ⟨Reachable.next _ quarticCall3 (Reachable.next _ quarticCall2 (Reachable.next _ quarticCall1
      (Reachable.next _ quarticCall0
        (Reachable.first 1 1 0 0 (1/1000) (9/10) (1/10) 0 0 junk
          (by unfold ValidArgs; norm_num))))),
    by decide!, by decide!, by decide!, by decide!, by decide!, by decide!, by decide!,
    by decide!, by decide!, by decide!, by decide!, by decide!, by decide!⟩

/-! ### C18: where the pairs are stored -/

/-- A slot at distance `k`, `0 < k < m`, behind `mark` is not slot `mark`. -/
theorem ring_ne (m mark k : Int) (h0 : 0 ≤ mark) (h1 : mark < m) (hk0 : 0 < k) (hk1 : k < m) :
    (mark - k) % m ≠ mark := by
  intro h
  have hm : mark % m = mark := Int.emod_eq_of_lt h0 h1
  have h2 : (mark - k) % m = mark % m := by rw [hm]; exact h
  have h3 := (Int.emod_eq_emod_iff_emod_sub_eq_zero).1 h2
  have h4 : m ∣ (mark - k - mark) := Int.dvd_of_emod_eq_zero h3
  have h5 : m ∣ k := by
    have : mark - k - mark = -k := by ring
    rw [this] at h4
    exact (Int.dvd_neg).1 h4
  have := Int.le_of_dvd hk0 h5
  omega

/-- After the mark advances, the slot at distance `j + 1` is the one that was at
distance `j`. -/
theorem ring_shift (m mark j : Int) :
    ((mark + 1) % m - (j + 1)) % m = (mark - j) % m := by
  rw [Int.sub_emod, Int.emod_emod, ← Int.sub_emod]
  congr 1
  ring

/-- The index `(mm - k)%m` of the two loops, in terms of `mark`. -/
theorem slot_ring (ws : Workspace) (L : Frame) (k : Nat) (h0 : 0 ≤ L.mark) (hm : 0 < ws.m)
    (hk : (k : Int) ≤ ws.m) : slot ws L k = (L.mark - (k : Int)) % ws.m := by
  unfold slot
  rw [Int.tmod_eq_emod (by omega) (le_of_lt hm)]
  have : L.mark + ws.m - (k : Int) = (L.mark - (k : Int)) + ws.m := by ring
  rw [this, Int.add_emod_self]

/-- The line-search block keeps the store in step with the history: when
`op_csrch` is called and returns 2 or 5 the new pair goes to slot `mark`;
otherwise nothing moves. -/
theorem search_stored (ws : Workspace) (ls : Csrch) (L : Frame) (H : History)
    (h2 : L.stage = 2) (hS : Stored ws.n ws.m 2 L.mark L.mp L.s L.y H) :
    Stored ws.n ws.m (search ws ls L).stage (search ws ls L).mark (search ws ls L).mp
      (search ws ls L).s (search ws ls L).y
      (if ¬ (FLAG_IS_SET ws.flags FLAG_FMIN = true ∧ L.f < ws.fmin) ∧
          (ls.info = 2 ∨ ls.info = 5) then
        { H with pairs := (fun i => H.x0 i - L.x i, fun i => H.g0 i - L.g i) :: H.pairs }
      else H) := by
  by_cases hacc : ¬ (FLAG_IS_SET ws.flags FLAG_FMIN = true ∧ L.f < ws.fmin) ∧
      (ls.info = 2 ∨ ls.info = 5)
  · rw [if_pos hacc, search_accept ws ls L h2 hacc.1 hacc.2]
    simp only [accept_stage, accept_mark, accept_mp, accept_s, accept_y]
    obtain ⟨hm, hmk, hmp, _, _, hinv⟩ := hS
    obtain ⟨hx, hg, hp⟩ := hinv rfl
    refine ⟨hm, hmk, ?_, Or.inr (Or.inr rfl), fun _ j p hj hget => ?_,
      fun h => absurd h (by decide)⟩
    · simp only [List.length_cons]
      push_cast
      split_ifs <;> omega
    · have hj1 : (j : Int) < L.mp + 1 := by
        have : (if L.mp < ws.m then L.mp + 1 else L.mp) ≤ L.mp + 1 := by split_ifs <;> omega
        omega
      have hjm : (j : Int) < ws.m := by
        have : (if L.mp < ws.m then L.mp + 1 else L.mp) ≤ ws.m := by split_ifs <;> omega
        omega
      cases j with
      | zero =>
        have hp0 : p = (fun i => H.x0 i - L.x i, fun i => H.g0 i - L.g i) := by
          simpa using hget.symm
        have hslot : (L.mark - ((0 : Nat) : Int)) % ws.m = L.mark := by
          rw [Nat.cast_zero, sub_zero]
          exact Int.emod_eq_of_lt hmk.1 hmk.2
        rw [hslot, hp0]
        refine ⟨fun i hi => ?_, fun i hi => ?_⟩
        · simp only [Function.update_same]
          rw [if_pos hi, hx i hi]
        · simp only [Function.update_same]
          rw [if_pos hi, hg i hi]
      | succ j =>
        have hget1 : H.pairs[j]? = some p := by simpa using hget
        have hcast : (((j + 1 : Nat)) : Int) = (j : Int) + 1 := by push_cast; rfl
        rw [hcast] at hj1 hjm ⊢
        have hne := ring_ne ws.m L.mark ((j : Int) + 1) hmk.1 hmk.2 (by omega) hjm
        simp only [Function.update_noteq hne]
        exact hp j p (by omega) hjm hget1
  · rw [if_neg hacc]
    have hg : (FLAG_IS_SET ws.flags FLAG_FMIN = true ∧ L.f < ws.fmin) ∨
        (ls.info ≠ 2 ∧ ls.info ≠ 5) := by
      by_cases hw : FLAG_IS_SET ws.flags FLAG_FMIN = true ∧ L.f < ws.fmin
      · exact Or.inl hw
      · right
        constructor
        · intro h; exact hacc ⟨hw, Or.inl h⟩
        · intro h; exact hacc ⟨hw, Or.inr h⟩
    obtain ⟨e1, e2, e3, e4, _⟩ := search_goesOn ws ls L h2 hg
    rw [e1, e2, e3, e4, search_mark]
    exact hS

/-- The initialisation of a line search keeps the store in step with the
history: slot `mark` receives the point and the gradient, and the pairs are
found one slot further behind `mark`. -/
theorem init_stored (ws : Workspace) (F : Frame) (H : History) (h1 : F.stage = 1)
    (hm : 0 < ws.m) (hmk : 0 ≤ F.mark ∧ F.mark < ws.m)
    (hmp : F.mp = min (H.pairs.length : Int) ws.m)
    (hprev : ∀ (j : Nat) (p : Vec × Vec), (j : Int) < F.mp → (j : Int) + 1 < ws.m →
      H.pairs[j]? = some p →
      agree ws.n (F.s ((F.mark - ((j : Int) + 1)) % ws.m)) p.1 ∧
      agree ws.n (F.y ((F.mark - ((j : Int) + 1)) % ws.m)) p.2) :
    Stored ws.n ws.m 2 (initSearch ws F).mark (initSearch ws F).mp (initSearch ws F).s
      (initSearch ws F).y { H with x0 := F.x, g0 := F.g } := by
  rw [initSearch_start ws F h1]
  dsimp only
  refine ⟨hm, hmk, hmp, Or.inr (Or.inl rfl), fun h => absurd h (by decide), fun _ => ⟨?_, ?_, ?_⟩⟩
  · intro i hi
    simp only [Function.update_same, op_dcopy]
    rw [if_pos hi]
  · intro i hi
    simp only [Function.update_same, op_dcopy]
    rw [if_pos hi]
  · intro j p hj hjm hget
    have hne := ring_ne ws.m F.mark ((j : Int) + 1) hmk.1 hmk.2 (by omega) hjm
    simp only [Function.update_noteq hne]
    exact hprev j p hj hjm hget

/-- A call that passes through label `restart` does so from stage 0, with
`mark = 0`, or from stage 3, with the mark as stored. -/
theorem restartEntry_some (sqrt : ℚ → ℚ) (ws : Workspace) (x : Vec) (f : ℚ) (g : Vec)
    (active : Option Mask) (h : Option Vec) (Lr : Frame)
    (hr : restartEntry sqrt ws x f g active h = some Lr) :
    (castInt ws.stage = 0 ∧ Lr.stage = 0 ∧ Lr.mark = 0) ∨
    (castInt ws.stage = 3 ∧ Lr.stage = 3 ∧ Lr.mark = ws.mark) := by
  unfold restartEntry at hr
  by_cases h0 : (entry ws x f g active).stage = 0
  · rw [if_pos h0] at hr
    by_cases hm : FLAG_IS_SET ws.flags FLAG_FMIN = true ∧ (entry ws x f g active).f ≤ ws.fmin
    · rw [if_pos hm] at hr; exact absurd hr (by simp)
    · rw [if_neg hm] at hr
      have hL := Option.some.inj hr
      left
      rw [← hL]
      exact ⟨by rw [← entry_stage ws x f g active]; exact h0, h0, rfl⟩
  · rw [if_neg h0] at hr
    by_cases h3 : (entry ws x f g active).stage = 3
    · rw [if_pos h3] at hr
      right
      have hs3 : castInt ws.stage = 3 := by rw [← entry_stage ws x f g active]; exact h3
      have hts := twoLoop_stage ws h (entry ws x f g active)
      have htm := twoLoop_mark ws h (entry ws x f g active)
      unfold restartFrame at hr
      cases htl : twoLoop ws h (entry ws x f g active) with
      | done L1 => rw [htl] at hr; exact absurd hr (by simp)
      | restart L1 =>
        rw [htl] at hr hts htm
        have hL := Option.some.inj hr
        rw [← hL]
        exact ⟨hs3, hts.trans h3, htm.trans (entry_mark ws x f g active)⟩
      | dir L1 =>
        rw [htl] at hr hts htm
        dsimp only at hr
        split_ifs at hr
        have hL := Option.some.inj hr
        rw [← hL]
        exact ⟨hs3, hts.trans h3, htm.trans (entry_mark ws x f g active)⟩
    · rw [if_neg h3] at hr; exact absurd hr (by simp)

/-- A call that does not pass through label `restart` leaves `mp` alone; if it
jumps to `done` the stage and the mark are as stored, and if it sets `stage = 1`
it comes from stage 3 and has advanced the mark. -/
theorem restartEntry_none (sqrt : ℚ → ℚ) (ws : Workspace) (x : Vec) (f : ℚ) (g : Vec)
    (active : Option Mask) (h : Option Vec)
    (hr : restartEntry sqrt ws x f g active h = none) :
    (direction sqrt ws h (entry ws x f g active)).frame.mp = ws.mp ∧
    ((direction sqrt ws h (entry ws x f g active)).isCont = false →
      (direction sqrt ws h (entry ws x f g active)).frame.stage = castInt ws.stage ∧
      (direction sqrt ws h (entry ws x f g active)).frame.mark = ws.mark) ∧
    ((direction sqrt ws h (entry ws x f g active)).isCont = true →
      (direction sqrt ws h (entry ws x f g active)).frame.stage = 1 →
      castInt ws.stage = 3 ∧
      (direction sqrt ws h (entry ws x f g active)).frame.mark = (ws.mark + 1).tmod ws.m) := by
  have hE := entry_stage ws x f g active
  have hmp := entry_mp ws x f g active
  have hmk := entry_mark ws x f g active
  unfold restartEntry at hr
  unfold direction
  by_cases h0 : (entry ws x f g active).stage = 0
  · rw [if_pos h0] at hr ⊢
    by_cases hm : FLAG_IS_SET ws.flags FLAG_FMIN = true ∧ (entry ws x f g active).f ≤ ws.fmin
    · rw [if_pos hm]
      exact ⟨hmp, fun _ => ⟨hE, hmk⟩, fun hc => absurd hc (by simp [Flow.isCont])⟩
    · rw [if_neg hm] at hr; exact absurd hr (by simp)
  · rw [if_neg h0] at hr ⊢
    by_cases h3 : (entry ws x f g active).stage = 3
    · rw [if_pos h3] at hr ⊢
      have hs3 : castInt ws.stage = 3 := by rw [← hE]; exact h3
      have hts := twoLoop_stage ws h (entry ws x f g active)
      have htm := twoLoop_mark ws h (entry ws x f g active)
      have htp := twoLoop_mp ws h (entry ws x f g active)
      unfold restartFrame at hr
      unfold stage3
      cases htl : twoLoop ws h (entry ws x f g active) with
      | done L1 =>
        rw [htl] at hts htm htp
        exact ⟨htp.trans hmp, fun _ => ⟨hts.trans hE, htm.trans hmk⟩,
          fun hc => absurd hc (by simp [Flow.isCont])⟩
      | restart L1 => rw [htl] at hr; exact absurd hr (by simp)
      | dir L1 =>
        rw [htl] at hr hts htm htp
        dsimp only at hr ⊢
        by_cases hd : ¬ descent sqrt ws L1 (-op_ddot ws.n L1.g L1.d) = true
        · rw [if_pos hd] at hr; exact absurd hr (by simp)
        · rw [if_neg hd]
          refine ⟨htp.trans hmp, fun hc => absurd hc (by simp [Flow.isCont]), fun _ _ => ⟨hs3, ?_⟩⟩
          show (L1.mark + 1).tmod ws.m = _
          rw [show L1.mark = ws.mark from htm.trans hmk]
    · rw [if_neg h3]
      by_cases h2 : (entry ws x f g active).stage = 2
      · rw [if_pos h2]
        refine ⟨hmp, fun hc => absurd hc (by simp [Flow.isCont]), fun _ h1 => ?_⟩
        have : (entry ws x f g active).stage = 1 := h1
        omega
      · rw [if_neg h2]
        exact ⟨hmp, fun _ => ⟨hE, hmk⟩, fun hc => absurd hc (by simp [Flow.isCont])⟩

/-- One call of `op_vmlmb_next` keeps the store in step with the history. -/
theorem step_stored (sqrt : ℚ → ℚ) (ws : Workspace) (c : Call) (H : History)
    (hS : Stored ws.n ws.m ws.stage ws.mark ws.mp ws.s ws.y H) :
    Stored (step sqrt ws c).ws.n (step sqrt ws c).ws.m (step sqrt ws c).ws.stage
      (step sqrt ws c).ws.mark (step sqrt ws c).ws.mp (step sqrt ws c).ws.s
      (step sqrt ws c).ws.y (record sqrt ws c H) := by
  rw [(step_const sqrt ws c).2.2.2.1, (step_const sqrt ws c).2.2.2.2.1]
  obtain ⟨hm, hmk, hmp, hst, h3inv, h2inv⟩ := hS
  have hci : castInt ws.stage = ws.stage := castInt_of_range ws.stage (by omega)
  have hempty : ∀ (stage mark : Int), (stage = 0 ∨ stage = 3) → (0 ≤ mark ∧ mark < ws.m) →
      ∀ (x0 g0 : Vec), Stored ws.n ws.m stage mark 0 ws.s ws.y
        { x0 := x0, g0 := g0, pairs := [] } := by
    intro stage mark hs hb x0 g0
    refine ⟨hm, hb, ?_, ?_, fun _ j p hj => absurd hj (by omega), fun h => ?_⟩
    · show (0 : Int) = min ((0 : Nat) : Int) ws.m
      rw [Nat.cast_zero]; omega
    · rcases hs with h | h
      · exact Or.inl h
      · exact Or.inr (Or.inr h)
    · omega
  unfold record
  dsimp only
  cases hc : (direction sqrt ws c.h (entry ws c.x c.f c.g c.active)).isCont with
  | false =>
    rw [next_of_done sqrt ws c hc]
    show Stored ws.n ws.m (direction sqrt ws c.h (entry ws c.x c.f c.g c.active)).frame.stage
      (direction sqrt ws c.h (entry ws c.x c.f c.g c.active)).frame.mark
      (direction sqrt ws c.h (entry ws c.x c.f c.g c.active)).frame.mp
      (direction sqrt ws c.h (entry ws c.x c.f c.g c.active)).frame.s
      (direction sqrt ws c.h (entry ws c.x c.f c.g c.active)).frame.y _
    simp only [Bool.false_eq_true, false_and, if_false]
    rw [direction_s, direction_y, entry_s, entry_y]
    cases hr : restartEntry sqrt ws c.x c.f c.g c.active c.h with
    | none =>
      simp only [Option.isSome_none, Bool.false_eq_true, if_false]
      obtain ⟨e1, e2, _⟩ := restartEntry_none sqrt ws c.x c.f c.g c.active c.h hr
      obtain ⟨e3, e4⟩ := e2 hc
      rw [e1, e3, e4, hci]
      exact ⟨hm, hmk, hmp, hst, h3inv, h2inv⟩
    | some Lr =>
      simp only [Option.isSome_some, if_true]
      have hd := (restartEntry_fields sqrt ws c.x c.f c.g c.active c.h Lr hr).2.2.2
      rw [hd] at hc ⊢
      rw [restart_mp, restart_mark, (restart_done_csave sqrt ws c.h Lr hc).2]
      rcases restartEntry_some sqrt ws c.x c.f c.g c.active c.h Lr hr with ⟨_, a2, a3⟩ | ⟨_, a2, a3⟩
      · rw [a2, a3]
        exact hempty 0 0 (Or.inl rfl) ⟨le_refl _, hm⟩ _ _
      · rw [a2, a3]
        exact hempty 3 ws.mark (Or.inr rfl) hmk _ _
  | true =>
    rw [next_of_cont sqrt ws c hc]
    show Stored ws.n ws.m
      (search ws c.ls (initSearch ws
        (direction sqrt ws c.h (entry ws c.x c.f c.g c.active)).frame)).stage
      (search ws c.ls (initSearch ws
        (direction sqrt ws c.h (entry ws c.x c.f c.g c.active)).frame)).mark
      (search ws c.ls (initSearch ws
        (direction sqrt ws c.h (entry ws c.x c.f c.g c.active)).frame)).mp
      (search ws c.ls (initSearch ws
        (direction sqrt ws c.h (entry ws c.x c.f c.g c.active)).frame)).s
      (search ws c.ls (initSearch ws
        (direction sqrt ws c.h (entry ws c.x c.f c.g c.active)).frame)).y _
    simp only [true_and]
    have hfields :
        (initSearch ws (direction sqrt ws c.h (entry ws c.x c.f c.g c.active)).frame).f = c.f ∧
        (initSearch ws (direction sqrt ws c.h (entry ws c.x c.f c.g c.active)).frame).x = c.x ∧
        (initSearch ws (direction sqrt ws c.h (entry ws c.x c.f c.g c.active)).frame).g = c.g ∧
        (direction sqrt ws c.h (entry ws c.x c.f c.g c.active)).frame.x = c.x ∧
        (direction sqrt ws c.h (entry ws c.x c.f c.g c.active)).frame.g = c.g := by
      simp only [initSearch_f, initSearch_x, initSearch_g, direction_f, direction_x,
        direction_g, entry_f, entry_x, entry_g, and_self]
    obtain ⟨f1, f2, f3, f4, f5⟩ := hfields
    rcases direction_cont_stage sqrt ws c.h (entry ws c.x c.f c.g c.active) hc with
      ⟨h1, _⟩ | ⟨h2, hD⟩
    · rw [if_pos h1]
      have hstage2 := initSearch_stage ws _ (Or.inl h1)
      cases hr : restartEntry sqrt ws c.x c.f c.g c.active c.h with
      | none =>
        simp only [Option.isSome_none, Bool.false_eq_true, if_false]
        obtain ⟨e1, _, e3⟩ := restartEntry_none sqrt ws c.x c.f c.g c.active c.h hr
        obtain ⟨hs3, e4⟩ := e3 hc h1
        rw [hci] at hs3
        have hb := tmod_succ_bounds ws.mark ws.m hmk.1 hm
        have hinit := init_stored ws
          (direction sqrt ws c.h (entry ws c.x c.f c.g c.active)).frame H h1 hm
          (by rw [e4]; exact hb) (by rw [e1]; exact hmp)
          (by
            intro j p hj hjm hget
            rw [direction_s, direction_y, entry_s, entry_y, e4,
              Int.tmod_eq_emod (by omega) (le_of_lt hm), ring_shift]
            rw [e1] at hj
            exact h3inv hs3 j p hj hget)
        have hsearch := search_stored ws c.ls _ _ hstage2 hinit
        rw [f1, f2, f3, f4, f5] at hsearch
        exact hsearch
      | some Lr =>
        simp only [Option.isSome_some, if_true]
        have hd := (restartEntry_fields sqrt ws c.x c.f c.g c.active c.h Lr hr).2.2.2
        have hmark : 0 ≤ (direction sqrt ws c.h (entry ws c.x c.f c.g c.active)).frame.mark ∧
            (direction sqrt ws c.h (entry ws c.x c.f c.g c.active)).frame.mark < ws.m := by
          rw [hd, restart_mark]
          rcases restartEntry_some sqrt ws c.x c.f c.g c.active c.h Lr hr with
            ⟨_, _, a3⟩ | ⟨_, _, a3⟩
          · rw [a3]; exact ⟨le_refl _, hm⟩
          · rw [a3]; exact hmk
        have hmp0 : (direction sqrt ws c.h (entry ws c.x c.f c.g c.active)).frame.mp = 0 := by
          rw [hd, restart_mp]
        have hinit := init_stored ws
          (direction sqrt ws c.h (entry ws c.x c.f c.g c.active)).frame
          { H with pairs := [] } h1 hm hmark
          (by
            rw [hmp0]
            show (0 : Int) = min ((0 : Nat) : Int) ws.m
            rw [Nat.cast_zero]; omega)
          (by
            intro j p hj
            rw [hmp0] at hj
            omega)
        have hsearch := search_stored ws c.ls _ _ hstage2 hinit
        rw [f1, f2, f3, f4, f5] at hsearch
        exact hsearch
    · have hs2 : ws.stage = 2 := by
        rw [← hci, ← entry_stage ws c.x c.f c.g c.active]; exact h2
      have hr : restartEntry sqrt ws c.x c.f c.g c.active c.h = none := by
        unfold restartEntry
        rw [if_neg (by omega), if_neg (by omega)]
      have hfs : (direction sqrt ws c.h (entry ws c.x c.f c.g c.active)).frame.stage = 2 := by
        rw [hD]; exact h2
      have hne1 : ¬ (direction sqrt ws c.h (entry ws c.x c.f c.g c.active)).frame.stage = 1 := by
        rw [hfs]; decide
      simp only [hr, hne1, Option.isSome_none, Bool.false_eq_true, if_false]
      have hstage2 := initSearch_stage ws _ (Or.inr hfs)
      have hcont := initSearch_continue ws
        (direction sqrt ws c.h (entry ws c.x c.f c.g c.active)).frame (by rw [hfs]; decide)
      have hinit : Stored ws.n ws.m 2
          (initSearch ws (direction sqrt ws c.h (entry ws c.x c.f c.g c.active)).frame).mark
          (initSearch ws (direction sqrt ws c.h (entry ws c.x c.f c.g c.active)).frame).mp
          (initSearch ws (direction sqrt ws c.h (entry ws c.x c.f c.g c.active)).frame).s
          (initSearch ws (direction sqrt ws c.h (entry ws c.x c.f c.g c.active)).frame).y H := by
        rw [hcont]
        show Stored ws.n ws.m 2
          (direction sqrt ws c.h (entry ws c.x c.f c.g c.active)).frame.mark
          (direction sqrt ws c.h (entry ws c.x c.f c.g c.active)).frame.mp
          (direction sqrt ws c.h (entry ws c.x c.f c.g c.active)).frame.s
          (direction sqrt ws c.h (entry ws c.x c.f c.g c.active)).frame.y H
        obtain ⟨e1, _, _⟩ := restartEntry_none sqrt ws c.x c.f c.g c.active c.h hr
        rw [e1, direction_s, direction_y, entry_s, entry_y, hD]
        show Stored ws.n ws.m 2 (entry ws c.x c.f c.g c.active).mark ws.mp ws.s ws.y H
        rw [entry_mark]
        exact ⟨hm, hmk, hmp, Or.inr (Or.inl rfl), fun h => absurd h (by decide),
          fun _ => h2inv hs2⟩
      have hsearch := search_stored ws c.ls _ _ hstage2 hinit
      rw [f1, f2, f3] at hsearch
      exact hsearch

/-- Any sequence of calls keeps the store in step with the history. -/
theorem run_stored (sqrt : ℚ → ℚ) (evs : List Event) : ∀ (ws : Workspace) (H : History),
    Stored ws.n ws.m ws.stage ws.mark ws.mp ws.s ws.y H →
    Stored (run sqrt ws evs).n (run sqrt ws evs).m (run sqrt ws evs).stage
      (run sqrt ws evs).mark (run sqrt ws evs).mp (run sqrt ws evs).s (run sqrt ws evs).y
      (history sqrt ws evs H) := by
  induction evs with
  | nil => intro ws H h; exact h
  | cons e es ih =>
    intro ws H h
    cases e with
    | call c => exact ih _ _ (step_stored sqrt ws c H h)
    | fmin v => exact ih _ _ h

/-- The body of the first loop reads the store at its own slot only. -/
theorem firstBody_congr (n m mm : Int) (active : Option Mask) (s y s1 y1 : Int → Vec) (k : Int)
    (t : TwoLoop) (hs : s1 ((mm - k).tmod m) = s ((mm - k).tmod m))
    (hy : y1 ((mm - k).tmod m) = y ((mm - k).tmod m)) :
    firstBody n m mm active s1 y1 k t = firstBody n m mm active s y k t := by
  unfold firstBody
  dsimp only
  rw [hs, hy]

/-- The first loop reads the store at the slots it visits only. -/
theorem firstLoop_congr (n m mm : Int) (active : Option Mask) (s y s1 y1 : Int → Vec)
    (t : TwoLoop) : ∀ c : Nat,
    (∀ k : Nat, k < c → s1 ((mm - (k : Int)).tmod m) = s ((mm - (k : Int)).tmod m) ∧
      y1 ((mm - (k : Int)).tmod m) = y ((mm - (k : Int)).tmod m)) →
    firstLoop n m mm active s1 y1 c t = firstLoop n m mm active s y c t := by
  intro c
  induction c with
  | zero => intro _; rfl
  | succ c ih =>
    intro h
    show firstBody n m mm active s1 y1 (c : Int) (firstLoop n m mm active s1 y1 c t) =
      firstBody n m mm active s y (c : Int) (firstLoop n m mm active s y c t)
    rw [ih (fun k hk => h k (by omega)),
      firstBody_congr n m mm active s y s1 y1 (c : Int) _ (h c (by omega)).1 (h c (by omega)).2]

/-- The second loop reads the store at the slots it visits only. -/
theorem secondLoop_congr (n m mm : Int) (active : Option Mask) (s y s1 y1 : Int → Vec)
    (alpha rho : Int → ℚ) : ∀ (c : Nat) (d : Vec),
    (∀ k : Nat, k < c → s1 ((mm - (k : Int)).tmod m) = s ((mm - (k : Int)).tmod m) ∧
      y1 ((mm - (k : Int)).tmod m) = y ((mm - (k : Int)).tmod m)) →
    secondLoop n m mm active s1 y1 alpha rho c d = secondLoop n m mm active s y alpha rho c d := by
  intro c
  induction c with
  | zero => intro d _; rfl
  | succ c ih =>
    intro d h
    show secondLoop n m mm active s1 y1 alpha rho c
        (secondBody n m mm active s1 y1 alpha rho (c : Int) d) =
      secondLoop n m mm active s y alpha rho c (secondBody n m mm active s y alpha rho (c : Int) d)
    have hb : secondBody n m mm active s1 y1 alpha rho (c : Int) d =
        secondBody n m mm active s y alpha rho (c : Int) d := by
      unfold secondBody
      dsimp only
      rw [(h c (by omega)).1, (h c (by omega)).2]
    rw [hb]
    exact ih _ (fun k hk => h k (by omega))

/-- The two-loop recursion reads the store at the slots `(mark + m - k)%m`,
`k < mp`, only: with any other store that holds the same arrays in these slots it
takes the same exit and computes the same `alpha`, `rho` and `d`. -/
theorem twoLoop_congr (ws : Workspace) (h : Option Vec) (L : Frame) (s1 y1 : Int → Vec)
    (hsy : ∀ k : Nat, k < L.mp.toNat →
      s1 (slot ws L k) = L.s (slot ws L k) ∧ y1 (slot ws L k) = L.y (slot ws L k)) :
    (twoLoop ws h { L with s := s1, y := y1 }).kind = (twoLoop ws h L).kind ∧
    (twoLoop ws h { L with s := s1, y := y1 }).frame =
      { (twoLoop ws h L).frame with s := s1, y := y1 } := by
  have h1 := firstLoop_congr ws.n ws.m (L.mark + ws.m)
    (check_active ws.n L.active h L.task L.csave).active L.s L.y s1 y1
    { alpha := L.alpha, rho := L.rho,
      d := op_dcopy_active ws.n L.g L.d (check_active ws.n L.active h L.task L.csave).active,
      gamma := 0 } L.mp.toNat hsy
  have h2 := fun alpha rho d => secondLoop_congr ws.n ws.m (L.mark + ws.m)
    (check_active ws.n L.active h L.task L.csave).active L.s L.y s1 y1 alpha rho L.mp.toNat d hsy
  unfold twoLoop
  dsimp only
  by_cases hrc : (check_active ws.n L.active h L.task L.csave).rc ≠ 0
  · simp only [if_pos hrc]
    exact ⟨rfl, rfl⟩
  · simp only [if_neg hrc]
    rw [h1]
    cases h with
    | some hv =>
      dsimp only [Recursion.kind, Recursion.frame]
      rw [h2]
      exact ⟨rfl, rfl⟩
    | none =>
      dsimp only
      by_cases hg : (firstLoop ws.n ws.m (L.mark + ws.m)
          (check_active ws.n L.active none L.task L.csave).active L.s L.y L.mp.toNat
          { alpha := L.alpha, rho := L.rho,
            d := op_dcopy_active ws.n L.g L.d
              (check_active ws.n L.active none L.task L.csave).active,
            gamma := 0 }).gamma > 0
      · simp only [if_pos hg]
        dsimp only [Recursion.kind, Recursion.frame]
        rw [h2]
        exact ⟨rfl, rfl⟩
      · simp only [if_neg hg]
        exact ⟨rfl, rfl⟩

/-- Counterexample to C18 as worded: after the start, a trial and an accepted
step of the run on the plane, the state has stage 3, `m = 2`, `mark = 0`,
`mp = 1`; the one accepted pair, with `S = (0, 2)`, is in slot 0, the slot the
two-loop recursion reads at `k = 0`, while slot `(mark - 1) mod m = 1` holds
zeros. -/
theorem pairs_off_by_one :
    Reachable Rat.sqrt (steps Rat.sqrt planeWs [planeCall0, planeTrial, planeAccept]) ∧
    run Rat.sqrt planeWs [Event.call planeCall0, Event.call planeTrial, Event.call planeAccept] =
      steps Rat.sqrt planeWs [planeCall0, planeTrial, planeAccept] ∧
    (steps Rat.sqrt planeWs [planeCall0, planeTrial, planeAccept]).stage = 3 ∧
    (steps Rat.sqrt planeWs [planeCall0, planeTrial, planeAccept]).m = 2 ∧
    (steps Rat.sqrt planeWs [planeCall0, planeTrial, planeAccept]).mark = 0 ∧
    (steps Rat.sqrt planeWs [planeCall0, planeTrial, planeAccept]).mp = 1 ∧
    (history Rat.sqrt planeWs
      [Event.call planeCall0, Event.call planeTrial, Event.call planeAccept]
      History.start).pairs.length = 1 ∧
    ((history Rat.sqrt planeWs
      [Event.call planeCall0, Event.call planeTrial, Event.call planeAccept]
      History.start).pairs[0]?.map fun p => p.1 1) = some 2 ∧
    ((steps Rat.sqrt planeWs [planeCall0, planeTrial, planeAccept]).mark - 1) %
      (steps Rat.sqrt planeWs [planeCall0, planeTrial, planeAccept]).m = 1 ∧
    (steps Rat.sqrt planeWs [planeCall0, planeTrial, planeAccept]).s 1 1 = 0 ∧
    (steps Rat.sqrt planeWs [planeCall0, planeTrial, planeAccept]).s 0 1 = 2 ∧
    slot (steps Rat.sqrt planeWs [planeCall0, planeTrial, planeAccept])
      (entry (steps Rat.sqrt planeWs [planeCall0, planeTrial, planeAccept])
        planeAccept.x planeAccept.f planeAccept.g planeAccept.active) 0 = 0 :=
  ⟨Reachable.next _ planeAccept (Reachable.next _ planeTrial (Reachable.next _ planeCall0
      (Reachable.first 2 2 0 (1/100000000) (1/1000) (9/10) (1/10) (1/10) 0 junk
        (by unfold ValidArgs; norm_num)))),
    rfl, by decide!, by decide!, by decide!, by decide!, by decide!, by decide!, by decide!,
    by decide!, by decide!, by decide!⟩

/-- C18, amended: in every state reached from a successful `op_vmlmb_first` by
calls of `op_vmlmb_next` and `op_vmlmb_set_fmin`, `mp` is the number of pairs
accepted since the last restart, capped at `m`.  At stage 3, the stage at which
the two-loop recursion runs, the pair of rank `k` (0 for the newest) is in slot
`(mark - k) mod m` for `k = 0..mp-1`; this is the slot `(mark + m - k)%m` the
recursion visits at index `k`, and the recursion reads no other slot of the
store.  At stage 2, after the mark has advanced, slot `mark` holds the point and
the gradient saved at the start of the line search and the pair of rank `k - 1`
is in slot `(mark - k) mod m` for `k = 1..min(mp, m-1)`. -/
theorem pairs_in_ring (sqrt : ℚ → ℚ) (n m : Int)
    (fatol frtol sftol sgtol sxtol delta epsilon : ℚ) (ws0 : Workspace)
    (hv : ValidArgs n m fatol frtol sftol sgtol sxtol delta epsilon) (evs : List Event)
    (ws : Workspace) (H : History)
    (hws : ws = run sqrt
      (op_vmlmb_first n m fatol frtol sftol sgtol sxtol delta epsilon ws0).2 evs)
    (hH : H = history sqrt
      (op_vmlmb_first n m fatol frtol sftol sgtol sxtol delta epsilon ws0).2 evs
      History.start) :
    ws.mp = min (H.pairs.length : Int) ws.m ∧
    (ws.stage = 3 → ∀ k : Nat, (k : Int) < ws.mp →
      (∃ p, H.pairs[k]? = some p ∧
        agree ws.n (ws.s ((ws.mark - (k : Int)) % ws.m)) p.1 ∧
        agree ws.n (ws.y ((ws.mark - (k : Int)) % ws.m)) p.2) ∧
      ∀ c : Call, slot ws (entry ws c.x c.f c.g c.active) k = (ws.mark - (k : Int)) % ws.m) ∧
    (ws.stage = 3 → ∀ (c : Call) (s1 y1 : Int → Vec),
      (∀ k : Nat, (k : Int) < ws.mp →
        s1 ((ws.mark - (k : Int)) % ws.m) = ws.s ((ws.mark - (k : Int)) % ws.m) ∧
        y1 ((ws.mark - (k : Int)) % ws.m) = ws.y ((ws.mark - (k : Int)) % ws.m)) →
      (twoLoop ws c.h { entry ws c.x c.f c.g c.active with s := s1, y := y1 }).kind =
        (twoLoop ws c.h (entry ws c.x c.f c.g c.active)).kind ∧
      (twoLoop ws c.h { entry ws c.x c.f c.g c.active with s := s1, y := y1 }).frame.d =
        (twoLoop ws c.h (entry ws c.x c.f c.g c.active)).frame.d) ∧
    (ws.stage = 2 → agree ws.n (ws.s ws.mark) H.x0 ∧ agree ws.n (ws.y ws.mark) H.g0 ∧
      ∀ k : Nat, (k : Int) < ws.mp → (k : Int) + 1 < ws.m →
        ∃ p, H.pairs[k]? = some p ∧
          agree ws.n (ws.s ((ws.mark - ((k : Int) + 1)) % ws.m)) p.1 ∧
          agree ws.n (ws.y ((ws.mark - ((k : Int) + 1)) % ws.m)) p.2) := by
  have hstart : Stored
      (op_vmlmb_first n m fatol frtol sftol sgtol sxtol delta epsilon ws0).2.n
      (op_vmlmb_first n m fatol frtol sftol sgtol sxtol delta epsilon ws0).2.m
      (op_vmlmb_first n m fatol frtol sftol sgtol sxtol delta epsilon ws0).2.stage
      (op_vmlmb_first n m fatol frtol sftol sgtol sxtol delta epsilon ws0).2.mark
      (op_vmlmb_first n m fatol frtol sftol sgtol sxtol delta epsilon ws0).2.mp
      (op_vmlmb_first n m fatol frtol sftol sgtol sxtol delta epsilon ws0).2.s
      (op_vmlmb_first n m fatol frtol sftol sgtol sxtol delta epsilon ws0).2.y
      History.start := by
    rw [first_task_of_valid n m fatol frtol sftol sgtol sxtol delta epsilon ws0 hv]
    have hm : 0 < m := hv.2.1
    refine ⟨hm, ⟨le_refl _, hm⟩, ?_, Or.inl rfl,
      fun h => absurd (show (0 : Int) = 3 from h) (by decide),
      fun h => absurd (show (0 : Int) = 2 from h) (by decide)⟩
    show (0 : Int) = min ((0 : Nat) : Int) m
    rw [Nat.cast_zero]; omega
  have hS := run_stored sqrt evs _ _ hstart
  rw [← hws, ← hH] at hS
  obtain ⟨hm, hmk, hmp, _, h3inv, h2inv⟩ := hS
  have hex : ∀ k : Nat, (k : Int) < ws.mp → ∃ p, H.pairs[k]? = some p := by
    intro k hk
    have hlen : k < H.pairs.length := by omega
    exact ⟨H.pairs[k], List.getElem?_eq_getElem hlen⟩
  have hslot : ∀ (k : Nat), (k : Int) < ws.mp → ∀ c : Call,
      slot ws (entry ws c.x c.f c.g c.active) k = (ws.mark - (k : Int)) % ws.m := by
    intro k hk c
    rw [slot_ring ws _ k (by rw [entry_mark]; exact hmk.1) hm (by omega), entry_mark]
  refine ⟨hmp, fun h3 k hk => ⟨?_, hslot k hk⟩, fun h3 c s1 y1 hsy => ?_, fun h2 => ?_⟩
  · obtain ⟨p, hp⟩ := hex k hk
    exact ⟨p, hp, h3inv h3 k p hk hp⟩
  · have hcongr := twoLoop_congr ws c.h (entry ws c.x c.f c.g c.active) s1 y1 (by
      intro k hk
      have hk1 : (k : Int) < ws.mp := by
        rw [entry_mp] at hk
        omega
      rw [hslot k hk1 c, entry_s, entry_y]
      exact hsy k hk1)
    exact ⟨hcongr.1, by rw [hcongr.2]⟩
  · obtain ⟨hx, hg, hp⟩ := h2inv h2
    refine ⟨hx, hg, fun k hk hkm => ?_⟩
    obtain ⟨p, hget⟩ := hex k hk
    exact ⟨p, hget, hp k p hk hkm hget⟩

/-- Witness of the amended C18: after the start, a trial and an accepted step of
the run on the plane the state has stage 3, `mark = 0` and `mp = 1`, and the pair
accepted is in slot `(mark - 0) mod m = 0`. -/
theorem pairs_in_ring_witness :
    ValidArgs 2 2 0 (1/100000000) (1/1000) (9/10) (1/10) (1/10) 0 ∧
    (run Rat.sqrt planeWs planeEvents).stage = 3 ∧
    (run Rat.sqrt planeWs planeEvents).mp = 1 ∧
    ((run Rat.sqrt planeWs planeEvents).mark - ((0 : Nat) : Int)) %
      (run Rat.sqrt planeWs planeEvents).m = 0 ∧
    ∃ p, (history Rat.sqrt planeWs planeEvents History.start).pairs[0]? = some p ∧
      agree (run Rat.sqrt planeWs planeEvents).n
        ((run Rat.sqrt planeWs planeEvents).s
          (((run Rat.sqrt planeWs planeEvents).mark - ((0 : Nat) : Int)) %
            (run Rat.sqrt planeWs planeEvents).m)) p.1 ∧
      agree (run Rat.sqrt planeWs planeEvents).n
        ((run Rat.sqrt planeWs planeEvents).y
          (((run Rat.sqrt planeWs planeEvents).mark - ((0 : Nat) : Int)) %
            (run Rat.sqrt planeWs planeEvents).m)) p.2 :=
  have hv : ValidArgs 2 2 0 (1/100000000) (1/1000) (9/10) (1/10) (1/10) 0 := by
    unfold ValidArgs; norm_num
  have h3 : (run Rat.sqrt planeWs planeEvents).stage = 3 := by decide!
  have hmp : (run Rat.sqrt planeWs planeEvents).mp = 1 := by decide!
  have h := (pairs_in_ring Rat.sqrt 2 2 0 (1/100000000) (1/1000) (9/10) (1/10) (1/10) 0 junk hv
    planeEvents (run Rat.sqrt planeWs planeEvents)
    (history Rat.sqrt planeWs planeEvents History.start) rfl rfl).2.1
    h3 0 (by rw [hmp]; decide)
  ⟨hv, h3, hmp, by decide!, h.1⟩

/-! ### C19: the sign convention of the store -/

theorem ddot_neg_left (n : Int) (a b : Vec) :
    op_ddot n (fun i => -a i) b = -op_ddot n a b := by
  unfold op_ddot
  rw [← Finset.sum_neg_distrib]
  exact Finset.sum_congr rfl (fun i _ => by ring)

theorem ddot_active_neg (n : Int) (a b : Vec) (active : Option Mask) :
    op_ddot_active n (fun i => -a i) (fun i => -b i) active = op_ddot_active n a b active := by
  cases active with
  | none =>
    show op_ddot n _ _ = op_ddot n a b
    unfold op_ddot
    exact Finset.sum_congr rfl (fun i _ => by ring)
  | some act =>
    show (∑ i in Finset.range n.toNat, if act i then (-a i) * (-b i) else 0) =
      ∑ i in Finset.range n.toNat, if act i then a i * b i else 0
    exact Finset.sum_congr rfl (fun i _ => by split_ifs <;> ring)

theorem daxpy_active_neg (n : Int) (c : ℚ) (x y : Vec) (active : Option Mask) :
    op_daxpy_active n (-c) (fun i => -x i) y active = op_daxpy_active n c x y active := by
  cases active with
  | none =>
    funext i
    show (if i < n.toNat then y i + -c * -x i else y i) = if i < n.toNat then y i + c * x i else y i
    split_ifs <;> ring
  | some act =>
    funext i
    show (if i < n.toNat ∧ act i = true then y i + -c * -x i else y i) =
      if i < n.toNat ∧ act i = true then y i + c * x i else y i
    split_ifs <;> ring

/-- One iteration of the first loop on the negated store: same `rho`, `d` and
`gamma`; the coefficient written, if any, is the opposite one. -/
theorem firstBody_flip (n m mm : Int) (active : Option Mask) (s y : Int → Vec) (k : Int)
    (t u : TwoLoop) (hrho : u.rho = t.rho) (hd : u.d = t.d) (hgamma : u.gamma = t.gamma) :
    (firstBody n m mm active (fun j i => -s j i) (fun j i => -y j i) k u).rho =
      (firstBody n m mm active s y k t).rho ∧
    (firstBody n m mm active (fun j i => -s j i) (fun j i => -y j i) k u).d =
      (firstBody n m mm active s y k t).d ∧
    (firstBody n m mm active (fun j i => -s j i) (fun j i => -y j i) k u).gamma =
      (firstBody n m mm active s y k t).gamma ∧
    (0 < (firstBody n m mm active s y k t).rho ((mm - k).tmod m) →
      (firstBody n m mm active (fun j i => -s j i) (fun j i => -y j i) k u).alpha
          ((mm - k).tmod m) =
        -(firstBody n m mm active s y k t).alpha ((mm - k).tmod m)) ∧
    (∀ j, j ≠ (mm - k).tmod m →
      (firstBody n m mm active (fun j i => -s j i) (fun j i => -y j i) k u).alpha j = u.alpha j ∧
      (firstBody n m mm active s y k t).alpha j = t.alpha j ∧
      (firstBody n m mm active s y k t).rho j = t.rho j) := by
  have hr : (if active.isSome then Function.update u.rho ((mm - k).tmod m)
        (op_ddot_active n (fun i => -s ((mm - k).tmod m) i) (fun i => -y ((mm - k).tmod m) i)
          active) else u.rho) =
      (if active.isSome then Function.update t.rho ((mm - k).tmod m)
        (op_ddot_active n (s ((mm - k).tmod m)) (y ((mm - k).tmod m)) active) else t.rho) := by
    rw [ddot_active_neg, hrho]
  unfold firstBody
  dsimp only
  rw [hr, hd, hgamma]
  by_cases hpos : (if active.isSome then Function.update t.rho ((mm - k).tmod m)
        (op_ddot_active n (s ((mm - k).tmod m)) (y ((mm - k).tmod m)) active) else t.rho)
      ((mm - k).tmod m) > 0
  · rw [if_pos hpos, if_pos hpos]
    dsimp only
    refine ⟨rfl, ?_, ?_, fun _ => ?_, fun j hj => ⟨?_, ?_, ?_⟩⟩
    · rw [ddot_neg_left, neg_div, neg_neg]
      have := daxpy_active_neg n
        (-(op_ddot n (s ((mm - k).tmod m)) t.d /
          (if active.isSome then Function.update t.rho ((mm - k).tmod m)
            (op_ddot_active n (s ((mm - k).tmod m)) (y ((mm - k).tmod m)) active) else t.rho)
          ((mm - k).tmod m)))
        (y ((mm - k).tmod m)) t.d active
      rw [neg_neg] at this
      exact this
    · rw [ddot_active_neg]
    · rw [Function.update_same, Function.update_same, ddot_neg_left, neg_div]
    · rw [Function.update_noteq hj]
    · rw [Function.update_noteq hj]
    · split_ifs
      · rw [Function.update_noteq hj]
      · rfl
  · rw [if_neg hpos, if_neg hpos]
    dsimp only
    refine ⟨rfl, rfl, rfl, fun h => absurd h hpos, fun j hj => ⟨rfl, rfl, ?_⟩⟩
    split_ifs
    · rw [Function.update_noteq hj]
    · rfl

/-- The first loop on the negated store: same `rho`, `d` and `gamma`, and the
opposite coefficient `alpha[j]` for every pair visited whose `rho[j]` is
positive. -/
theorem firstLoop_flip (n m mm : Int) (active : Option Mask) (s y : Int → Vec)
    (t : TwoLoop) : ∀ c : Nat,
    (firstLoop n m mm active (fun j i => -s j i) (fun j i => -y j i) c t).rho =
      (firstLoop n m mm active s y c t).rho ∧
    (firstLoop n m mm active (fun j i => -s j i) (fun j i => -y j i) c t).d =
      (firstLoop n m mm active s y c t).d ∧
    (firstLoop n m mm active (fun j i => -s j i) (fun j i => -y j i) c t).gamma =
      (firstLoop n m mm active s y c t).gamma ∧
    (∀ k : Nat, k < c → 0 < (firstLoop n m mm active s y c t).rho ((mm - (k : Int)).tmod m) →
      (firstLoop n m mm active (fun j i => -s j i) (fun j i => -y j i) c t).alpha
          ((mm - (k : Int)).tmod m) =
        -(firstLoop n m mm active s y c t).alpha ((mm - (k : Int)).tmod m)) := by
  intro c
  induction c with
  | zero => exact ⟨rfl, rfl, rfl, fun k hk => absurd hk (by omega)⟩
  | succ c ih =>
    obtain ⟨h1, h2, h3, h4⟩ := ih
    obtain ⟨b1, b2, b3, b4, b5⟩ := firstBody_flip n m mm active s y (c : Int)
      (firstLoop n m mm active s y c t)
      (firstLoop n m mm active (fun j i => -s j i) (fun j i => -y j i) c t) h1 h2 h3
    refine ⟨b1, b2, b3, fun k hk hpos => ?_⟩
    by_cases hj : (mm - (k : Int)).tmod m = (mm - (c : Int)).tmod m
    · show (firstBody n m mm active _ _ (c : Int) _).alpha _ =
        -(firstBody n m mm active s y (c : Int) _).alpha _
      rw [hj]
      refine b4 ?_
      rw [← hj]
      exact hpos
    · obtain ⟨a1, a2, a3⟩ := b5 _ hj
      have hkc : k < c := by
        rcases Nat.lt_succ_iff_lt_or_eq.1 hk with h | h
        · exact h
        · exact absurd (by rw [h]) hj
      show (firstBody n m mm active _ _ (c : Int) _).alpha _ =
        -(firstBody n m mm active s y (c : Int) _).alpha _
      rw [a1, a2]
      refine h4 k hkc ?_
      rw [← a3]
      exact hpos

/-- The second loop on the negated store, with opposite coefficients for the
pairs it uses, computes the same `d`. -/
theorem secondLoop_flip (n m mm : Int) (active : Option Mask) (s y : Int → Vec)
    (alpha beta rho : Int → ℚ) : ∀ (c : Nat) (d : Vec),
    (∀ k : Nat, k < c → 0 < rho ((mm - (k : Int)).tmod m) →
      beta ((mm - (k : Int)).tmod m) = -alpha ((mm - (k : Int)).tmod m)) →
    secondLoop n m mm active (fun j i => -s j i) (fun j i => -y j i) beta rho c d =
      secondLoop n m mm active s y alpha rho c d := by
  intro c
  induction c with
  | zero => intro d _; rfl
  | succ c ih =>
    intro d hb
    show secondLoop n m mm active _ _ beta rho c (secondBody n m mm active _ _ beta rho c d) =
      secondLoop n m mm active s y alpha rho c (secondBody n m mm active s y alpha rho c d)
    have hbody : secondBody n m mm active (fun j i => -s j i) (fun j i => -y j i) beta rho c d =
        secondBody n m mm active s y alpha rho c d := by
      unfold secondBody
      dsimp only
      by_cases hpos : rho ((mm - (c : Int)).tmod m) > 0
      · rw [if_pos hpos, if_pos hpos, hb c (by omega) hpos, ddot_neg_left]
        have hcoef : -alpha ((mm - (c : Int)).tmod m) -
            -op_ddot n (y ((mm - (c : Int)).tmod m)) d / rho ((mm - (c : Int)).tmod m) =
            -(alpha ((mm - (c : Int)).tmod m) - op_ddot n (y ((mm - (c : Int)).tmod m)) d /
              rho ((mm - (c : Int)).tmod m)) := by ring
        rw [hcoef]
        exact daxpy_active_neg n _ _ d active
      · rw [if_neg hpos, if_neg hpos]
    rw [hbody]
    exact ih _ (fun k hk => hb k (by omega))

/-- The block from label `restart` reads neither the store nor `alpha`. -/
theorem restart_withStore (sqrt : ℚ → ℚ) (ws : Workspace) (h : Option Vec) (F : Frame)
    (s y : Int → Vec) (alpha : Int → ℚ) :
    (restart sqrt ws h (withStore F s y alpha)).isCont = (restart sqrt ws h F).isCont ∧
    (restart sqrt ws h (withStore F s y alpha)).frame =
      withStore (restart sqrt ws h F).frame s y alpha := by
  unfold restart withStore
  dsimp only
  by_cases hrc : (check_active ws.n F.active h F.task F.csave).rc ≠ 0
  · simp only [if_pos hrc]
    exact ⟨rfl, rfl⟩
  · simp only [if_neg hrc]
    by_cases hg : op_dnrm2 sqrt ws.n (op_dcopy_active ws.n F.g F.d
        (check_active ws.n F.active h F.task F.csave).active) = 0
    · simp only [if_pos hg]
      exact ⟨rfl, rfl⟩
    · simp only [if_neg hg]
      cases h with
      | none => exact ⟨rfl, rfl⟩
      | some hv =>
        dsimp only
        by_cases hgd : -op_ddot ws.n F.g (mulDiag ws.n hv (op_dcopy_active ws.n F.g F.d
            (check_active ws.n F.active (some hv) F.task F.csave).active)) ≥ 0
        · simp only [if_pos hgd]
          exact ⟨rfl, rfl⟩
        · simp only [if_neg hgd]
          exact ⟨rfl, rfl⟩

/-- The two-loop recursion on the negated store takes the same exit and leaves
the same frame but for the store and `alpha`; when it runs, the coefficient
`alpha[j]` of every pair visited with `rho[j] > 0` is the opposite one. -/
theorem twoLoop_flip (ws : Workspace) (h : Option Vec) (L : Frame) :
    (twoLoop ws h (flipStore L)).kind = (twoLoop ws h L).kind ∧
    (twoLoop ws h (flipStore L)).frame =
      withStore (twoLoop ws h L).frame (fun j i => -L.s j i) (fun j i => -L.y j i)
        (twoLoop ws h (flipStore L)).frame.alpha ∧
    ((check_active ws.n L.active h L.task L.csave).rc = 0 →
      ∀ k : Nat, k < L.mp.toNat → 0 < (twoLoop ws h L).frame.rho (slot ws L k) →
        (twoLoop ws h (flipStore L)).frame.alpha (slot ws L k) =
          -(twoLoop ws h L).frame.alpha (slot ws L k)) := by
  obtain ⟨h1, h2, h3, h4⟩ := firstLoop_flip ws.n ws.m (L.mark + ws.m)
    (check_active ws.n L.active h L.task L.csave).active L.s L.y
    { alpha := L.alpha, rho := L.rho,
      d := op_dcopy_active ws.n L.g L.d (check_active ws.n L.active h L.task L.csave).active,
      gamma := 0 } L.mp.toNat
  unfold twoLoop flipStore withStore slot
  dsimp only
  by_cases hrc : (check_active ws.n L.active h L.task L.csave).rc ≠ 0
  · simp only [if_pos hrc]
    exact ⟨rfl, rfl, fun h0 => absurd h0 hrc⟩
  · simp only [if_neg hrc]
    cases h with
    | some hv =>
      dsimp only [Recursion.kind, Recursion.frame]
      rw [h1, h2, secondLoop_flip ws.n ws.m (L.mark + ws.m) _ L.s L.y _ _ _ L.mp.toNat _ h4]
      exact ⟨rfl, rfl, fun _ k hk hpos => h4 k hk hpos⟩
    | none =>
      dsimp only
      rw [h3]
      by_cases hg : (firstLoop ws.n ws.m (L.mark + ws.m)
          (check_active ws.n L.active none L.task L.csave).active L.s L.y L.mp.toNat
          { alpha := L.alpha, rho := L.rho,
            d := op_dcopy_active ws.n L.g L.d
              (check_active ws.n L.active none L.task L.csave).active,
            gamma := 0 }).gamma > 0
      · simp only [if_pos hg]
        dsimp only [Recursion.kind, Recursion.frame]
        rw [h1, h2, secondLoop_flip ws.n ws.m (L.mark + ws.m) _ L.s L.y _ _ _ L.mp.toNat _ h4]
        exact ⟨rfl, rfl, fun _ k hk hpos => h4 k hk hpos⟩
      · simp only [if_neg hg]
        dsimp only [Recursion.kind, Recursion.frame]
        rw [h1, h2]
        exact ⟨rfl, rfl, fun _ k hk hpos => h4 k hk hpos⟩

/-- The stage-3 block on the negated store goes the same way and leaves the same
frame but for the store and `alpha`. -/
theorem stage3_flip (sqrt : ℚ → ℚ) (ws : Workspace) (h : Option Vec) (L : Frame) :
    (stage3 sqrt ws h (flipStore L)).isCont = (stage3 sqrt ws h L).isCont ∧
    (stage3 sqrt ws h (flipStore L)).frame =
      withStore (stage3 sqrt ws h L).frame (fun j i => -L.s j i) (fun j i => -L.y j i)
        (twoLoop ws h (flipStore L)).frame.alpha := by
  obtain ⟨hk, hf, _⟩ := twoLoop_flip ws h L
  unfold stage3
  cases h0 : twoLoop ws h L with
  | done F =>
    cases h1 : twoLoop ws h (flipStore L) with
    | done G =>
      rw [h0, h1] at hf
      dsimp only [Recursion.frame] at hf
      exact ⟨rfl, hf⟩
    | restart G => rw [h0, h1] at hk; exact absurd hk (by simp [Recursion.kind])
    | dir G => rw [h0, h1] at hk; exact absurd hk (by simp [Recursion.kind])
  | restart F =>
    cases h1 : twoLoop ws h (flipStore L) with
    | done G => rw [h0, h1] at hk; exact absurd hk (by simp [Recursion.kind])
    | restart G =>
      rw [h0, h1] at hf
      dsimp only [Recursion.frame] at hf ⊢
      rw [hf]
      exact restart_withStore sqrt ws h F _ _ _
    | dir G => rw [h0, h1] at hk; exact absurd hk (by simp [Recursion.kind])
  | dir F =>
    cases h1 : twoLoop ws h (flipStore L) with
    | done G => rw [h0, h1] at hk; exact absurd hk (by simp [Recursion.kind])
    | restart G => rw [h0, h1] at hk; exact absurd hk (by simp [Recursion.kind])
    | dir G =>
      rw [h0, h1] at hf
      dsimp only [Recursion.frame] at hf ⊢
      rw [hf]
      have hdesc : descent sqrt ws (withStore F (fun j i => -L.s j i) (fun j i => -L.y j i)
          G.alpha) (-op_ddot ws.n (withStore F (fun j i => -L.s j i) (fun j i => -L.y j i)
            G.alpha).g (withStore F (fun j i => -L.s j i) (fun j i => -L.y j i) G.alpha).d) =
          descent sqrt ws F (-op_ddot ws.n F.g F.d) := rfl
      rw [hdesc]
      by_cases hd : ¬ descent sqrt ws F (-op_ddot ws.n F.g F.d) = true
      · rw [if_pos hd, if_pos hd]
        exact restart_withStore sqrt ws h
          { F with gd := -op_ddot ws.n F.g F.d, nrestarts := F.nrestarts + 1 } _ _ _
      · rw [if_neg hd, if_neg hd]
        exact ⟨rfl, rfl⟩

/-- Replacing the store and `alpha` leaves the other locals alone. -/
theorem withStore_fields (F : Frame) (s y : Int → Vec) (alpha : Int → ℚ) :
    (withStore F s y alpha).rho = F.rho ∧ (withStore F s y alpha).d = F.d ∧
    (withStore F s y alpha).gd = F.gd ∧ (withStore F s y alpha).mark = F.mark ∧
    (withStore F s y alpha).task = F.task :=
  ⟨rfl, rfl, rfl, rfl, rfl⟩

/-- C19: sign-convention invariance of the two-loop recursion.  For every
workspace, preconditioner and frame (gradient, mask, `mark`, `mp`, store `S`, `Y`,
`rho`), running the stage-3 block on the store with every `S[j]` and `Y[j]`
negated takes the same exit, yields the same `rho`, the same direction `d` and
the same `gd`, and, when the recursion runs, the opposite `alpha[j]` for every
pair `j` visited whose `rho[j]` is positive, the pairs for which the code
computes `alpha[j]`. -/
theorem sign_convention (sqrt : ℚ → ℚ) (ws : Workspace) (h : Option Vec) (L : Frame) :
    (twoLoop ws h (flipStore L)).kind = (twoLoop ws h L).kind ∧
    (twoLoop ws h (flipStore L)).frame.rho = (twoLoop ws h L).frame.rho ∧
    (twoLoop ws h (flipStore L)).frame.d = (twoLoop ws h L).frame.d ∧
    ((check_active ws.n L.active h L.task L.csave).rc = 0 →
      ∀ k : Nat, k < L.mp.toNat → 0 < (twoLoop ws h L).frame.rho (slot ws L k) →
        (twoLoop ws h (flipStore L)).frame.alpha (slot ws L k) =
          -(twoLoop ws h L).frame.alpha (slot ws L k)) ∧
    (stage3 sqrt ws h (flipStore L)).isCont = (stage3 sqrt ws h L).isCont ∧
    (stage3 sqrt ws h (flipStore L)).frame.d = (stage3 sqrt ws h L).frame.d ∧
    (stage3 sqrt ws h (flipStore L)).frame.gd = (stage3 sqrt ws h L).frame.gd ∧
    (stage3 sqrt ws h (flipStore L)).frame.rho = (stage3 sqrt ws h L).frame.rho ∧
    (stage3 sqrt ws h (flipStore L)).frame.mark = (stage3 sqrt ws h L).frame.mark ∧
    (stage3 sqrt ws h (flipStore L)).frame.task = (stage3 sqrt ws h L).frame.task := by
  obtain ⟨hk, hf, ha⟩ := twoLoop_flip ws h L
  obtain ⟨hc, hs⟩ := stage3_flip sqrt ws h L
  exact ⟨hk, (congrArg Frame.rho hf).trans (withStore_fields _ _ _ _).1,
    (congrArg Frame.d hf).trans (withStore_fields _ _ _ _).2.1, ha, hc,
    (congrArg Frame.d hs).trans (withStore_fields _ _ _ _).2.1,
    (congrArg Frame.gd hs).trans (withStore_fields _ _ _ _).2.2.1,
    (congrArg Frame.rho hs).trans (withStore_fields _ _ _ _).1,
    (congrArg Frame.mark hs).trans (withStore_fields _ _ _ _).2.2.2.1,
    (congrArg Frame.task hs).trans (withStore_fields _ _ _ _).2.2.2.2⟩

/-- Witness of C19: the single pair `S[0] = (1, 1)`, `Y[0] = (2, 0)` with
`rho[0] = 2` and gradient `(1, 1)`: `alpha[0]` is 1 with the store as given and
-1 with the negated store, and the direction is `(1, 2)` in both cases. -/
theorem sign_convention_witness :
    (check_active pairWs.n pairFrame.active none pairFrame.task pairFrame.csave).rc = 0 ∧
    (twoLoop pairWs none pairFrame).frame.alpha (slot pairWs pairFrame 0) = 1 ∧
    (twoLoop pairWs none (flipStore pairFrame)).frame.alpha (slot pairWs pairFrame 0) =
      -(twoLoop pairWs none pairFrame).frame.alpha (slot pairWs pairFrame 0) ∧
    (twoLoop pairWs none (flipStore pairFrame)).frame.d 1 = 2 ∧
    (stage3 Rat.sqrt pairWs none (flipStore pairFrame)).frame.gd =
      (stage3 Rat.sqrt pairWs none pairFrame).frame.gd :=
  have h := sign_convention Rat.sqrt pairWs none pairFrame
  ⟨rfl, by decide!, h.2.2.2.1 rfl 0 (by decide) (by decide!), by decide!, h.2.2.2.2.2.2.1⟩

/-! ### C20: the getter of gpnorm -/

/-- C20: `op_vmlmb_next` never writes the projected-gradient norm back to the
workspace: in every workspace reachable from a successful `op_vmlmb_first` by
calls of `op_vmlmb_next` and `op_vmlmb_set_fmin`, the getter
`op_vmlmb_get_gpnorm` returns 0, the value stored by `op_vmlmb_first`, whatever
gradients were passed. -/
theorem gpnorm_stays_zero (sqrt : ℚ → ℚ) (ws : Workspace) (hr : Reachable sqrt ws) :
    op_vmlmb_get_gpnorm ws = 0 := by
  unfold op_vmlmb_get_gpnorm
  induction hr with
  | first n m fatol frtol sftol sgtol sxtol delta epsilon ws hv =>
    rw [first_task_of_valid n m fatol frtol sftol sgtol sxtol delta epsilon ws hv]
  | next ws c _ ih => rw [(step_const sqrt ws c).1]; exact ih
  | set_fmin ws v _ ih => exact ih

/-- Witness of C20: after the first call of the run on the plane, where the
norm of the gradient `(0, 5)` is 5, the getter still returns 0. -/
theorem gpnorm_stays_zero_witness :
    Reachable Rat.sqrt (step Rat.sqrt planeWs planeCall0).ws ∧
    op_dnrm2 Rat.sqrt 2 planeCall0.g = 5 ∧
    op_vmlmb_get_gpnorm (step Rat.sqrt planeWs planeCall0).ws = 0 :=
  have hr : Reachable Rat.sqrt (step Rat.sqrt planeWs planeCall0).ws :=
    Reachable.next _ planeCall0
      (Reachable.first 2 2 0 (1/100000000) (1/1000) (9/10) (1/10) (1/10) 0 junk
        (by unfold ValidArgs; norm_num))
  ⟨hr, by decide!, gpnorm_stays_zero Rat.sqrt _ hr⟩

/-! ### C21: the stage stored on return -/

/-- A call that jumps to `done` from the dispatch on the stage leaves the stage
as stored. -/
theorem direction_done_stage (sqrt : ℚ → ℚ) (ws : Workspace) (h : Option Vec) (L : Frame)
    (hc : (direction sqrt ws h L).isCont = false) :
    (direction sqrt ws h L).frame.stage = L.stage := by
  unfold direction at hc ⊢
  by_cases h0 : L.stage = 0
  · rw [if_pos h0] at hc ⊢
    by_cases hm : FLAG_IS_SET ws.flags FLAG_FMIN = true ∧ L.f ≤ ws.fmin
    · rw [if_pos hm]; rfl
    · rw [if_neg hm] at hc ⊢
      exact (restart_done_csave sqrt ws h _ hc).2
  · rw [if_neg h0] at hc ⊢
    by_cases h3 : L.stage = 3
    · rw [if_pos h3] at hc ⊢
      exact (stage3_done_csave sqrt ws h L hc).2
    · rw [if_neg h3] at hc ⊢
      by_cases h2 : L.stage = 2
      · rw [if_pos h2] at hc; exact absurd hc (by simp [Flow.isCont])
      · rw [if_neg h2]; rfl

/-- The stage stored by a call of `op_vmlmb_next` is 2 or 3 when control reaches
the line-search part, and the stage found on entry, which is the stored stage
converted to `int`, otherwise. -/
theorem step_stage (sqrt : ℚ → ℚ) (ws : Workspace) (c : Call) :
    ((direction sqrt ws c.h (entry ws c.x c.f c.g c.active)).isCont = true →
      (step sqrt ws c).ws.stage = 2 ∨ (step sqrt ws c).ws.stage = 3) ∧
    ((direction sqrt ws c.h (entry ws c.x c.f c.g c.active)).isCont = false →
      (step sqrt ws c).ws.stage = castInt ws.stage) := by
  refine ⟨fun hc => ?_, fun hc => ?_⟩
  · rw [next_of_cont sqrt ws c hc]
    exact search_stage ws c.ls _ (initSearch_stage ws _ (direction_stage sqrt ws c.h _ hc))
  · rw [next_of_done sqrt ws c hc]
    exact (direction_done_stage sqrt ws c.h _ hc).trans (entry_stage ws c.x c.f c.g c.active)

/-- With stage 0, 2 or 3 stored, the dispatch on the stage does not end in its
last branch. -/
theorem direction_not_corrupted (sqrt : ℚ → ℚ) (ws : Workspace) (c : Call)
    (hst : ws.stage = 0 ∨ ws.stage = 2 ∨ ws.stage = 3) :
    direction sqrt ws c.h (entry ws c.x c.f c.g c.active) ≠
      Flow.done { entry ws c.x c.f c.g c.active with
        task := Task.ERROR, csave := "op_vmlmb_next: corrupted workspace" } := by
  intro heq
  have hc : (direction sqrt ws c.h (entry ws c.x c.f c.g c.active)).isCont = false := by
    rw [heq]; rfl
  have hcs : (direction sqrt ws c.h (entry ws c.x c.f c.g c.active)).frame.csave =
      "op_vmlmb_next: corrupted workspace" := by
    rw [heq]; rfl
  have hstep := next_of_done sqrt ws
    { ls := { info := c.ls.info, stp := c.ls.stp, task := c.ls.task, csave := "" },
      x := c.x, f := c.f, g := c.g, active := c.active, h := c.h } hc
  have horig := corrupted_origin sqrt ws
    { ls := { info := c.ls.info, stp := c.ls.stp, task := c.ls.task, csave := "" },
      x := c.x, f := c.f, g := c.g, active := c.active, h := c.h }
    (show "" ≠ "op_vmlmb_next: corrupted workspace" by decide)
    (by rw [hstep]; exact hcs)
  rw [castInt_of_range ws.stage (by omega)] at horig
  omega

/-- C21: in every workspace reached from a successful `op_vmlmb_first` by calls
of `op_vmlmb_next` (any arguments, any line-search outcome) and
`op_vmlmb_set_fmin`, the stored stage is 0, 2 or 3.  Stage 1 is consumed within
the call that sets it: such a call stores stage 2 or 3.  Hence no call made from
such a workspace ends in the last branch of the dispatch on the stage, and none
leaves "corrupted workspace", provided the line search does not leave this
message itself. -/
theorem stage_persisted (sqrt : ℚ → ℚ) (ws : Workspace) (hr : Reachable sqrt ws) :
    (ws.stage = 0 ∨ ws.stage = 2 ∨ ws.stage = 3) ∧
    (∀ c : Call, startsSearch sqrt ws c →
      (step sqrt ws c).ws.stage = 2 ∨ (step sqrt ws c).ws.stage = 3) ∧
    (∀ c : Call, direction sqrt ws c.h (entry ws c.x c.f c.g c.active) ≠
      Flow.done { entry ws c.x c.f c.g c.active with
        task := Task.ERROR, csave := "op_vmlmb_next: corrupted workspace" }) ∧
    (∀ c : Call, c.ls.csave ≠ "op_vmlmb_next: corrupted workspace" →
      (step sqrt ws c).ws.csave ≠ "op_vmlmb_next: corrupted workspace") := by
  have hst : ws.stage = 0 ∨ ws.stage = 2 ∨ ws.stage = 3 := by
    induction hr with
    | first n m fatol frtol sftol sgtol sxtol delta epsilon ws hv =>
      rw [first_task_of_valid n m fatol frtol sftol sgtol sxtol delta epsilon ws hv]
      exact Or.inl rfl
    | next ws c _ ih =>
      cases hc : (direction sqrt ws c.h (entry ws c.x c.f c.g c.active)).isCont with
      | true =>
        rcases (step_stage sqrt ws c).1 hc with h | h
        · exact Or.inr (Or.inl h)
        · exact Or.inr (Or.inr h)
      | false =>
        rw [(step_stage sqrt ws c).2 hc, castInt_of_range ws.stage (by omega)]
        exact ih
    | set_fmin ws v _ ih => exact ih
  refine ⟨hst, fun c hs => (step_stage sqrt ws c).1 hs.1,
    fun c => direction_not_corrupted sqrt ws c hst, fun c hls hcs => ?_⟩
  have horig := corrupted_origin sqrt ws c hls hcs
  rw [castInt_of_range ws.stage (by omega)] at horig
  omega

/-- Witness of C21: the run on the plane; its first call sets stage 1 and stores
stage 2, and after a trial and an accepted step the stored stage is 3. -/
theorem stage_persisted_witness :
    Reachable Rat.sqrt (steps Rat.sqrt planeWs [planeCall0, planeTrial, planeAccept]) ∧
    startsSearch Rat.sqrt planeWs planeCall0 ∧
    (step Rat.sqrt planeWs planeCall0).ws.stage = 2 ∧
    (steps Rat.sqrt planeWs [planeCall0, planeTrial, planeAccept]).stage = 3 ∧
    ((steps Rat.sqrt planeWs [planeCall0, planeTrial, planeAccept]).stage = 0 ∨
      (steps Rat.sqrt planeWs [planeCall0, planeTrial, planeAccept]).stage = 2 ∨
      (steps Rat.sqrt planeWs [planeCall0, planeTrial, planeAccept]).stage = 3) ∧
    (step Rat.sqrt (steps Rat.sqrt planeWs [planeCall0, planeTrial, planeAccept])
      planeTrial).ws.csave ≠ "op_vmlmb_next: corrupted workspace" :=
  have hr : Reachable Rat.sqrt (steps Rat.sqrt planeWs [planeCall0, planeTrial, planeAccept]) :=
    Reachable.next _ planeAccept (Reachable.next _ planeTrial (Reachable.next _ planeCall0
      (Reachable.first 2 2 0 (1/100000000) (1/1000) (9/10) (1/10) (1/10) 0 junk
        (by unfold ValidArgs; norm_num))))
  have h := stage_persisted Rat.sqrt _ hr
  ⟨hr, by unfold startsSearch; decide!, by decide!, by decide!, h.1,
    h.2.2.2 planeTrial (by decide)⟩

end VMLMB
